import Mathlib

set_option maxHeartbeats 1000000

namespace KosCheck

/-! # Embedding of the type engine

From `src/server/src/typeChecker/types/vessel/stage.ts` (the `GenericType`,
`GenericVariadicType` and `VariadicType` classes).

The TS heap of catalog type objects is acyclic (a supertype is always
constructed before `addSuper` links it), so a type object is embedded as an
inductive value; TS reference equality (`===`) on type objects becomes
structural equality on these values. -/

inductive OperatorKind where
  | plus | subtract | multiply | divide | power
  | greaterThan | lessThan | greaterThanEqual | lessThanEqual
  | notEqual | equal
  deriving DecidableEq

mutual

/-- A `GenericType` object: name, optional single supertype, the explicit
coercible set, the suffix map, and the operator map
(`Map<OperatorKind, Operator[]>`), exactly the fields read by `isSubtype`,
`canCoerce`, `getSuffix` and `getOperator`. -/
inductive GType where
  | mk
    (name : String)
    (superType : OptType)
    (coercibleTypes : TypeList)
    (suffixes : SuffixMap)
    (operators : OperatorMap)

/-- `IGenericType | undefined`: an optional reference to a type object. -/
inductive OptType where
  | none
  | some (t : GType)

/-- `Set<IGenericType>`: the explicit coercible types of one type object. -/
inductive TypeList where
  | nil
  | cons (t : GType) (rest : TypeList)

/-- `Map<string, IGenericType>`: the suffix map of one type object. -/
inductive SuffixMap where
  | nil
  | cons (name : String) (t : GType) (rest : SuffixMap)

/-- `Map<OperatorKind, Operator[]>`: operator lists keyed by kind. -/
inductive OperatorMap where
  | nil
  | cons (kind : OperatorKind) (ops : OperList) (rest : OperatorMap)

/-- `Operator[]`: the operators registered for one kind. -/
inductive OperList where
  | nil
  | cons (op : Oper) (rest : OperList)

/-- An `Operator<IGenericType>`: its kind and its optional other operand
(the field `getOperator` compares with `===`). -/
inductive Oper where
  | mk (kind : OperatorKind) (otherOperand : OptType)

end

deriving instance DecidableEq for GType, OptType, TypeList, SuffixMap,
  OperatorMap, OperList, Oper

namespace GType

/-- `GenericType.isSubtype`: `type === this`, else recurse on the
supertype; `false` when the chain is exhausted. -/
def isSubtype : GType → GType → Bool
  | .mk n .none co sf ops, type => type = .mk n .none co sf ops
  | .mk n (.some s) co sf ops, type =>
    if type = .mk n (.some s) co sf ops then true
    else isSubtype s type

/-- `Set.has` on the coercible set: reference equality membership. -/
def coercibleHas : TypeList → GType → Bool
  | .nil, _ => false
  | .cons t rest, type => if type = t then true else coercibleHas rest type

/-- `GenericType.canCoerce`: `type === this`, or membership in this type's
explicit coercible set, else recurse on the supertype. -/
def canCoerce : GType → GType → Bool
  | .mk n .none co sf ops, type =>
    if type = .mk n .none co sf ops then true
    else coercibleHas co type
  | .mk n (.some s) co sf ops, type =>
    if type = .mk n (.some s) co sf ops then true
    else if coercibleHas co type then true
    else canCoerce s type

/-- `Map.get` on the operator map: the operator list registered for a
kind, or nothing. -/
def operatorsGet : OperatorMap → OperatorKind → Option OperList
  | .nil, _ => none
  | .cons k ops rest, kind => if k = kind then some ops else operatorsGet rest kind

/-- The search loop of `GenericType.getOperator`: return the first
operator whose `otherOperand` is (reference-)equal to `other`; when the
loop falls through the source executes
`throw new Error('Method not implemented.')`. -/
def operatorSearch : OperList → OptType → Except String Oper
  | .nil, _ => .error "Method not implemented."
  | .cons (.mk k oth) rest, other =>
    if other = oth then .ok (.mk k oth) else operatorSearch rest other

/-- `GenericType.getOperator`: look up the operator list for `kind`; when
absent return it (i.e. `undefined`); otherwise run the search loop, which
throws when no operator has the requested other operand. -/
def getOperator : GType → OperatorKind → OptType → Except String (Option Oper)
  | .mk _ _ _ _ ops, kind, other =>
    match operatorsGet ops kind with
    | none => .ok none
    | some operList =>
      match operatorSearch operList other with
      | .ok op => .ok (some op)
      | .error e => .error e

/-- `GenericType.toConcreteType` (stage.ts lines 192-194): the method body
is `throw new Error('Method not implemented.')`. -/
def toConcreteType (_self : GType) (_typeArguments : List (String × GType)) :
    Except String GType :=
  .error "Method not implemented."

end GType

/-! ## `GenericVariadicType.toConcreteType` (memoized instantiation)

The object state is its `concreteTypes : Map<ArgumentType, IVariadicType>`
cache. A freshly constructed `VariadicType` is a new heap object; object
identity is modelled by a serial number drawn from an allocation counter,
so "reference-equal" results are results with the same serial number. -/

/-- A constructed `VariadicType` heap object: its element type and its
heap identity. -/
structure VariadicObj where
  type : GType
  objId : Nat
  deriving DecidableEq

/-- The mutable state of one `GenericVariadicType` object: the memo cache
plus the allocation counter for fresh `VariadicType` objects. -/
structure GenericVariadicState where
  concreteTypes : List (GType × VariadicObj)
  nextObjId : Nat
  deriving DecidableEq

/-- `GenericVariadicType.toConcreteType`: check the cache; on a hit return
the cached object, otherwise construct a `new VariadicType(type)`, record
it in the cache and return it. -/
def variadicToConcreteType (st : GenericVariadicState) (type : GType) :
    VariadicObj × GenericVariadicState :=
  match st.concreteTypes.lookup type with
  | some cache => (cache, st)
  | none =>
    let newType : VariadicObj := ⟨type, st.nextObjId⟩
    (newType,
      { concreteTypes := (type, newType) :: st.concreteTypes,
        nextObjId := st.nextObjId + 1 })

/-! ## Sample catalog types (as registered in the catalog files, e.g.
`createStructureType('stage'); addPrototype(stageType, structureType)`). -/

/-- The root `structure` type: no supertype. -/
def structureT : GType := .mk "structure" .none .nil .nil .nil

/-- A `stage`-like catalog type whose supertype is `structure`. -/
def stageT : GType := .mk "stage" (.some structureT) .nil .nil .nil

/-- A scalar-like leaf type. -/
def scalarT : GType := .mk "scalar" (.some structureT) .nil .nil .nil

/-- A boolean-like leaf type. -/
def booleanT : GType := .mk "boolean" (.some structureT) .nil .nil .nil

/-- A type with exactly one registered operator: kind `plus`, other
operand `scalar`. -/
def addableT : GType :=
  .mk "addable" .none .nil .nil
    (.cons .plus (.cons (.mk .plus (.some scalarT)) .nil) .nil)

/-! # Embedding of the symbol table builder

From `src/server/src/analysis/symbolTableBuilder.ts` (`SymbolTableBuilder`).
Heap mutation (`token.tracker = tracker`, `tracker.usages.push(...)`,
`scope.set(...)`) is translated to explicit state passing: each operation
returns the updated builder plus the tracker it recorded onto the token
(`none` when the token's tracker slot was not written). -/

/-- A token as the builder reads it: its lexeme (the map key). -/
structure Tok where
  lexeme : String
  deriving DecidableEq

/-- `ScopeType` from the parser types: requested declaration scope. -/
inductive ScopeTypeV where
  | localScope
  | globalScope
  deriving DecidableEq

/-- `KsParameter`: name token and defaulted flag. -/
structure KsParameterV where
  name : Tok
  defaulted : Bool
  deriving DecidableEq

/-- `KsSymbol = KsVariable | KsFunction | KsLock | KsParameter`, with the
fields the builder reads (`tag`, `name`, and `cooked` for locks). -/
inductive KsSymbolV where
  | variableSym (scopeType : ScopeTypeV) (name : Tok)
  | functionSym (scopeType : ScopeTypeV) (name : Tok)
      (parameters : List KsParameterV) (returnValue : Bool)
  | lockSym (scopeType : ScopeTypeV) (name : Tok) (cooked : Bool)
  | parameterSym (name : Tok) (defaulted : Bool)
  deriving DecidableEq

namespace KsSymbolV

/-- `KsSymbolKind` of a symbol (`symbol.tag`); the numeric enum values are
0 = variable, 1 = function, 2 = lock, 3 = parameter. -/
def tagNum : KsSymbolV → Nat
  | .variableSym _ _ => 0
  | .functionSym _ _ _ _ => 1
  | .lockSym _ _ _ => 2
  | .parameterSym _ _ => 3

/-- `KsSymbolKind[symbol.tag]`: the enum member name. -/
def tagName : KsSymbolV → String
  | .variableSym _ _ => "variable"
  | .functionSym _ _ _ _ => "function"
  | .lockSym _ _ _ => "lock"
  | .parameterSym _ _ => "parameter"

/-- The declaring name token of a symbol (`symbol.name`). -/
def name : KsSymbolV → Tok
  | .variableSym _ n => n
  | .functionSym _ n _ _ => n
  | .lockSym _ n _ => n
  | .parameterSym n _ => n

end KsSymbolV

/-- Modelled from the spec: the type guards of `entities/entityHelpers.ts`
(`isKsVariable`, `isKsLock`, `isKsParameter`) are not under `src/`; each is
the evident tag check for its symbol class ("a declared symbol (variable,
function, lock, or parameter)", spec section 3). -/
def isKsVariable : KsSymbolV → Bool
  | .variableSym _ _ => true
  | _ => false

/-- Modelled from the spec: see `isKsVariable`. -/
def isKsLock : KsSymbolV → Bool
  | .lockSym _ _ _ => true
  | _ => false

/-- Modelled from the spec: see `isKsVariable`. -/
def isKsParameter : KsSymbolV → Bool
  | .parameterSym _ _ => true
  | _ => false

/-- `KsSymbolTracker`: the declared symbol plus the recorded set and use
locations (locations abbreviated to their tokens). -/
structure TrackerV where
  symbol : KsSymbolV
  sets : List Tok
  usages : List Tok
  deriving DecidableEq

/-- `IScope`: a map from lexeme to tracker (association list in
insertion order, mirroring a JS `Map`). -/
abbrev ScopeV := List (String × TrackerV)

/-- `Map.get`. -/
def scopeGet (sc : ScopeV) (lexeme : String) : Option TrackerV :=
  sc.lookup lexeme

/-- `Map.set`: replace the binding when the key exists, else append (JS
`Map` keeps the original insertion position on overwrite). -/
def scopeSet (sc : ScopeV) (lexeme : String) (tracker : TrackerV) : ScopeV :=
  match sc with
  | [] => [(lexeme, tracker)]
  | (k, t) :: rest =>
    if k = lexeme then (k, tracker) :: rest
    else (k, t) :: scopeSet rest lexeme tracker

/-- `IScopeNode`: one lexical block's scope and its child scope nodes (the
scope position is not read by the operations embedded here). -/
inductive ScopeNodeV where
  | mk (scope : ScopeV) (children : List ScopeNodeV)

namespace ScopeNodeV

def scope : ScopeNodeV → ScopeV
  | .mk sc _ => sc

def children : ScopeNodeV → List ScopeNodeV
  | .mk _ cs => cs

end ScopeNodeV

/-- A child `SymbolTable` (`childSymbolTables`): only its root scope is
read by `lookup`. -/
structure SymbolTableV where
  rootScope : ScopeNodeV

/-- The `SymbolTableBuilder` state: the root scope node, the active scope
path, and the child symbol tables. -/
structure Builder where
  rootScope : ScopeNodeV
  activeScopePath : List Nat
  childSymbolTables : List SymbolTableV

/-- `SymbolTableBuilder.activeScopeNode`: walk `activeScopePath` from the
root; the source throws (`Unable to find scope node`) when a path entry
has no child, modelled as `none`. -/
def activeScopeNode : ScopeNodeV → List Nat → Option ScopeNodeV
  | node, [] => some node
  | node, i :: rest =>
    match node.children.get? i with
    | none => none
    | some child => activeScopeNode child rest

/-- `SymbolTableBuilder.activeScopeStack`: the scopes along the active
path, root first; `none` models the thrown `Unable to find scope stack`. -/
def activeScopeStack : ScopeNodeV → List Nat → Option (List ScopeV)
  | node, [] => some [node.scope]
  | node, i :: rest =>
    match node.children.get? i with
    | none => none
    | some child =>
      match activeScopeStack child rest with
      | none => none
      | some scopes => some (node.scope :: scopes)

/-- Replace the scope map of the node addressed by the path (the explicit
form of mutating `scope` / a tracker found in it). -/
def setScopeAt : ScopeNodeV → List Nat → ScopeV → Option ScopeNodeV
  | .mk _ cs, [], sc => some (.mk sc cs)
  | .mk sc cs, i :: rest, newScope =>
    match cs.get? i with
    | none => none
    | some child =>
      match setScopeAt child rest newScope with
      | none => none
      | some child2 => some (.mk sc (cs.set i child2))

/-- Search the scope stack innermost-first (the `for` loop of `lookup`
runs from `scopes.length - 1` down to `0`). -/
def stackLookup (lexeme : String) : List ScopeV → Option TrackerV
  | [] => none
  | sc :: outerFirstRest =>
    match stackLookup lexeme outerFirstRest with
    | some t => some t
    | none => scopeGet sc lexeme

/-- The child-table part of `lookup`: first root scope holding the name. -/
def childTablesLookup (lexeme : String) : List SymbolTableV → Option TrackerV
  | [] => none
  | child :: rest =>
    match scopeGet child.rootScope.scope lexeme with
    | some t => some t
    | none => childTablesLookup lexeme rest

/-- `SymbolTableBuilder.lookup`: local scope type reads only the innermost
scope; global walks the active stack innermost to outermost, then the
child symbol tables' root scopes. -/
def lookup (b : Builder) (token : Tok) (scope : ScopeTypeV) :
    Except String (Option TrackerV) :=
  match scope with
  | .localScope =>
    match activeScopeNode b.rootScope b.activeScopePath with
    | none => .error "Unable to find scope node"
    | some node => .ok (scopeGet node.scope token.lexeme)
  | .globalScope =>
    match activeScopeStack b.rootScope b.activeScopePath with
    | none => .error "Unable to find scope stack"
    | some scopes =>
      match stackLookup token.lexeme scopes with
      | some tracker => .ok (some tracker)
      | none => .ok (childTablesLookup token.lexeme b.childSymbolTables)

/-- Diagnostic severity (`DiagnosticSeverity`). -/
inductive Sev where
  | error
  | warning
  | information
  | hint
  deriving DecidableEq

/-- A diagnostic as the builder creates it: the token it is attached to,
the message, the severity, and the optional related declaration token
(`DiagnosticRelatedInformation`, abbreviated to its token). -/
structure DiagV where
  token : Tok
  message : String
  severity : Sev
  related : Option Tok
  deriving DecidableEq

/-- `pascalCase`: upper-case the first character. -/
def pascalCase (s : String) : String :=
  match s.toList with
  | [] => ""
  | c :: rest => String.mk (c.toUpper :: rest)

/-- `localConflictError`: the hard redeclaration error
(`X name already exists.`, severity Error). -/
def localConflictError (name : Tok) (symbol : KsSymbolV) : DiagV :=
  ⟨name, s!"{pascalCase symbol.tagName} {symbol.name.lexeme} already exists.",
    Sev.error, some symbol.name⟩

/-- `shadowSymbolHint`: the shadowing warning
(`X name already exists here. This X shadows it.`, severity Warning). -/
def shadowSymbolHint (name : Tok) (symbol : KsSymbolV) : DiagV :=
  ⟨name,
    s!"{pascalCase symbol.tagName} {symbol.name.lexeme} already exists here."
      ++ s!" This {pascalCase symbol.tagName} shadows it.",
    Sev.warning, some symbol.name⟩

/-! ### Recording a usage (`tracker.usages.push`)

The tracker object found by `lookup` lives either in a scope along the
active path (innermost match first) or in a child table's root scope;
pushing a usage writes back through that location. -/

/-- The longest prefix of the active path whose scope holds the lexeme
(i.e. where the innermost `lookup` hit lives). -/
def deepestHit : ScopeNodeV → List Nat → String → Option (List Nat)
  | node, [], lexeme =>
    if (scopeGet node.scope lexeme).isSome then some [] else none
  | node, i :: rest, lexeme =>
    match node.children.get? i with
    | none =>
      if (scopeGet node.scope lexeme).isSome then some [] else none
    | some child =>
      match deepestHit child rest lexeme with
      | some p => some (i :: p)
      | none =>
        if (scopeGet node.scope lexeme).isSome then some [] else none

/-- Apply an update to the tracker stored under `lexeme` at the given
path (identity when the path or the binding is absent). -/
def updateTrackerAt (root : ScopeNodeV) (path : List Nat) (lexeme : String)
    (f : TrackerV → TrackerV) : ScopeNodeV :=
  match activeScopeNode root path with
  | none => root
  | some node =>
    match scopeGet node.scope lexeme with
    | none => root
    | some tracker =>
      match setScopeAt root path (scopeSet node.scope lexeme (f tracker)) with
      | none => root
      | some root2 => root2

/-- Apply an update to the first child table whose root scope holds the
lexeme. -/
def updateChildTables (tables : List SymbolTableV) (lexeme : String)
    (f : TrackerV → TrackerV) : List SymbolTableV :=
  match tables with
  | [] => []
  | child :: rest =>
    match scopeGet child.rootScope.scope lexeme with
    | some _ =>
      ⟨updateTrackerAt child.rootScope [] lexeme f⟩ :: rest
    | none => child :: updateChildTables rest lexeme f

/-- Write back `tracker.usages.push(createEnitityChange(token, expr))` to
the tracker `lookup` found under the token's lexeme. -/
def recordUsage (b : Builder) (token : Tok) : Builder :=
  let f := fun tr : TrackerV => { tr with usages := tr.usages ++ [token] }
  match deepestHit b.rootScope b.activeScopePath token.lexeme with
  | some p => { b with rootScope := updateTrackerAt b.rootScope p token.lexeme f }
  | none =>
    { b with
      childSymbolTables := updateChildTables b.childSymbolTables token.lexeme f }

/-- `checkUseSymbol`: with no tracker, the
`${symbolType} ${token.lexeme} may not exist.` Error diagnostic
(`symbolType` is a numeric TS enum member, so it prints as its number);
with a tracker, record it on the token and push a usage. -/
def checkUseSymbol (b : Builder) (token : Tok) (tracker : Option TrackerV)
    (symbolType : Nat) : Option DiagV × Builder × Option TrackerV :=
  match tracker with
  | none =>
    (some ⟨token, s!"{symbolType} {token.lexeme} may not exist.", Sev.error, none⟩,
      b, none)
  | some tr =>
    (none, recordUsage b token, some { tr with usages := tr.usages ++ [token] })

/-- `useSymbol`: `lookup` at global scope type; unresolved names yield the
`Symbol X may not exist` Error diagnostic. -/
def useSymbol (b : Builder) (name : Tok) :
    Except String (Option DiagV × Builder × Option TrackerV) :=
  match lookup b name .globalScope with
  | .error e => .error e
  | .ok none =>
    .ok (some ⟨name, s!"Symbol {name.lexeme} may not exist", Sev.error, none⟩,
      b, none)
  | .ok (some tracker) =>
    .ok (checkUseSymbol b name (some tracker) tracker.symbol.tagNum)

/-- `lookupVariableTracker`: `lookup` filtered through `isKsVariable`. -/
def lookupVariableTracker (b : Builder) (token : Tok) (scope : ScopeTypeV) :
    Except String (Option TrackerV) :=
  match lookup b token scope with
  | .error e => .error e
  | .ok tracker =>
    .ok (match tracker with
      | some tr => if isKsVariable tr.symbol then some tr else none
      | none => none)

/-- `lookupFunctionTracker`: the source filters through `isKsVariable`
(not `isKsFunction`) — embedded as written. -/
def lookupFunctionTracker (b : Builder) (token : Tok) (scope : ScopeTypeV) :
    Except String (Option TrackerV) :=
  match lookup b token scope with
  | .error e => .error e
  | .ok tracker =>
    .ok (match tracker with
      | some tr => if isKsVariable tr.symbol then some tr else none
      | none => none)

/-- `lookupLockTracker`: `lookup` filtered through `isKsLock`. -/
def lookupLockTracker (b : Builder) (token : Tok) (scope : ScopeTypeV) :
    Except String (Option TrackerV) :=
  match lookup b token scope with
  | .error e => .error e
  | .ok tracker =>
    .ok (match tracker with
      | some tr => if isKsLock tr.symbol then some tr else none
      | none => none)

/-- `lookupParameterTracker`: `lookup` filtered through `isKsParameter`. -/
def lookupParameterTracker (b : Builder) (token : Tok) (scope : ScopeTypeV) :
    Except String (Option TrackerV) :=
  match lookup b token scope with
  | .error e => .error e
  | .ok tracker =>
    .ok (match tracker with
      | some tr => if isKsParameter tr.symbol then some tr else none
      | none => none)

/-- `useVariable` (`KsSymbolKind.variable` = 0). -/
def useVariable (b : Builder) (name : Tok) :
    Except String (Option DiagV × Builder × Option TrackerV) :=
  match lookupVariableTracker b name .globalScope with
  | .error e => .error e
  | .ok tracker => .ok (checkUseSymbol b name tracker 0)

/-- `useFunction` (`KsSymbolKind.function` = 1). -/
def useFunction (b : Builder) (name : Tok) :
    Except String (Option DiagV × Builder × Option TrackerV) :=
  match lookupFunctionTracker b name .globalScope with
  | .error e => .error e
  | .ok tracker => .ok (checkUseSymbol b name tracker 1)

/-- `useLock` (`KsSymbolKind.lock` = 2). -/
def useLock (b : Builder) (name : Tok) :
    Except String (Option DiagV × Builder × Option TrackerV) :=
  match lookupLockTracker b name .globalScope with
  | .error e => .error e
  | .ok tracker => .ok (checkUseSymbol b name tracker 2)

/-- `useParameter` (`KsSymbolKind.parameter` = 3). -/
def useParameter (b : Builder) (name : Tok) :
    Except String (Option DiagV × Builder × Option TrackerV) :=
  match lookupParameterTracker b name .globalScope with
  | .error e => .error e
  | .ok tracker => .ok (checkUseSymbol b name tracker 3)

/-! ### Declarations -/

/-- The scope selected by `selectScope`, as a path: the global (root)
scope for global declarations, the innermost active scope otherwise. -/
def selectScopePath (b : Builder) (scopeType : ScopeTypeV) : List Nat :=
  match scopeType with
  | .globalScope => []
  | .localScope => b.activeScopePath

/-- `scope.set(token.lexeme, tracker)` on the selected scope. -/
def insertTracker (b : Builder) (scopeType : ScopeTypeV) (token : Tok)
    (tracker : TrackerV) : Builder :=
  let path := selectScopePath b scopeType
  match activeScopeNode b.rootScope path with
  | none => b
  | some node =>
    match setScopeAt b.rootScope path (scopeSet node.scope token.lexeme tracker) with
    | none => b
    | some root2 => { b with rootScope := root2 }

/-- The shadow check shared by the declare operations: nothing for global
declarations; for local ones, a shadowing warning when a global-type
lookup resolves the name. -/
def shadowDiagnostic (b : Builder) (scopeType : ScopeTypeV) (token : Tok) :
    Except String (Option DiagV) :=
  match scopeType with
  | .globalScope => .ok none
  | .localScope =>
    match lookup b token .globalScope with
    | .error e => .error e
    | .ok none => .ok none
    | .ok (some shadowTracker) =>
      .ok (some (shadowSymbolHint token shadowTracker.symbol))

/-- `declareVariable`: conflict check at the requested scope type (return
the conflict error without touching the table), shadow check, then insert
a fresh tracker and record it on the token. -/
def declareVariable (b : Builder) (scopeType : ScopeTypeV) (token : Tok) :
    Except String (Option DiagV × Builder × Option TrackerV) :=
  match lookup b token scopeType with
  | .error e => .error e
  | .ok (some conflictTracker) =>
    .ok (some (localConflictError token conflictTracker.symbol), b, none)
  | .ok none =>
    match shadowDiagnostic b scopeType token with
    | .error e => .error e
    | .ok diagnostic =>
      let tracker : TrackerV := ⟨.variableSym scopeType token, [], []⟩
      .ok (diagnostic, insertTracker b scopeType token tracker, some tracker)

/-- `declareFunction`: same structure as `declareVariable` with a
`KsFunction` symbol. -/
def declareFunction (b : Builder) (scopeType : ScopeTypeV) (token : Tok)
    (parameters : List KsParameterV) (returnValue : Bool) :
    Except String (Option DiagV × Builder × Option TrackerV) :=
  match lookup b token scopeType with
  | .error e => .error e
  | .ok (some conflictTracker) =>
    .ok (some (localConflictError token conflictTracker.symbol), b, none)
  | .ok none =>
    match shadowDiagnostic b scopeType token with
    | .error e => .error e
    | .ok diagnostic =>
      let tracker : TrackerV :=
        ⟨.functionSym scopeType token parameters returnValue, [], []⟩
      .ok (diagnostic, insertTracker b scopeType token tracker, some tracker)

/-- `declareLock`: same structure with a `KsLock` symbol (a fresh lock's
`cooked` flag is unset). -/
def declareLock (b : Builder) (scopeType : ScopeTypeV) (token : Tok) :
    Except String (Option DiagV × Builder × Option TrackerV) :=
  match lookup b token scopeType with
  | .error e => .error e
  | .ok (some conflictTracker) =>
    .ok (some (localConflictError token conflictTracker.symbol), b, none)
  | .ok none =>
    match shadowDiagnostic b scopeType token with
    | .error e => .error e
    | .ok diagnostic =>
      let tracker : TrackerV := ⟨.lockSym scopeType token false, [], []⟩
      .ok (diagnostic, insertTracker b scopeType token tracker, some tracker)

/-- `declareParameter`: same structure with a `KsParameter` symbol. -/
def declareParameter (b : Builder) (scopeType : ScopeTypeV) (token : Tok)
    (defaulted : Bool) :
    Except String (Option DiagV × Builder × Option TrackerV) :=
  match lookup b token scopeType with
  | .error e => .error e
  | .ok (some conflictTracker) =>
    .ok (some (localConflictError token conflictTracker.symbol), b, none)
  | .ok none =>
    match shadowDiagnostic b scopeType token with
    | .error e => .error e
    | .ok diagnostic =>
      let tracker : TrackerV := ⟨.parameterSym token defaulted, [], []⟩
      .ok (diagnostic, insertTracker b scopeType token tracker, some tracker)

/-! ### Closing a scope -/

/-- The unused-symbol loop of `endScope`: functions are skipped; an unused
parameter, an unused non-cooked lock, and an unused variable each yield an
Error-severity `... was not used.` diagnostic. -/
def unusedDiagnostics : ScopeV → List DiagV
  | [] => []
  | (_, tr) :: rest =>
    (match tr.symbol with
     | .functionSym _ _ _ _ => []
     | .parameterSym nameTok _ =>
       if tr.usages.length = 0 then
         [⟨nameTok, s!"Parameter {nameTok.lexeme} was not used.", Sev.error, none⟩]
       else []
     | .lockSym _ nameTok cooked =>
       if !cooked && tr.usages.length = 0 then
         [⟨nameTok, s!"Lock {nameTok.lexeme} was not used.", Sev.error, none⟩]
       else []
     | .variableSym _ nameTok =>
       if tr.usages.length = 0 then
         [⟨nameTok, s!"Variable {nameTok.lexeme} was not used.", Sev.error, none⟩]
       else [])
    ++ unusedDiagnostics rest

/-- `endScope`: read the active scope node, pop the active path, and emit
the unused-symbol diagnostics of the popped scope. -/
def endScope (b : Builder) : Except String (List DiagV × Builder) :=
  match activeScopeNode b.rootScope b.activeScopePath with
  | none => .error "Unable to find scope node"
  | some node =>
    .ok (unusedDiagnostics node.scope,
      { b with activeScopePath := b.activeScopePath.dropLast })

/-! ## Sample builder states -/

/-- A fresh builder: empty global scope, no children, empty path. -/
def freshBuilder : Builder := ⟨.mk [] [], [], []⟩

def tokHi : Tok := ⟨"hi"⟩

/-- The tracker `declareFunction` creates for global `function hi`. -/
def trHi : TrackerV := ⟨.functionSym .globalScope tokHi [] false, [], []⟩

/-- The builder after declaring global function `hi`. -/
def bHi : Builder := ⟨.mk [("hi", trHi)] [], [], []⟩

/-- `trHi` after one recorded usage of `hi`. -/
def trHiUsed : TrackerV := ⟨.functionSym .globalScope tokHi [] false, [], [tokHi]⟩

/-- `bHi` after one recorded usage of `hi`. -/
def bHiUsed : Builder := ⟨.mk [("hi", trHiUsed)] [], [], []⟩

def tokX : Tok := ⟨"x"⟩

/-- A tracker for a declared-but-unused global variable `x`. -/
def trXvar : TrackerV := ⟨.variableSym .globalScope tokX, [], []⟩

/-- A builder whose active (global) scope holds only unused variable `x`. -/
def bXvar : Builder := ⟨.mk [("x", trXvar)] [], [], []⟩

/-- A builder inside an empty child scope, with global variable `x`
visible for shadowing. -/
def bShadow : Builder := ⟨.mk [("x", trXvar)] [.mk [] []], [0], []⟩

/-! # The analysis coordinator

Modelled from the spec: the coordinator (`AnalysisService`) is code of
this repository that is not under `src/` (only its test,
`src/server/src/tests/service.spec.ts`, is). Per spec sections 3 and 4.4:
one symbol table per document with two relationship sets (dependency
tables and dependent tables, here keyed by document uri); re-validating a
document rebuilds its table from scratch, detaches it from its previous
dependents/dependencies, resolves and (creating missing documents'
tables) re-links fresh dependency edges. -/

/-- The two relationship sets of one document's symbol table. -/
structure LinkTable where
  dependencies : List String
  dependents : List String
  deriving DecidableEq

/-- The coordinator's per-uri table map. -/
abbrev Coord := List (String × LinkTable)

/-- Create the (empty) table of a document not yet analyzed. -/
def ensureEntry (σ : Coord) (u : String) : Coord :=
  match σ.lookup u with
  | some _ => σ
  | none => (u, ⟨[], []⟩) :: σ

/-- Pointwise update of every table. -/
def mapEntries (f : String → LinkTable → LinkTable) (σ : Coord) : Coord :=
  σ.map (fun p => (p.1, f p.1 p.2))

/-- Detaching one document: its own sets are reset (the table is rebuilt
from scratch) and every edge to or from it is removed everywhere. -/
def detachEntry (uri key : String) (t : LinkTable) : LinkTable :=
  if key = uri then ⟨[], []⟩
  else ⟨t.dependencies.filter (fun v => v ≠ uri),
        t.dependents.filter (fun v => v ≠ uri)⟩

def detachUri (σ : Coord) (uri : String) : Coord :=
  mapEntries (detachEntry uri) σ

/-- Set insertion. -/
def insertName (l : List String) (u : String) : List String :=
  if u ∈ l then l else u :: l

/-- Linking one fresh dependency edge `uri → dep`: `dep` joins `uri`'s
dependency set and `uri` joins `dep`'s dependent set. -/
def linkEntry (uri dep key : String) (t : LinkTable) : LinkTable :=
  let t1 :=
    if key = uri then { t with dependencies := insertName t.dependencies dep }
    else t
  if key = dep then { t1 with dependents := insertName t1.dependents uri }
  else t1

def linkDep (σ : Coord) (uri dep : String) : Coord :=
  mapEntries (linkEntry uri dep) σ

/-- `validateDocument`: rebuild the document's table from scratch, detach
every stale edge, then link one fresh edge per resolved load dependency
(triggering the dependency's analysis when it has no table yet). -/
def validateDocument (σ : Coord) (uri : String) (deps : List String) : Coord :=
  deps.foldl (fun acc d => linkDep (ensureEntry acc d) uri d)
    (detachUri (ensureEntry σ uri) uri)

/-- The spec invariant: table A is in B's dependent set iff B is in A's
dependency set. -/
def Consistent (σ : Coord) : Prop :=
  ∀ a b ta tb, σ.lookup a = some ta → σ.lookup b = some tb →
    (b ∈ ta.dependencies ↔ a ∈ tb.dependents)

/-- Link sets only mention documents that have a table (in the object
model the sets hold the tables themselves, so this is implicit there). -/
def Closed (σ : Coord) : Prop :=
  ∀ a ta, σ.lookup a = some ta →
    (∀ b ∈ ta.dependencies, ∃ tb, σ.lookup b = some tb) ∧
    (∀ b ∈ ta.dependents, ∃ tb, σ.lookup b = some tb)

/-! # Embedding of the parser

From `src/server/src/parser/parser.ts` (`Parser`). The token array is
immutable during a parse, so it is a fixed parameter; the mutable object
state (`current`, `runInsts`) is the explicit `PState`. TS keywords that
collide with Lean keywords keep their names via guillemets. -/

/-- `TokenType` (the members the parser reads). -/
inductive TokenType where
  | declare | «local» | «global» | parameter | «function» | lock
  | stage | clearscreen | preserve | reboot | shutdown
  | edit | add | remove
  | unset | unlock | «set»
  | «if» | «until» | «from» | «when» | «return» | «break» | switch | «for»
  | «on» | toggle | wait
  | log | copy | rename | delete | run | runPath | runOncePath | compile
  | list | print
  | period | curlyOpen | curlyClose
  | integer | double | «true» | «false» | identifier | fileIdentifier
  | string
  | bracketOpen | bracketClose
  | atSign | lazyGlobal | «else»
  | comma | colon | squareOpen | squareClose | arrayIndex
  | power | plus | minus | multi | div
  | «not» | defined | «or» | «and» | equal | notEqual | less | greater
  | lessEqual | greaterEqual
  | «to» | «is» | «in» | once | «then» | step | «do» | «all» | «file»
  | volume | «at» | off
  | eof
  deriving DecidableEq, BEq, Repr

/-- A zero-based line/character position (`Marker`). -/
structure Marker where
  line : Nat
  character : Nat
  deriving DecidableEq, Repr

/-- A scanned token: type tag, lexeme, source range and owning document
(the `end` field is `endPos`, `end` being reserved in Lean). -/
structure Token where
  type : TokenType
  lexeme : String
  start : Marker
  endPos : Marker
  uri : String
  deriving DecidableEq, Repr

/-- Modelled from the spec: `isValidIdentifier` lives in
`entities/tokentypes.ts`, which is not under `src/`; the spec's atom rule
says identifiers lead identifier expressions, so the identifier token type
is valid. -/
def isValidIdentifier (t : TokenType) : Bool :=
  t = TokenType.identifier

/-- The out-of-range fallback used to make array reads total; theorem C10
shows the parser never consults it. -/
def fallbackTok : Token := ⟨.eof, "", ⟨0, 0⟩, ⟨0, 1⟩, ""⟩

/-- `Parser.eof`: the synthetic end-of-file token appended to the input. -/
def eofToken (tokens : List Token) : Token :=
  match tokens.getLast? with
  | none => ⟨.eof, "", ⟨0, 0⟩, ⟨0, 1⟩, ""⟩
  | some last =>
    ⟨.eof, "", ⟨last.endPos.line + 1, 0⟩, ⟨last.endPos.line + 1, 1⟩, last.uri⟩

/-! ## The syntax tree (`Inst`, `Expr`, `Decl` node classes) -/

/-- `Decl.Scope`: the optional `declare` and `local`/`global` keyword
tokens in front of a declaration. -/
structure ScopeDecl where
  scope : Option Token
  declareTok : Option Token
  deriving DecidableEq, Repr

mutual

/-- Instruction nodes (including the `Decl` declaration instructions). -/
inductive InstV where
  | invalid (tokens : List Token)
  | block (openTok : Token) (insts : List InstV) (closeTok : Token)
  | instExpr (suffix : ExprV)
  | onOff (suffix : ExprV) (onOffTok : Token)
  | command (tok : Token)
  | commandExpr (tok : Token) (expr : ExprV)
  | unset (tok : Token) (identifier : Token)
  | unlock (tok : Token) (identifier : Token)
  | setInst (tok : Token) (suffix : ExprV) (toTok : Token) (value : ExprV)
  | lazyGlobal (atSignTok lazyGlobalTok onOffTok : Token)
  | ifInst (tok : Token) (cond : ExprV) (inst : InstV) (elseInst : Option InstV)
  | elseInst (tok : Token) (inst : InstV)
  | untilInst (tok : Token) (cond : ExprV) (inst : InstV)
  | fromInst (tok : Token) (initializer : InstV) (untilTok : Token)
      (cond : ExprV) (stepTok : Token) (increment : InstV) (doTok : Token)
      (inst : InstV)
  | whenInst (tok : Token) (cond : ExprV) (thenTok : Token) (inst : InstV)
  | returnInst (tok : Token) (value : Option ExprV)
  | breakInst (tok : Token)
  | switchInst (tok toTok : Token) (target : ExprV)
  | forInst (tok identifier inTok : Token) (suffix : ExprV) (inst : InstV)
  | onInst (tok : Token) (suffix : ExprV) (inst : InstV)
  | toggle (tok : Token) (suffix : ExprV)
  | wait (tok : Token) (expr : ExprV) (untilTok : Option Token)
  | logInst (tok : Token) (expr : ExprV) (toTok : Token) (target : ExprV)
  | copy (tok : Token) (expr : ExprV) (toFrom : Token) (target : ExprV)
  | rename (tok fileVolume ioIdentifier : Token) (expr : ExprV)
      (toTok : Token) (target : ExprV)
  | deleteInst (tok : Token) (expr : ExprV) (target : Option (Token × ExprV))
  | runInst (tok : Token) (identifier : Token) (once : Option Token)
      (args : Option (List ExprV)) (onExpr : Option ExprV)
  | runPath (tok openTok : Token) (expr : ExprV) (closeTok : Token)
      (args : Option (List ExprV))
  | runPathOnce (tok openTok : Token) (expr : ExprV) (closeTok : Token)
      (args : Option (List ExprV))
  | compileInst (tok : Token) (expr : ExprV) (target : Option (Token × ExprV))
  | listInst (tok : Token) (identifier inTok target : Option Token)
  | empty (tok : Token)
  | print (tok : Token) (expr : ExprV)
      (position : Option (ExprV × ExprV))
  | declVariable (identifier toIs : Token) (value : ExprV)
      (scope : ScopeDecl)
  | declLock (lockTok identifier toTok : Token) (value : ExprV)
      (scope : Option ScopeDecl)
  | declFunc (functionTok identifier : Token) (blockInst : InstV)
      (scope : Option ScopeDecl)
  | declParam (parameterTok : Token) (parameters : List Token)
      (defaultParameters : List (Token × Token × ExprV))
      (scope : Option ScopeDecl)

/-- Expression nodes. -/
inductive ExprV where
  | invalid (tokens : List Token)
  | binary (left : ExprV) (operator : Token) (right : ExprV)
  | unary (operator : Token) (factor : ExprV)
  | factor (suffix : ExprV) (power : Token) (exponent : ExprV)
  | suffix (suffixExpr : ExprV) (colon : Token) (trailer : ExprV)
  | call (callee : ExprV) (openTok : Token) (args : List ExprV)
      (closeTok : Token) (isTrailer : Bool)
  | arrayIndex (array : ExprV) (indexer index : Token) (isTrailer : Bool)
  | arrayBracket (array : ExprV) (openTok : Token) (index : ExprV)
      (closeTok : Token) (isTrailer : Bool)
  | delegate (expr : ExprV) (atSignTok : Token) (isTrailer : Bool)
  | literal (tok : Token) (isTrailer : Bool)
  | variable (tok : Token) (isTrailer : Bool)
  | grouping (openTok : Token) (expr : ExprV) (closeTok : Token)
      (isTrailer : Bool)
  | anonymousFunction (openTok : Token) (insts : List InstV) (closeTok : Token)

end

/-- Is an instruction the parser's `Inst.Invalid` recovery node? -/
def isInvalidInst : InstV → Bool
  | .invalid _ => true
  | _ => false

/-! ## Parse errors -/

/-- The node constructors passed as `failed` arguments. `instCtor` are the
`Inst.Inst` subclasses (including the `Decl` instruction nodes),
`exprCtor` the `Expr.Expr` subclasses; `otherCtor` covers `Decl.Scope`,
`Decl.Parameter` and `Decl.DefaultParam`, which are plain nodes (modelled
from the spec: `parser/declare.ts` is not under `src/`). -/
inductive NodeCtor where
  | instCtor (name : String)
  | exprCtor (name : String)
  | otherCtor (name : String)
  deriving DecidableEq, Repr

/-- `FailedConstructor`: which instruction/expression construct failed;
`synchronize` branches on whether `inst` is empty, and
`expression`/`suffixCatch` overwrite `inst`. -/
structure FailedCtor where
  inst : Option String
  expr : Option String
  deriving DecidableEq, Repr

/-- `failedUnknown` / `failedExpr` / `failedInst` applied to a maybe-class
(modelled from the spec: `parser/parserError.ts` is not under `src/`). -/
def failedFrom : Option NodeCtor → FailedCtor
  | none => ⟨none, none⟩
  | some (.instCtor n) => ⟨some n, none⟩
  | some (.exprCtor n) => ⟨none, some n⟩
  | some (.otherCtor _) => ⟨none, none⟩

/-- A structured `ParseError`: the token it points at (possibly the
undefined `previous()` at cursor 0), the failed construct, the message,
and the bundled inner errors of a failed block. -/
inductive ParseErrorV where
  | mk (token : Option Token) (failed : FailedCtor) (message : String)
      (inner : List ParseErrorV)

namespace ParseErrorV

def failed : ParseErrorV → FailedCtor
  | .mk _ f _ _ => f

def withInst (e : ParseErrorV) (inst : Option String) : ParseErrorV :=
  match e with
  | .mk t f m i => .mk t ⟨inst, f.expr⟩ m i

end ParseErrorV

/-- `INodeResult`: a node plus accumulated (recovered) parse errors. -/
structure NR (α : Type) where
  value : α
  errors : List ParseErrorV

/-- The parser's object state: the cursor and the collected run
instructions (the token array is a fixed parameter). -/
structure PState where
  current : Nat
  runInsts : List InstV

/-- The outcome of one parser routine: normal return, a thrown
`ParseError`, a thrown non-`ParseError` failure (a JS `TypeError`), or
fuel exhaustion (an artifact of the embedding, shown unreachable for
sufficient fuel). Thrown outcomes carry the state at throw time — JS
exceptions do not roll back side effects. -/
inductive POut (α : Type) where
  | ok (val : α) (s : PState)
  | err (e : ParseErrorV) (s : PState)
  | crash (s : PState)
  | fuelOut

/-- Sequencing that propagates thrown outcomes and fuel exhaustion. -/
def POut.bind {α β : Type} : POut α → (α → PState → POut β) → POut β
  | .ok a s, f => f a s
  | .err e s, _ => .err e s
  | .crash s, _ => .crash s
  | .fuelOut, _ => .fuelOut

section ParserDefs

variable (tks : List Token)

/-- `peek`: the current token (the fallback is never consulted, C10). -/
def peekD (s : PState) : Token :=
  tks.getD s.current fallbackTok

/-- `peekNext`: the next token, `undefined` past or at the eof. -/
def peekNext (s : PState) : Option Token :=
  match tks.get? (s.current + 1) with
  | none => none
  | some nextToken =>
    if nextToken.type = .eof then none else some nextToken

/-- `previous`: the last consumed token (`undefined` at cursor 0). -/
def previous (s : PState) : Option Token :=
  if s.current = 0 then none else tks.get? (s.current - 1)

/-- `previous()` at the sites that store the token into a node: always
follows a successful match, so the fallback is never consulted. -/
def prevD (s : PState) : Token :=
  (previous tks s).getD fallbackTok

/-- `isAtEnd`: is the current token the eof token. -/
def isAtEnd (s : PState) : Bool :=
  (peekD tks s).type = .eof

/-- `check`: current token matches the type (never at end). -/
def check (s : PState) (tokenType : TokenType) : Bool :=
  if isAtEnd tks s then false else (peekD tks s).type = tokenType

/-- `checkNext`. -/
def checkNext (s : PState) (tokenType : TokenType) : Bool :=
  match peekNext tks s with
  | none => false
  | some nextToken => nextToken.type = tokenType

/-- `advance`: move the cursor unless at end (the returned token is read
through `prevD` at the call sites). -/
def advance (s : PState) : PState :=
  if isAtEnd tks s then s else { s with current := s.current + 1 }

/-- `matchToken`: consume the current token when its type is in the set. -/
def matchToken (s : PState) (types : List TokenType) : Bool × PState :=
  if types.any (fun t => check tks s t) then (true, advance tks s)
  else (false, s)

/-- `identifierCheck`. -/
def identifierCheck (s : PState) : Bool :=
  if isAtEnd tks s then false else isValidIdentifier (peekD tks s).type

/-- `matchIdentifier`. -/
def matchIdentifier (s : PState) : Bool × PState :=
  if identifierCheck tks s then (true, advance tks s) else (false, s)

end ParserDefs

/-- The constructed parser state: the constructor appends the synthetic
eof token and zeroes the cursor. -/
def initTokens (input : List Token) : List Token :=
  input ++ [eofToken input]

def initState : PState := ⟨0, []⟩

/-- The cursor states the parser can reach: the constructor's state,
closed under `advance` (the only cursor mutation in the parser) and the
`runInsts` pushes of `addRunInst`. -/
inductive ReachableState (input : List Token) : PState → Prop where
  | init : ReachableState input initState
  | stepAdvance {s : PState} : ReachableState input s →
      ReachableState input (advance (initTokens input) s)
  | stepRun {s : PState} (i : InstV) : ReachableState input s →
      ReachableState input { s with runInsts := s.runInsts ++ [i] }

namespace Parser

section ParserFns

variable (tks : List Token)

/-- `Parser.error` (the `extraInfo` example strings are dropped). -/
def mkError (token : Option Token) (failed : Option NodeCtor)
    (message : String) : ParseErrorV :=
  .mk token (failedFrom failed) message []

/-- `close.inner = parseErrors` before a block error is thrown. -/
def ParseErrorV.withInner (e : ParseErrorV) (inner : List ParseErrorV) :
    ParseErrorV :=
  match e with
  | .mk t f m _ => .mk t f m inner

/-- `consumeTokenThrow`. -/
def consumeTokenThrow (message : String) (failed : Option NodeCtor)
    (types : List TokenType) (s : PState) : POut Token :=
  match matchToken tks s types with
  | (true, s1) => .ok (prevD tks s1) s1
  | (false, s1) => .err (mkError (previous tks s1) failed message) s1

/-- `consumeIdentifierThrow`. -/
def consumeIdentifierThrow (message : String) (failed : Option NodeCtor)
    (s : PState) : POut Token :=
  match matchIdentifier tks s with
  | (true, s1) => .ok (prevD tks s1) s1
  | (false, s1) => .err (mkError (previous tks s1) failed message) s1

/-- `consumeTokenReturn`: the non-throwing variant used for block closes. -/
def consumeTokenReturn (message : String) (failed : Option NodeCtor)
    (types : List TokenType) (s : PState) : (Sum Token ParseErrorV) × PState :=
  match matchToken tks s types with
  | (true, s1) => (.inl (prevD tks s1), s1)
  | (false, s1) => (.inr (mkError (previous tks s1) failed message), s1)

/-- `terminal`: consume the statement-ending period. -/
def terminal (failed : Option NodeCtor) (s : PState) : POut Token :=
  consumeTokenThrow tks "Expected \".\"." failed [.period] s

/-- `addRunInst`: collect a run-family instruction and return it. -/
def addRunInst (inst : InstV) (errors : List ParseErrorV) (s : PState) :
    POut (NR InstV) :=
  .ok ⟨inst, errors⟩ { s with runInsts := s.runInsts ++ [inst] }

/-- The token types at which `synchronize` stops (its `switch` cases). -/
def syncStart : List TokenType :=
  [.declare, .function, .parameter, .lock, .local, .global,
   .stage, .clearscreen, .preserve, .reboot, .shutdown,
   .edit, .add, .remove,
   .unset, .unlock, .set,
   .if, .until, .from, .when, .return, .break, .switch, .for, .on,
   .toggle, .wait,
   .log, .copy, .rename, .delete, .run, .runPath, .runOncePath, .compile,
   .list, .print,
   .curlyClose]

/-- The `while` loop of `synchronize`: stop after a period, before a
statement-starting token or a closing brace, or at the end; reading
`previous().type` at cursor 0 is the JS `TypeError` case. -/
def synchronizeLoop : Nat → PState → POut Unit
  | 0, _ => .fuelOut
  | fuel + 1, s =>
    if isAtEnd tks s then .ok () s
    else
      match previous tks s with
      | none => .crash s
      | some prev =>
        if prev.type = .period then .ok () s
        else if syncStart.contains (peekD tks s).type then .ok () s
        else synchronizeLoop fuel (advance tks s)

/-- `synchronize`: when no instruction context is known, step over the
offending token first, then skip to a safe statement boundary. -/
def synchronize (fuel : Nat) (failed : FailedCtor) (s : PState) : POut Unit :=
  match failed.inst with
  | none => synchronizeLoop tks fuel (advance tks s)
  | some _ => synchronizeLoop tks fuel s

/-- `this.tokens.slice(start, current)`: the tokens of an Invalid node. -/
def sliceTks (a b : Nat) : List Token :=
  (tks.drop a).take (b - a)

/-- `command`. -/
def command (s : PState) : POut (NR InstV) :=
  let commandTok := prevD tks s
  POut.bind (terminal tks (some (.instCtor "Command")) s) fun _ s1 =>
    .ok ⟨.command commandTok, []⟩ s1

/-- `unset`. -/
def unset (s : PState) : POut (NR InstV) :=
  let unsetTok := prevD tks s
  POut.bind
    (consumeTokenThrow tks
      "Excpeted identifier or \"all\" following keyword \"unset\"."
      (some (.instCtor "Unset")) [.identifier, .all] s) fun identifier s1 =>
  POut.bind (terminal tks (some (.instCtor "Unset")) s1) fun _ s2 =>
    .ok ⟨.unset unsetTok identifier, []⟩ s2

/-- `unlock`. -/
def unlock (s : PState) : POut (NR InstV) :=
  let unlockTok := prevD tks s
  POut.bind
    (consumeTokenThrow tks
      "Excpeted identifier or \"all\" following keyword \"unlock\"."
      (some (.instCtor "Unlock")) [.identifier, .all] s) fun identifier s1 =>
  POut.bind (terminal tks (some (.instCtor "Unlock")) s1) fun _ s2 =>
    .ok ⟨.unlock unlockTok identifier, []⟩ s2

/-- `lazyGlobal`. -/
def lazyGlobal (s : PState) : POut (NR InstV) :=
  let atSignTok := prevD tks s
  POut.bind
    (consumeTokenThrow tks "Expected keyword \"lazyGlobal\" following @."
      (some (.instCtor "LazyGlobal")) [.lazyGlobal] s) fun lazyGlobalTok s1 =>
  POut.bind
    (consumeTokenThrow tks
      "Expected \"on\" or \"off\" following lazy global directive."
      (some (.instCtor "LazyGlobal")) [.on, .off] s1) fun onOffTok s2 =>
  POut.bind (terminal tks (some (.instCtor "LazyGlobal")) s2) fun _ s3 =>
    .ok ⟨.lazyGlobal atSignTok lazyGlobalTok onOffTok, []⟩ s3

/-- `breakInst`. -/
def breakInst (s : PState) : POut (NR InstV) :=
  let breakTok := prevD tks s
  POut.bind (terminal tks (some (.instCtor "Break")) s) fun _ s1 =>
    .ok ⟨.breakInst breakTok, []⟩ s1

/-- `list`. -/
def list (s : PState) : POut (NR InstV) :=
  let listTok := prevD tks s
  match matchIdentifier tks s with
  | (true, s1) =>
    let identifier := prevD tks s1
    match matchToken tks s1 [.in] with
    | (true, s2) =>
      let inTok := prevD tks s2
      POut.bind
        (consumeIdentifierThrow tks
          "Expected identifier after \"in\" keyword in \"list\" command"
          (some (.instCtor "List")) s2) fun target s3 =>
      POut.bind (terminal tks (some (.instCtor "List")) s3) fun _ s4 =>
        .ok ⟨.listInst listTok (some identifier) (some inTok) (some target),
          []⟩ s4
    | (false, s2) =>
      POut.bind (terminal tks (some (.instCtor "List")) s2) fun _ s3 =>
        .ok ⟨.listInst listTok (some identifier) none none, []⟩ s3
  | (false, s1) =>
    POut.bind (terminal tks (some (.instCtor "List")) s1) fun _ s2 =>
      .ok ⟨.listInst listTok none none none, []⟩ s2

/-- `onOff`: the trailer of an identifier-led `x on.`/`x off.`. -/
def onOff (suffix : ExprV) (s : PState) : POut (NR InstV) :=
  let onOffTok := prevD tks s
  POut.bind (terminal tks (some (.instCtor "OnOff")) s) fun _ s1 =>
    .ok ⟨.onOff suffix onOffTok, []⟩ s1

mutual

/-- `declaration`: dispatch to `define` or `instruction`, catching any
`ParseError`, synchronizing, and producing one Invalid node spanning the
skipped tokens. -/
def declaration : Nat → PState → POut (NR InstV)
  | 0, _ => .fuelOut
  | fuel + 1, s =>
    let start := s.current
    match
      (if [TokenType.declare, .local, .global, .parameter, .function,
            .lock].any (fun t => check tks s t)
       then define fuel s
       else instruction fuel s) with
    | .ok r s1 => .ok r s1
    | .err e s1 =>
      match synchronize tks fuel e.failed s1 with
      | .ok _ s2 => .ok ⟨.invalid (sliceTks tks start s2.current), [e]⟩ s2
      | .err e2 s2 => .err e2 s2
      | .crash s2 => .crash s2
      | .fuelOut => .fuelOut
    | .crash s1 => .crash s1
    | .fuelOut => .fuelOut

/-- `define`: scoping keywords then the declaration kind. -/
def define : Nat → PState → POut (NR InstV)
  | 0, _ => .fuelOut
  | fuel + 1, s =>
    match matchToken tks s [.declare] with
    | (bdecl, s1) =>
      let declareTok := if bdecl then some (prevD tks s1) else none
      match matchToken tks s1 [.local, .global] with
      | (bscope, s2) =>
        let scopeTok := if bscope then some (prevD tks s2) else none
        let scopeDeclare : Option ScopeDecl :=
          if bdecl || bscope then some ⟨scopeTok, declareTok⟩ else none
        match matchToken tks s2 [.function] with
        | (true, s3) => declareFunction fuel scopeDeclare s3
        | (false, s3) =>
          match matchToken tks s3 [.parameter] with
          | (true, s4) => declareParameter fuel scopeDeclare s4
          | (false, s4) =>
            match matchToken tks s4 [.lock] with
            | (true, s5) => declareLock fuel scopeDeclare s5
            | (false, s5) =>
              match scopeDeclare with
              | some sd => declareVariable fuel sd s5
              | none =>
                .err (mkError (some (peekD tks s5))
                  (some (.otherCtor "Scope"))
                  "Expected function parameter or variable declaration.") s5

/-- `declareFunction`. -/
def declareFunction : Nat → Option ScopeDecl → PState → POut (NR InstV)
  | 0, _, _ => .fuelOut
  | fuel + 1, scope, s =>
    let functionToken := prevD tks s
    POut.bind
      (consumeIdentifierThrow tks "Expected identifier"
        (some (.instCtor "Func")) s) fun functionIdentifier s1 =>
    match matchToken tks s1 [.curlyOpen] with
    | (true, s2) =>
      POut.bind (instructionBlock fuel s2) fun blockResult s3 =>
        match matchToken tks s3 [.period] with
        | (_, s4) =>
          .ok ⟨.declFunc functionToken functionIdentifier blockResult.value
            scope, blockResult.errors⟩ s4
    | (false, s2) =>
      .err (mkError (some (peekD tks s2)) (some (.instCtor "Func"))
        "Expected function instruction block starting with \"\x7b\"") s2

/-- `declareParameter`. -/
def declareParameter : Nat → Option ScopeDecl → PState → POut (NR InstV)
  | 0, _, _ => .fuelOut
  | fuel + 1, scope, s =>
    let parameterToken := prevD tks s
    POut.bind (declareNormalParameters fuel s) fun parameters s1 =>
    POut.bind (declaredDefaultedParameters fuel s1) fun defaults s2 =>
    POut.bind (terminal tks (some (.instCtor "Param")) s2) fun _ s3 =>
      .ok ⟨.declParam parameterToken parameters defaults.value scope,
        defaults.errors⟩ s3

/-- `declareNormalParameters` (the leading non-defaulted parameters). -/
def declareNormalParameters : Nat → PState → POut (List Token)
  | 0, _ => .fuelOut
  | fuel + 1, s =>
    if checkNext tks s .is || checkNext tks s .to then .ok [] s
    else
      POut.bind
        (consumeIdentifierThrow tks
          "Expected additional identiifer following comma."
          (some (.otherCtor "Parameter")) s) fun identifier s1 =>
      match matchToken tks s1 [.comma] with
      | (true, s2) =>
        POut.bind (declareNormalParameters fuel s2) fun rest s3 =>
          .ok (identifier :: rest) s3
      | (false, s2) => .ok [identifier] s2

/-- `declaredDefaultedParameters`. -/
def declaredDefaultedParameters :
    Nat → PState → POut (NR (List (Token × Token × ExprV)))
  | 0, _ => .fuelOut
  | fuel + 1, s =>
    if !(checkNext tks s .is) && !(checkNext tks s .to) then .ok ⟨[], []⟩ s
    else
      POut.bind
        (consumeIdentifierThrow tks "Expected identifier following comma."
          (some (.otherCtor "DefaultParam")) s) fun identifier s1 =>
      POut.bind
        (consumeTokenThrow tks
          "Expected default parameter using keyword \"to\" or \"is\"."
          (some (.otherCtor "DefaultParam")) [.to, .is] s1) fun toIs s2 =>
      POut.bind (expression fuel none s2) fun valueResult s3 =>
      match matchToken tks s3 [.comma] with
      | (true, s4) =>
        POut.bind (declaredDefaultedParameters fuel s4) fun rest s5 =>
          .ok ⟨(identifier, toIs, valueResult.value) :: rest.value,
            valueResult.errors ++ rest.errors⟩ s5
      | (false, s4) =>
        .ok ⟨[(identifier, toIs, valueResult.value)], valueResult.errors⟩ s4

/-- `declareLock`. -/
def declareLock : Nat → Option ScopeDecl → PState → POut (NR InstV)
  | 0, _, _ => .fuelOut
  | fuel + 1, scope, s =>
    let lockTok := prevD tks s
    POut.bind
      (consumeIdentifierThrow tks
        "Expected identifier following lock keyword."
        (some (.instCtor "Lock")) s) fun identifier s1 =>
    POut.bind
      (consumeTokenThrow tks "Expected keyword \"to\" following lock."
        (some (.instCtor "Lock")) [.to] s1) fun toTok s2 =>
    POut.bind (expression fuel (some "Lock") s2) fun valueResult s3 =>
    POut.bind (terminal tks (some (.instCtor "Lock")) s3) fun _ s4 =>
      .ok ⟨.declLock lockTok identifier toTok valueResult.value scope,
        valueResult.errors⟩ s4

/-- `declareVariable` (the parser's; reached only with a scope prefix). -/
def declareVariable : Nat → ScopeDecl → PState → POut (NR InstV)
  | 0, _, _ => .fuelOut
  | fuel + 1, scope, s =>
    POut.bind
      (consumeIdentifierThrow tks "Expected identifier."
        (some (.instCtor "Var")) s) fun identifier s1 =>
    POut.bind
      (consumeTokenThrow tks
        "Expected keyword \"to\" or \"is\" following declare."
        (some (.instCtor "Var")) [.to, .is] s1) fun toIs s2 =>
    POut.bind (expression fuel (some "Var") s2) fun valueResult s3 =>
    POut.bind (terminal tks (some (.instCtor "Var")) s3) fun _ s4 =>
      .ok ⟨.declVariable identifier toIs valueResult.value scope,
        valueResult.errors⟩ s4

/-- `instruction`: the statement dispatch switch. -/
def instruction : Nat → PState → POut (NR InstV)
  | 0, _ => .fuelOut
  | fuel + 1, s =>
    match (peekD tks s).type with
    | .curlyOpen => instructionBlock fuel (advance tks s)
    | .integer | .double | .true | .false | .identifier | .fileIdentifier
    | .bracketOpen | .string => identifierLedInstruction fuel s
    | .stage | .clearscreen | .preserve | .reboot | .shutdown =>
      command tks (advance tks s)
    | .edit | .add | .remove => commandExpression fuel (advance tks s)
    | .unset => unset tks (advance tks s)
    | .unlock => unlock tks (advance tks s)
    | .set => set fuel (advance tks s)
    | .atSign => lazyGlobal tks (advance tks s)
    | .if => ifInst fuel (advance tks s)
    | .until => untilInst fuel (advance tks s)
    | .from => fromInst fuel (advance tks s)
    | .when => whenInst fuel (advance tks s)
    | .return => returnInst fuel (advance tks s)
    | .break => breakInst tks (advance tks s)
    | .switch => switchInst fuel (advance tks s)
    | .for => forInst fuel (advance tks s)
    | .on => onInst fuel (advance tks s)
    | .toggle => toggle fuel (advance tks s)
    | .wait => wait fuel (advance tks s)
    | .log => log fuel (advance tks s)
    | .copy => copy fuel (advance tks s)
    | .rename => rename fuel (advance tks s)
    | .delete => delete fuel (advance tks s)
    | .run => run fuel (advance tks s)
    | .runPath => runPath fuel (advance tks s)
    | .runOncePath => runPathOnce fuel (advance tks s)
    | .compile => compile fuel (advance tks s)
    | .list => list tks (advance tks s)
    | .print => print fuel (advance tks s)
    | .period =>
      let s1 := advance tks s
      .ok ⟨.empty (prevD tks s1), []⟩ s1
    | _ =>
      .err (mkError (some (peekD tks s)) none "Unknown instruction found") s

/-- The shared statement loop of `instructionBlock` and
`anonymousFunction` (the two `while` loops are identical). -/
def blockDeclarations :
    Nat → List InstV → List ParseErrorV → PState →
      POut (List InstV × List ParseErrorV)
  | 0, _, _, _ => .fuelOut
  | fuel + 1, decls, errs, s =>
    if !(check tks s .curlyClose) && !(isAtEnd tks s) then
      POut.bind (declaration fuel s) fun r s1 =>
        blockDeclarations fuel (decls ++ [r.value]) (errs ++ r.errors) s1
    else .ok (decls, errs) s

/-- `instructionBlock`. -/
def instructionBlock : Nat → PState → POut (NR InstV)
  | 0, _ => .fuelOut
  | fuel + 1, s =>
    let openTok := prevD tks s
    POut.bind (blockDeclarations fuel [] [] s) fun declsErrs s1 =>
      match consumeTokenReturn tks
        "Expected \"\x7d\" to finish instruction block"
        (some (.instCtor "Block")) [.curlyClose] s1 with
      | (.inl close, s2) =>
        .ok ⟨.block openTok declsErrs.1 close, declsErrs.2⟩ s2
      | (.inr e, s2) => .err (ParseErrorV.withInner e declsErrs.2) s2

/-- `identifierLedInstruction`. -/
def identifierLedInstruction : Nat → PState → POut (NR InstV)
  | 0, _ => .fuelOut
  | fuel + 1, s =>
    POut.bind (suffixCatch fuel "Expr" s) fun sfx s1 =>
    match matchToken tks s1 [.on, .off] with
    | (true, s2) =>
      POut.bind (onOff tks sfx.value s2) fun onOffRes s3 =>
        .ok ⟨onOffRes.value, sfx.errors ++ onOffRes.errors⟩ s3
    | (false, s2) =>
      POut.bind (terminal tks (some (.instCtor "Expr")) s2) fun _ s3 =>
        .ok ⟨.instExpr sfx.value, sfx.errors⟩ s3

/-- `commandExpression`. -/
def commandExpression : Nat → PState → POut (NR InstV)
  | 0, _ => .fuelOut
  | fuel + 1, s =>
    let commandTok := prevD tks s
    POut.bind (expression fuel (some "CommandExpr") s) fun e s1 =>
    POut.bind (terminal tks (some (.instCtor "CommandExpr")) s1) fun _ s2 =>
      .ok ⟨.commandExpr commandTok e.value, e.errors⟩ s2

/-- `set`. -/
def set : Nat → PState → POut (NR InstV)
  | 0, _ => .fuelOut
  | fuel + 1, s =>
    let setTok := prevD tks s
    POut.bind (suffixCatch fuel "Set" s) fun sfx s1 =>
    POut.bind
      (consumeTokenThrow tks "Expected \"to\" following keyword \"set\"."
        (some (.instCtor "Set")) [.to] s1) fun toTok s2 =>
    POut.bind (expression fuel (some "Set") s2) fun valueResult s3 =>
    POut.bind (terminal tks (some (.instCtor "Set")) s3) fun _ s4 =>
      .ok ⟨.setInst setTok sfx.value toTok valueResult.value,
        sfx.errors ++ valueResult.errors⟩ s4

/-- `ifInst` (the else-less result keeps only the body's errors, as the
source does). -/
def ifInst : Nat → PState → POut (NR InstV)
  | 0, _ => .fuelOut
  | fuel + 1, s =>
    let ifToken := prevD tks s
    POut.bind (expression fuel (some "If") s) fun conditionResult s1 =>
    POut.bind (declaration fuel s1) fun inst s2 =>
    match matchToken tks s2 [.period] with
    | (_, s3) =>
      match matchToken tks s3 [.else] with
      | (true, s4) =>
        let elseToken := prevD tks s4
        POut.bind (declaration fuel s4) fun elseResult s5 =>
          let elseInst := InstV.elseInst elseToken elseResult.value
          match matchToken tks s5 [.period] with
          | (_, s6) =>
            .ok ⟨.ifInst ifToken conditionResult.value inst.value
              (some elseInst),
              conditionResult.errors ++ inst.errors ++ elseResult.errors⟩ s6
      | (false, s4) =>
        .ok ⟨.ifInst ifToken conditionResult.value inst.value none,
          inst.errors⟩ s4

/-- `until`. -/
def untilInst : Nat → PState → POut (NR InstV)
  | 0, _ => .fuelOut
  | fuel + 1, s =>
    let untilTok := prevD tks s
    POut.bind (expression fuel (some "Until") s) fun conditionResult s1 =>
    POut.bind (declaration fuel s1) fun inst s2 =>
    match matchToken tks s2 [.period] with
    | (_, s3) =>
      .ok ⟨.untilInst untilTok conditionResult.value inst.value,
        conditionResult.errors ++ inst.errors⟩ s3

/-- `from`. -/
def fromInst : Nat → PState → POut (NR InstV)
  | 0, _ => .fuelOut
  | fuel + 1, s =>
    let fromTok := prevD tks s
    match matchToken tks s [.curlyOpen] with
    | (true, s1) =>
      POut.bind (instructionBlock fuel s1) fun initResult s2 =>
      POut.bind
        (consumeTokenThrow tks "Expected \"until\" expression following from."
          (some (.instCtor "From")) [.until] s2) fun untilTok s3 =>
      POut.bind (expression fuel (some "From") s3) fun conditionResult s4 =>
      POut.bind
        (consumeTokenThrow tks "Expected \"step\" statment following until."
          (some (.instCtor "From")) [.step] s4) fun stepTok s5 =>
      match matchToken tks s5 [.curlyOpen] with
      | (true, s6) =>
        POut.bind (instructionBlock fuel s6) fun incrementResult s7 =>
        POut.bind
          (consumeTokenThrow tks "Expected \"do\" block following step."
            (some (.instCtor "From")) [.do] s7) fun doToken s8 =>
        POut.bind (declaration fuel s8) fun inst s9 =>
          .ok ⟨.fromInst fromTok initResult.value untilTok
            conditionResult.value stepTok incrementResult.value doToken
            inst.value,
            initResult.errors ++ conditionResult.errors ++
              incrementResult.errors ++ inst.errors⟩ s9
      | (false, s6) =>
        .err (mkError (some (peekD tks s6)) (some (.instCtor "From"))
          "Expected \"\x7b\" followed by step block logic.") s6
    | (false, s1) =>
      .err (mkError (some (peekD tks s1)) (some (.instCtor "From"))
        "Expected \"\x7b\" followed by initializer logic") s1

/-- `when`. -/
def whenInst : Nat → PState → POut (NR InstV)
  | 0, _ => .fuelOut
  | fuel + 1, s =>
    let whenTok := prevD tks s
    POut.bind (expression fuel (some "When") s) fun conditionResult s1 =>
    POut.bind
      (consumeTokenThrow tks "Expected \"then\" following \"when\" condition."
        (some (.instCtor "When")) [.then] s1) fun thenTok s2 =>
    POut.bind (declaration fuel s2) fun inst s3 =>
    match matchToken tks s3 [.period] with
    | (_, s4) =>
      .ok ⟨.whenInst whenTok conditionResult.value thenTok inst.value,
        conditionResult.errors ++ inst.errors⟩ s4

/-- `returnInst`. -/
def returnInst : Nat → PState → POut (NR InstV)
  | 0, _ => .fuelOut
  | fuel + 1, s =>
    let returnToken := prevD tks s
    if !(check tks s .period) then
      POut.bind (expression fuel (some "Return") s) fun valueResult s1 =>
      POut.bind (terminal tks (some (.instCtor "Return")) s1) fun _ s2 =>
        .ok ⟨.returnInst returnToken (some valueResult.value),
          valueResult.errors⟩ s2
    else
      POut.bind (terminal tks (some (.instCtor "Return")) s) fun _ s1 =>
        .ok ⟨.returnInst returnToken none, []⟩ s1

/-- `switchInst`. -/
def switchInst : Nat → PState → POut (NR InstV)
  | 0, _ => .fuelOut
  | fuel + 1, s =>
    let switchToken := prevD tks s
    POut.bind
      (consumeTokenThrow tks "Expected \"to\" following keyword \"switch\"."
        (some (.instCtor "Switch")) [.to] s) fun toTok s1 =>
    POut.bind (expression fuel (some "Switch") s1) fun targetResult s2 =>
    POut.bind (terminal tks (some (.instCtor "Switch")) s2) fun _ s3 =>
      .ok ⟨.switchInst switchToken toTok targetResult.value,
        targetResult.errors⟩ s3

/-- `forInst`. -/
def forInst : Nat → PState → POut (NR InstV)
  | 0, _ => .fuelOut
  | fuel + 1, s =>
    let forToken := prevD tks s
    POut.bind
      (consumeIdentifierThrow tks
        "Expected identifier. following keyword \"for\""
        (some (.instCtor "For")) s) fun identifier s1 =>
    POut.bind
      (consumeTokenThrow tks "Expected \"in\" after \"for\" loop variable."
        (some (.instCtor "For")) [.in] s1) fun inToken s2 =>
    POut.bind (suffixCatch fuel "For" s2) fun sfx s3 =>
    POut.bind (declaration fuel s3) fun inst s4 =>
    match matchToken tks s4 [.period] with
    | (_, s5) =>
      .ok ⟨.forInst forToken identifier inToken sfx.value inst.value,
        sfx.errors ++ inst.errors⟩ s5

/-- `on`. -/
def onInst : Nat → PState → POut (NR InstV)
  | 0, _ => .fuelOut
  | fuel + 1, s =>
    let onTok := prevD tks s
    POut.bind (suffixCatch fuel "On" s) fun sfx s1 =>
    POut.bind (declaration fuel s1) fun inst s2 =>
      .ok ⟨.onInst onTok sfx.value inst.value,
        sfx.errors ++ inst.errors⟩ s2

/-- `toggle`. -/
def toggle : Nat → PState → POut (NR InstV)
  | 0, _ => .fuelOut
  | fuel + 1, s =>
    let toggleTok := prevD tks s
    POut.bind (suffixCatch fuel "Toggle" s) fun sfx s1 =>
    POut.bind (terminal tks (some (.instCtor "Toggle")) s1) fun _ s2 =>
      .ok ⟨.toggle toggleTok sfx.value, sfx.errors⟩ s2

/-- `wait`. -/
def wait : Nat → PState → POut (NR InstV)
  | 0, _ => .fuelOut
  | fuel + 1, s =>
    let waitTok := prevD tks s
    match matchToken tks s [.until] with
    | (buntil, s1) =>
      let untilTok := if buntil then some (prevD tks s1) else none
      POut.bind (expression fuel (some "Wait") s1) fun e s2 =>
      POut.bind (terminal tks (some (.instCtor "Wait")) s2) fun _ s3 =>
        .ok ⟨.wait waitTok e.value untilTok, e.errors⟩ s3

/-- `log`. -/
def log : Nat → PState → POut (NR InstV)
  | 0, _ => .fuelOut
  | fuel + 1, s =>
    let logTok := prevD tks s
    POut.bind (expression fuel (some "Log") s) fun e s1 =>
    POut.bind
      (consumeTokenThrow tks "Expected \"to\" following \"log\" expression."
        (some (.instCtor "Log")) [.to] s1) fun toTok s2 =>
    POut.bind (expression fuel (some "Log") s2) fun targetResult s3 =>
    POut.bind (terminal tks (some (.instCtor "Log")) s3) fun _ s4 =>
      .ok ⟨.logInst logTok e.value toTok targetResult.value,
        e.errors ++ targetResult.errors⟩ s4

/-- `copy`. -/
def copy : Nat → PState → POut (NR InstV)
  | 0, _ => .fuelOut
  | fuel + 1, s =>
    let copyTok := prevD tks s
    POut.bind (expression fuel (some "Copy") s) fun e s1 =>
    POut.bind
      (consumeTokenThrow tks
        "Expected \"to\" or \"from\" following \"copy\" expression."
        (some (.instCtor "Copy")) [.from, .to] s1) fun toFrom s2 =>
    POut.bind (expression fuel (some "Copy") s2) fun targetResult s3 =>
    POut.bind (terminal tks (some (.instCtor "Copy")) s3) fun _ s4 =>
      .ok ⟨.copy copyTok e.value toFrom targetResult.value,
        e.errors ++ targetResult.errors⟩ s4

/-- `rename`. -/
def rename : Nat → PState → POut (NR InstV)
  | 0, _ => .fuelOut
  | fuel + 1, s =>
    let renameTok := prevD tks s
    POut.bind
      (consumeTokenThrow tks
        "Expected file or volume following keyword \"rename\""
        (some (.instCtor "Rename")) [.volume, .file] s) fun fileVolume s1 =>
    POut.bind
      (consumeTokenThrow tks
        "Expected identifier or file identifier following keyword \"rename\""
        (some (.instCtor "Rename")) [.identifier, .fileIdentifier] s1)
      fun ioIdentifier s2 =>
    POut.bind (expression fuel (some "Rename") s2) fun e s3 =>
    POut.bind
      (consumeTokenThrow tks "Expected \"to\" following keyword \"rename\"."
        (some (.instCtor "Rename")) [.to] s3) fun toTok s4 =>
    POut.bind (expression fuel (some "Rename") s4) fun targetResult s5 =>
    POut.bind (terminal tks (some (.instCtor "Rename")) s5) fun _ s6 =>
      .ok ⟨.rename renameTok fileVolume ioIdentifier e.value toTok
        targetResult.value, e.errors ++ targetResult.errors⟩ s6

/-- `delete`. -/
def delete : Nat → PState → POut (NR InstV)
  | 0, _ => .fuelOut
  | fuel + 1, s =>
    let deleteToken := prevD tks s
    POut.bind (expression fuel (some "Delete") s) fun e s1 =>
    match matchToken tks s1 [.from] with
    | (true, s2) =>
      let fromTok := prevD tks s2
      POut.bind (expression fuel (some "Delete") s2) fun targetResult s3 =>
      POut.bind (terminal tks (some (.instCtor "Delete")) s3) fun _ s4 =>
        .ok ⟨.deleteInst deleteToken e.value
          (some (fromTok, targetResult.value)),
          e.errors ++ targetResult.errors⟩ s4
    | (false, s2) =>
      POut.bind (terminal tks (some (.instCtor "Delete")) s2) fun _ s3 =>
        .ok ⟨.deleteInst deleteToken e.value none, e.errors⟩ s3

/-- `run`. -/
def run : Nat → PState → POut (NR InstV)
  | 0, _ => .fuelOut
  | fuel + 1, s =>
    let runTok := prevD tks s
    match matchToken tks s [.once] with
    | (bonce, s1) =>
      let onceTok := if bonce then some (prevD tks s1) else none
      POut.bind
        (consumeTokenThrow tks
          "Expected string or fileidentifier following keyword \"run\"."
          (some (.instCtor "Run")) [.string, .identifier, .fileIdentifier]
          s1) fun identifier s2 =>
      match matchToken tks s2 [.bracketOpen] with
      | (bopen, s3) =>
        let argsStep (args0 : Option (NR (List ExprV))) (s4 : PState) :
            POut (NR InstV) :=
          match matchToken tks s4 [.on] with
          | (true, s5) =>
            POut.bind (arguments fuel s5) fun args s6 =>
            POut.bind (expression fuel (some "Run") s6) fun e s7 =>
            POut.bind (terminal tks (some (.instCtor "Run")) s7) fun _ s8 =>
              addRunInst
                (.runInst runTok identifier onceTok (some args.value)
                  (some e.value))
                (args.errors ++ e.errors) s8
          | (false, s5) =>
            POut.bind (terminal tks (some (.instCtor "Run")) s5) fun _ s6 =>
              match args0 with
              | none =>
                addRunInst (.runInst runTok identifier onceTok none none)
                  [] s6
              | some args =>
                addRunInst
                  (.runInst runTok identifier onceTok (some args.value) none)
                  args.errors s6
        if bopen then
          POut.bind (arguments fuel s3) fun args s4 =>
          POut.bind
            (consumeTokenThrow tks "Expected \")\" after \"run\" arguments."
              (some (.instCtor "Run")) [.bracketClose] s4) fun _ s5 =>
            argsStep (some args) s5
        else argsStep none s3

/-- `runPath`. -/
def runPath : Nat → PState → POut (NR InstV)
  | 0, _ => .fuelOut
  | fuel + 1, s =>
    let runPathTok := prevD tks s
    POut.bind
      (consumeTokenThrow tks "Expected \"(\" after keyword \"runPath\"."
        (some (.instCtor "RunPath")) [.bracketOpen] s) fun openTok s1 =>
    POut.bind (expression fuel (some "RunPath") s1) fun e s2 =>
    match matchToken tks s2 [.comma] with
    | (bcomma, s3) =>
      let next (args0 : Option (NR (List ExprV))) (s4 : PState) :
          POut (NR InstV) :=
        POut.bind
          (consumeTokenThrow tks "Expected \")\" after runPath arguments."
            (some (.instCtor "RunPath")) [.bracketClose] s4) fun closeTok s5 =>
        POut.bind (terminal tks (some (.instCtor "RunPath")) s5) fun _ s6 =>
          match args0 with
          | none =>
            addRunInst (.runPath runPathTok openTok e.value closeTok none)
              e.errors s6
          | some args =>
            addRunInst
              (.runPath runPathTok openTok e.value closeTok
                (some args.value))
              (e.errors ++ args.errors) s6
      if bcomma then
        POut.bind (arguments fuel s3) fun args s4 => next (some args) s4
      else next none s3

/-- `runPathOnce`. -/
def runPathOnce : Nat → PState → POut (NR InstV)
  | 0, _ => .fuelOut
  | fuel + 1, s =>
    let runPathTok := prevD tks s
    POut.bind
      (consumeTokenThrow tks "Expected \"(\" after keyword \"runPathOnce\"."
        (some (.instCtor "RunPathOnce")) [.bracketOpen] s) fun openTok s1 =>
    POut.bind (expression fuel (some "RunPathOnce") s1) fun e s2 =>
    match matchToken tks s2 [.comma] with
    | (bcomma, s3) =>
      let next (args0 : Option (NR (List ExprV))) (s4 : PState) :
          POut (NR InstV) :=
        POut.bind
          (consumeTokenThrow tks
            "Expected \")\" after runPathOnce arugments."
            (some (.instCtor "RunPathOnce")) [.bracketClose] s4)
          fun closeTok s5 =>
        POut.bind (terminal tks (some (.instCtor "RunPathOnce")) s5)
          fun _ s6 =>
          match args0 with
          | none =>
            addRunInst
              (.runPathOnce runPathTok openTok e.value closeTok none)
              e.errors s6
          | some args =>
            addRunInst
              (.runPathOnce runPathTok openTok e.value closeTok
                (some args.value))
              (e.errors ++ args.errors) s6
      if bcomma then
        POut.bind (arguments fuel s3) fun args s4 => next (some args) s4
      else next none s3

/-- `compile`. -/
def compile : Nat → PState → POut (NR InstV)
  | 0, _ => .fuelOut
  | fuel + 1, s =>
    let compileTok := prevD tks s
    POut.bind (expression fuel (some "Compile") s) fun e s1 =>
    match matchToken tks s1 [.to] with
    | (true, s2) =>
      let toTok := prevD tks s2
      POut.bind (expression fuel (some "Compile") s2) fun targetResult s3 =>
      POut.bind (terminal tks (some (.instCtor "Compile")) s3) fun _ s4 =>
        .ok ⟨.compileInst compileTok e.value
          (some (toTok, targetResult.value)),
          e.errors ++ targetResult.errors⟩ s4
    | (false, s2) =>
      POut.bind (terminal tks (some (.instCtor "Compile")) s2) fun _ s3 =>
        .ok ⟨.compileInst compileTok e.value none, e.errors⟩ s3

/-- `print`. -/
def print : Nat → PState → POut (NR InstV)
  | 0, _ => .fuelOut
  | fuel + 1, s =>
    let printTok := prevD tks s
    POut.bind (expression fuel (some "Print") s) fun e s1 =>
    match matchToken tks s1 [.at] with
    | (true, s2) =>
      POut.bind
        (consumeTokenThrow tks "Expected \"(\"."
          (some (.instCtor "Print")) [.bracketOpen] s2) fun _ s3 =>
      POut.bind (expression fuel (some "Print") s3) fun xResult s4 =>
      POut.bind
        (consumeTokenThrow tks "Expected \",\"."
          (some (.instCtor "Print")) [.comma] s4) fun _ s5 =>
      POut.bind (expression fuel (some "Print") s5) fun yResult s6 =>
      POut.bind
        (consumeTokenThrow tks "Expected \")\"."
          (some (.instCtor "Print")) [.bracketClose] s6) fun _ s7 =>
      POut.bind (terminal tks (some (.instCtor "Print")) s7) fun _ s8 =>
        .ok ⟨.print printTok e.value (some (xResult.value, yResult.value)),
          e.errors ++ xResult.errors ++ yResult.errors⟩ s8
    | (false, s2) =>
      POut.bind (terminal tks (some (.instCtor "Print")) s2) fun _ s3 =>
        .ok ⟨.print printTok e.value none, e.errors⟩ s3

/-- `expression`: anonymous function or the precedence chain; a caught
`ParseError` gets the calling instruction context written into its
`failed.inst`. -/
def expression : Nat → Option String → PState → POut (NR ExprV)
  | 0, _, _ => .fuelOut
  | fuel + 1, inst, s =>
    match
      (match matchToken tks s [.curlyOpen] with
       | (true, s1) => anonymousFunction fuel s1
       | (false, s1) => orExpr fuel s1) with
    | .err e s2 => .err (e.withInst inst) s2
    | other => other

/-- `or` (specialized from `binaryExpression`, as are the levels below:
the source's shared higher-order helper is defunctionalized per level). -/
def orExpr : Nat → PState → POut (NR ExprV)
  | 0, _ => .fuelOut
  | fuel + 1, s =>
    POut.bind (andExpr fuel s) fun e s1 => orLoop fuel e s1

def orLoop : Nat → NR ExprV → PState → POut (NR ExprV)
  | 0, _, _ => .fuelOut
  | fuel + 1, expr, s =>
    match matchToken tks s [.or] with
    | (false, s1) => .ok expr s1
    | (true, s1) =>
      let operator := prevD tks s1
      POut.bind (andExpr fuel s1) fun right s2 =>
        orLoop fuel
          ⟨.binary expr.value operator right.value,
            expr.errors ++ right.errors⟩ s2

/-- `and`. -/
def andExpr : Nat → PState → POut (NR ExprV)
  | 0, _ => .fuelOut
  | fuel + 1, s =>
    POut.bind (equality fuel s) fun e s1 => andLoop fuel e s1

def andLoop : Nat → NR ExprV → PState → POut (NR ExprV)
  | 0, _, _ => .fuelOut
  | fuel + 1, expr, s =>
    match matchToken tks s [.and] with
    | (false, s1) => .ok expr s1
    | (true, s1) =>
      let operator := prevD tks s1
      POut.bind (equality fuel s1) fun right s2 =>
        andLoop fuel
          ⟨.binary expr.value operator right.value,
            expr.errors ++ right.errors⟩ s2

/-- `equality`. -/
def equality : Nat → PState → POut (NR ExprV)
  | 0, _ => .fuelOut
  | fuel + 1, s =>
    POut.bind (comparison fuel s) fun e s1 => equalityLoop fuel e s1

def equalityLoop : Nat → NR ExprV → PState → POut (NR ExprV)
  | 0, _, _ => .fuelOut
  | fuel + 1, expr, s =>
    match matchToken tks s [.equal, .notEqual] with
    | (false, s1) => .ok expr s1
    | (true, s1) =>
      let operator := prevD tks s1
      POut.bind (comparison fuel s1) fun right s2 =>
        equalityLoop fuel
          ⟨.binary expr.value operator right.value,
            expr.errors ++ right.errors⟩ s2

/-- `comparison`. -/
def comparison : Nat → PState → POut (NR ExprV)
  | 0, _ => .fuelOut
  | fuel + 1, s =>
    POut.bind (addition fuel s) fun e s1 => comparisonLoop fuel e s1

def comparisonLoop : Nat → NR ExprV → PState → POut (NR ExprV)
  | 0, _, _ => .fuelOut
  | fuel + 1, expr, s =>
    match matchToken tks s [.less, .greater, .lessEqual, .greaterEqual] with
    | (false, s1) => .ok expr s1
    | (true, s1) =>
      let operator := prevD tks s1
      POut.bind (addition fuel s1) fun right s2 =>
        comparisonLoop fuel
          ⟨.binary expr.value operator right.value,
            expr.errors ++ right.errors⟩ s2

/-- `addition`. -/
def addition : Nat → PState → POut (NR ExprV)
  | 0, _ => .fuelOut
  | fuel + 1, s =>
    POut.bind (multiplication fuel s) fun e s1 => additionLoop fuel e s1

def additionLoop : Nat → NR ExprV → PState → POut (NR ExprV)
  | 0, _, _ => .fuelOut
  | fuel + 1, expr, s =>
    match matchToken tks s [.plus, .minus] with
    | (false, s1) => .ok expr s1
    | (true, s1) =>
      let operator := prevD tks s1
      POut.bind (multiplication fuel s1) fun right s2 =>
        additionLoop fuel
          ⟨.binary expr.value operator right.value,
            expr.errors ++ right.errors⟩ s2

/-- `multiplication`. -/
def multiplication : Nat → PState → POut (NR ExprV)
  | 0, _ => .fuelOut
  | fuel + 1, s =>
    POut.bind (unary fuel s) fun e s1 => multiplicationLoop fuel e s1

def multiplicationLoop : Nat → NR ExprV → PState → POut (NR ExprV)
  | 0, _, _ => .fuelOut
  | fuel + 1, expr, s =>
    match matchToken tks s [.multi, .div] with
    | (false, s1) => .ok expr s1
    | (true, s1) =>
      let operator := prevD tks s1
      POut.bind (unary fuel s1) fun right s2 =>
        multiplicationLoop fuel
          ⟨.binary expr.value operator right.value,
            expr.errors ++ right.errors⟩ s2

/-- `unary`. -/
def unary : Nat → PState → POut (NR ExprV)
  | 0, _ => .fuelOut
  | fuel + 1, s =>
    match matchToken tks s [.plus, .minus, .not, .defined] with
    | (true, s1) =>
      let operator := prevD tks s1
      POut.bind (unary fuel s1) fun u s2 =>
        .ok ⟨.unary operator u.value, u.errors⟩ s2
    | (false, s1) => factor fuel s1

/-- `factor` (note: each fold keeps only the exponent's errors, as the
source does). -/
def factor : Nat → PState → POut (NR ExprV)
  | 0, _ => .fuelOut
  | fuel + 1, s =>
    POut.bind (suffix fuel s) fun e s1 => factorLoop fuel e s1

def factorLoop : Nat → NR ExprV → PState → POut (NR ExprV)
  | 0, _, _ => .fuelOut
  | fuel + 1, expr, s =>
    match matchToken tks s [.power] with
    | (false, s1) => .ok expr s1
    | (true, s1) =>
      let power := prevD tks s1
      POut.bind (suffix fuel s1) fun exponent s2 =>
        factorLoop fuel
          ⟨.factor expr.value power exponent.value, exponent.errors⟩ s2

/-- `suffixCatch`: run `suffix`, writing the instruction context into a
caught error. -/
def suffixCatch : Nat → String → PState → POut (NR ExprV)
  | 0, _, _ => .fuelOut
  | fuel + 1, inst, s =>
    match suffix fuel s with
    | .err e s1 => .err (e.withInst (some inst)) s1
    | other => other

/-- `suffix`. -/
def suffix : Nat → PState → POut (NR ExprV)
  | 0, _ => .fuelOut
  | fuel + 1, s =>
    POut.bind (suffixTerm fuel false s) fun e s1 => suffixLoop fuel e s1

def suffixLoop : Nat → NR ExprV → PState → POut (NR ExprV)
  | 0, _, _ => .fuelOut
  | fuel + 1, expr, s =>
    match matchToken tks s [.colon] with
    | (false, s1) => .ok expr s1
    | (true, s1) =>
      POut.bind (suffixTrailer fuel expr.value s1) fun trailer s2 =>
        suffixLoop fuel ⟨trailer.value, expr.errors ++ trailer.errors⟩ s2

/-- `suffixTrailer`. -/
def suffixTrailer : Nat → ExprV → PState → POut (NR ExprV)
  | 0, _, _ => .fuelOut
  | fuel + 1, suffixExpr, s =>
    let colon := prevD tks s
    POut.bind (suffixTerm fuel true s) fun trailer s1 =>
      .ok ⟨.suffix suffixExpr colon trailer.value, trailer.errors⟩ s1

/-- `suffixTerm`. -/
def suffixTerm : Nat → Bool → PState → POut (NR ExprV)
  | 0, _, _ => .fuelOut
  | fuel + 1, isTrailer, s =>
    POut.bind (atom fuel isTrailer s) fun e s1 =>
      suffixTermLoop fuel isTrailer e s1

/-- The trailer loop of `suffixTerm`. -/
def suffixTermLoop : Nat → Bool → NR ExprV → PState → POut (NR ExprV)
  | 0, _, _, _ => .fuelOut
  | fuel + 1, isTrailer, expr, s =>
    match matchToken tks s [.arrayIndex] with
    | (true, s1) =>
      POut.bind (arrayIndex fuel expr.value isTrailer s1) fun ix s2 =>
        suffixTermLoop fuel isTrailer ⟨ix.value, expr.errors ++ ix.errors⟩ s2
    | (false, s1) =>
      match matchToken tks s1 [.squareOpen] with
      | (true, s2) =>
        POut.bind (arrayBracket fuel expr.value isTrailer s2) fun br s3 =>
          suffixTermLoop fuel isTrailer
            ⟨br.value, expr.errors ++ br.errors⟩ s3
      | (false, s2) =>
        match matchToken tks s2 [.bracketOpen] with
        | (true, s3) =>
          POut.bind (functionTrailer fuel expr.value isTrailer s3)
            fun tr s4 =>
            suffixTermLoop fuel isTrailer
              ⟨tr.value, expr.errors ++ tr.errors⟩ s4
        | (false, s3) =>
          match matchToken tks s3 [.atSign] with
          | (true, s4) =>
            .ok ⟨.delegate expr.value (prevD tks s4) isTrailer,
              expr.errors⟩ s4
          | (false, s4) => .ok expr s4

/-- `functionTrailer`. -/
def functionTrailer : Nat → ExprV → Bool → PState → POut (NR ExprV)
  | 0, _, _, _ => .fuelOut
  | fuel + 1, callee, isTrailer, s =>
    let openTok := prevD tks s
    POut.bind (arguments fuel s) fun args s1 =>
    POut.bind
      (consumeTokenThrow tks "Expect \")\" after arguments."
        (some (.exprCtor "Call")) [.bracketClose] s1) fun closeTok s2 =>
      .ok ⟨.call callee openTok args.value closeTok isTrailer,
        args.errors⟩ s2

/-- `arguments`. -/
def arguments : Nat → PState → POut (NR (List ExprV))
  | 0, _ => .fuelOut
  | fuel + 1, s =>
    if !(isAtEnd tks s) && !(check tks s .bracketClose) then
      argumentsLoop fuel s
    else .ok ⟨[], []⟩ s

def argumentsLoop : Nat → PState → POut (NR (List ExprV))
  | 0, _ => .fuelOut
  | fuel + 1, s =>
    POut.bind (expression fuel none s) fun arg s1 =>
    match matchToken tks s1 [.comma] with
    | (true, s2) =>
      POut.bind (argumentsLoop fuel s2) fun rest s3 =>
        .ok ⟨arg.value :: rest.value, arg.errors ++ rest.errors⟩ s3
    | (false, s2) => .ok ⟨[arg.value], arg.errors⟩ s2

/-- `arrayBracket`. -/
def arrayBracket : Nat → ExprV → Bool → PState → POut (NR ExprV)
  | 0, _, _, _ => .fuelOut
  | fuel + 1, array, isTrailer, s =>
    let openTok := prevD tks s
    POut.bind (expression fuel none s) fun index s1 =>
    POut.bind
      (consumeTokenThrow tks "Expected \"]\" at end of array index."
        (some (.exprCtor "ArrayBracket")) [.squareClose] s1)
      fun closeTok s2 =>
      .ok ⟨.arrayBracket array openTok index.value closeTok isTrailer,
        index.errors⟩ s2

/-- `arrayIndex`. -/
def arrayIndex : Nat → ExprV → Bool → PState → POut (NR ExprV)
  | 0, _, _, _ => .fuelOut
  | _fuel + 1, array, isTrailer, s =>
    let indexer := prevD tks s
    POut.bind
      (consumeTokenThrow tks "Expected integer or identifer."
        (some (.exprCtor "ArrayIndex")) [.integer, .identifier] s)
      fun index s1 =>
      .ok ⟨.arrayIndex array indexer index isTrailer, []⟩ s1

/-- `anonymousFunction`: inner errors are bundled onto one error for the
whole block and rethrown. -/
def anonymousFunction : Nat → PState → POut (NR ExprV)
  | 0, _ => .fuelOut
  | fuel + 1, s =>
    let openTok := prevD tks s
    POut.bind (blockDeclarations fuel [] [] s) fun declsErrs s1 =>
    POut.bind
      (consumeTokenThrow tks "Expected \"\x7d\" to finish instruction block"
        (some (.exprCtor "AnonymousFunction")) [.curlyClose] s1)
      fun closeTok s2 =>
      if declsErrs.2.length > 0 then
        .err (ParseErrorV.withInner
          (mkError (some openTok) (some (.exprCtor "AnonymousFunction"))
            "Error found in this block.") declsErrs.2) s2
      else
        .ok ⟨.anonymousFunction openTok declsErrs.1 closeTok,
          declsErrs.2⟩ s2

/-- `atom`. -/
def atom : Nat → Bool → PState → POut (NR ExprV)
  | 0, _, _ => .fuelOut
  | fuel + 1, isTrailer, s =>
    match matchToken tks s
      [.false, .true, .fileIdentifier, .string, .integer, .double] with
    | (true, s1) => .ok ⟨.literal (prevD tks s1) isTrailer, []⟩ s1
    | (false, s1) =>
      if isValidIdentifier (peekD tks s1).type then
        let s2 := advance tks s1
        .ok ⟨.variable (prevD tks s2) isTrailer, []⟩ s2
      else
        match matchToken tks s1 [.bracketOpen] with
        | (true, s2) =>
          let openTok := prevD tks s2
          POut.bind (expression fuel none s2) fun e s3 =>
          POut.bind
            (consumeTokenThrow tks "Expect \")\" after expression"
              (some (.exprCtor "Grouping")) [.bracketClose] s3)
            fun closeTok s4 =>
            .ok ⟨.grouping openTok e.value closeTok isTrailer,
              e.errors⟩ s4
        | (false, s2) =>
          .err (mkError (some (peekD tks s2)) none "Expected expression.") s2

/-- The `while (!this.isAtEnd())` loop of `parse`. -/
def parseLoop :
    Nat → PState → List InstV → List ParseErrorV →
      POut (List InstV × List ParseErrorV)
  | 0, _, _, _ => .fuelOut
  | fuel + 1, s, insts, errs =>
    if isAtEnd tks s then .ok (insts, errs) s
    else
      POut.bind (declaration fuel s) fun r s1 =>
        parseLoop fuel s1 (insts ++ [r.value]) (errs ++ r.errors)

end

/-- `ParseResult`: the script's statements, the parse errors, and the
collected run instructions. -/
structure ParseResultV where
  script : List InstV
  parseErrors : List ParseErrorV
  runInsts : List InstV

/-- `Parser.parse`: loop over declarations; any escaped failure is logged
and becomes the empty result — the parse boundary never rethrows. -/
def parse (fuel : Nat) (s : PState) : POut ParseResultV :=
  match parseLoop tks fuel s [] [] with
  | .ok r s1 => .ok ⟨r.1, r.2, s1.runInsts⟩ s1
  | .err _ s1 => .ok ⟨[], [], []⟩ s1
  | .crash s1 => .ok ⟨[], [], []⟩ s1
  | .fuelOut => .fuelOut

/-- The parser over a raw token stream: the constructor appends the
synthetic eof token and zeroes the state. -/
def parseFromTokens (fuel : Nat) (input : List Token) : POut ParseResultV :=
  parse (initTokens input) fuel initState

/-- The top-level region decomposition claimed by the spec: the top level
of the returned tree is a sequence of statement regions, each contributing
exactly one statement — a non-Invalid node for a region that parsed, and
one Invalid node spanning the skipped tokens (with its single bundled
error) for a region that failed. -/
inductive Regions : PState → List InstV → List ParseErrorV → PState → Prop
  | done (s : PState) : isAtEnd tks s = true → Regions s [] [] s
  | success (s : PState) (r : NR InstV) (s1 : PState) (insts : List InstV)
      (errs : List ParseErrorV) (sEnd : PState) :
      (∃ f, declaration tks f s = .ok r s1) →
      isInvalidInst r.value = false →
      Regions s1 insts errs sEnd →
      Regions s (r.value :: insts) (r.errors ++ errs) sEnd
  | failure (s : PState) (r : NR InstV) (s1 : PState) (insts : List InstV)
      (errs : List ParseErrorV) (sEnd : PState) (e : ParseErrorV) :
      (∃ f, declaration tks f s = .ok r s1) →
      r.value = .invalid (sliceTks tks s.current s1.current) →
      r.errors = [e] →
      Regions s1 insts errs sEnd →
      Regions s (r.value :: insts) (r.errors ++ errs) sEnd

/-- The token types that can start an `atom` (the literal set matched by
`atom`, the identifier case, and the grouping bracket) — exactly the
token types on which `instruction` dispatches to
`identifierLedInstruction`. -/
def atomStart : TokenType → Bool
  | .false | .true | .fileIdentifier | .string | .integer | .double
  | .identifier | .bracketOpen => true
  | _ => false

/-- Cursor postcondition of one parser routine: a normal return lands at
cursor at least `cok`, a thrown outcome at cursor at least `cerr`, every
outcome stays within the token array, and fuel never runs out. -/
def StOut {α : Type} (o : POut α) (cok cerr : Nat) : Prop :=
  match o with
  | .ok _ s1 => cok ≤ s1.current ∧ s1.current ≤ tks.length
  | .err _ s1 => cerr ≤ s1.current ∧ s1.current ≤ tks.length
  | .crash s1 => cerr ≤ s1.current ∧ s1.current ≤ tks.length
  | .fuelOut => False

/-- The fuel a routine of rank `r` needs at state `s`: enough for the
tokens still ahead times the depth of the same-cursor call chain. -/
def needs (s : PState) (r fuel : Nat) : Prop :=
  (tks.length - s.current) * 21 + r + 1 ≤ fuel

end ParserFns

/-- Sufficient fuel for `parseFromTokens`: the constructed token array
has `input.length + 1` tokens and `parseLoop` has rank 17. -/
def parseFuel (input : List Token) : Nat :=
  (input.length + 1) * 21 + 18

/-- The induction bundle for fuel sufficiency: every parser routine, fed
fuel at least its `needs` at its rank, runs out of neither fuel nor the
token array; routines that consume on success additionally land strictly
past their entry cursor, `atom`-family routines can only fail in place on
a token that cannot start an atom, `instruction`/`define` can only fail
in place with no instruction context on the error, and `declaration`
consumes on success whenever it starts before the end. -/
structure FuelOK (tks : List Token) (fuel : Nat) : Prop where
  atomSt : ∀ s it, s.current ≤ tks.length → needs tks s 0 fuel →
    StOut tks (atom tks fuel it s) (s.current + 1) s.current
  atomErr : ∀ s it, s.current ≤ tks.length → needs tks s 0 fuel →
    ∀ e s1, atom tks fuel it s = .err e s1 → s1.current = s.current →
      atomStart (peekD tks s).type = false
  arrayIndexSt : ∀ s a it, s.current ≤ tks.length → needs tks s 0 fuel →
    StOut tks (arrayIndex tks fuel a it s) s.current s.current
  suffixTermSt : ∀ s it, s.current ≤ tks.length → needs tks s 1 fuel →
    StOut tks (suffixTerm tks fuel it s) (s.current + 1) s.current
  suffixTermErr : ∀ s it, s.current ≤ tks.length → needs tks s 1 fuel →
    ∀ e s1, suffixTerm tks fuel it s = .err e s1 →
      s1.current = s.current → atomStart (peekD tks s).type = false
  suffixTermLoopSt : ∀ s it e, s.current ≤ tks.length →
    needs tks s 1 fuel →
    StOut tks (suffixTermLoop tks fuel it e s) s.current s.current
  suffixLoopSt : ∀ s e, s.current ≤ tks.length → needs tks s 1 fuel →
    StOut tks (suffixLoop tks fuel e s) s.current s.current
  orLoopSt : ∀ s e, s.current ≤ tks.length → needs tks s 1 fuel →
    StOut tks (orLoop tks fuel e s) s.current s.current
  andLoopSt : ∀ s e, s.current ≤ tks.length → needs tks s 1 fuel →
    StOut tks (andLoop tks fuel e s) s.current s.current
  equalityLoopSt : ∀ s e, s.current ≤ tks.length → needs tks s 1 fuel →
    StOut tks (equalityLoop tks fuel e s) s.current s.current
  comparisonLoopSt : ∀ s e, s.current ≤ tks.length → needs tks s 1 fuel →
    StOut tks (comparisonLoop tks fuel e s) s.current s.current
  additionLoopSt : ∀ s e, s.current ≤ tks.length → needs tks s 1 fuel →
    StOut tks (additionLoop tks fuel e s) s.current s.current
  multiplicationLoopSt : ∀ s e, s.current ≤ tks.length →
    needs tks s 1 fuel →
    StOut tks (multiplicationLoop tks fuel e s) s.current s.current
  factorLoopSt : ∀ s e, s.current ≤ tks.length → needs tks s 1 fuel →
    StOut tks (factorLoop tks fuel e s) s.current s.current
  declareNormalParametersSt : ∀ s, s.current ≤ tks.length →
    needs tks s 1 fuel →
    StOut tks (declareNormalParameters tks fuel s) s.current s.current
  declaredDefaultedParametersSt : ∀ s, s.current ≤ tks.length →
    needs tks s 1 fuel →
    StOut tks (declaredDefaultedParameters tks fuel s) s.current s.current
  declareFunctionSt : ∀ s sc, s.current ≤ tks.length →
    needs tks s 1 fuel →
    StOut tks (declareFunction tks fuel sc s) s.current s.current
  declareLockSt : ∀ s sc, s.current ≤ tks.length → needs tks s 1 fuel →
    StOut tks (declareLock tks fuel sc s) s.current s.current
  declareVariableSt : ∀ s sc, s.current ≤ tks.length →
    needs tks s 1 fuel →
    StOut tks (declareVariable tks fuel sc s) s.current s.current
  suffixSt : ∀ s, s.current ≤ tks.length → needs tks s 2 fuel →
    StOut tks (suffix tks fuel s) (s.current + 1) s.current
  suffixErr : ∀ s, s.current ≤ tks.length → needs tks s 2 fuel →
    ∀ e s1, suffix tks fuel s = .err e s1 → s1.current = s.current →
      atomStart (peekD tks s).type = false
  suffixTrailerSt : ∀ s e, s.current ≤ tks.length → needs tks s 2 fuel →
    StOut tks (suffixTrailer tks fuel e s) s.current s.current
  declareParameterSt : ∀ s sc, s.current ≤ tks.length →
    needs tks s 2 fuel →
    StOut tks (declareParameter tks fuel sc s) s.current s.current
  suffixCatchSt : ∀ s i, s.current ≤ tks.length → needs tks s 3 fuel →
    StOut tks (suffixCatch tks fuel i s) (s.current + 1) s.current
  suffixCatchErr : ∀ s i, s.current ≤ tks.length → needs tks s 3 fuel →
    ∀ e s1, suffixCatch tks fuel i s = .err e s1 →
      s1.current = s.current → atomStart (peekD tks s).type = false
  factorSt : ∀ s, s.current ≤ tks.length → needs tks s 3 fuel →
    StOut tks (factor tks fuel s) (s.current + 1) s.current
  unarySt : ∀ s, s.current ≤ tks.length → needs tks s 4 fuel →
    StOut tks (unary tks fuel s) (s.current + 1) s.current
  multiplicationSt : ∀ s, s.current ≤ tks.length → needs tks s 5 fuel →
    StOut tks (multiplication tks fuel s) (s.current + 1) s.current
  additionSt : ∀ s, s.current ≤ tks.length → needs tks s 6 fuel →
    StOut tks (addition tks fuel s) (s.current + 1) s.current
  comparisonSt : ∀ s, s.current ≤ tks.length → needs tks s 7 fuel →
    StOut tks (comparison tks fuel s) (s.current + 1) s.current
  equalitySt : ∀ s, s.current ≤ tks.length → needs tks s 8 fuel →
    StOut tks (equality tks fuel s) (s.current + 1) s.current
  andExprSt : ∀ s, s.current ≤ tks.length → needs tks s 9 fuel →
    StOut tks (andExpr tks fuel s) (s.current + 1) s.current
  orExprSt : ∀ s, s.current ≤ tks.length → needs tks s 10 fuel →
    StOut tks (orExpr tks fuel s) (s.current + 1) s.current
  expressionSt : ∀ s i, s.current ≤ tks.length → needs tks s 11 fuel →
    StOut tks (expression tks fuel i s) (s.current + 1) s.current
  argumentsLoopSt : ∀ s, s.current ≤ tks.length → needs tks s 12 fuel →
    StOut tks (argumentsLoop tks fuel s) s.current s.current
  arrayBracketSt : ∀ s a it, s.current ≤ tks.length →
    needs tks s 12 fuel →
    StOut tks (arrayBracket tks fuel a it s) s.current s.current
  commandExpressionSt : ∀ s, s.current ≤ tks.length →
    needs tks s 12 fuel →
    StOut tks (commandExpression tks fuel s) s.current s.current
  setSt : ∀ s, s.current ≤ tks.length → needs tks s 12 fuel →
    StOut tks (set tks fuel s) s.current s.current
  ifInstSt : ∀ s, s.current ≤ tks.length → needs tks s 12 fuel →
    StOut tks (ifInst tks fuel s) s.current s.current
  untilInstSt : ∀ s, s.current ≤ tks.length → needs tks s 12 fuel →
    StOut tks (untilInst tks fuel s) s.current s.current
  fromInstSt : ∀ s, s.current ≤ tks.length → needs tks s 12 fuel →
    StOut tks (fromInst tks fuel s) s.current s.current
  whenInstSt : ∀ s, s.current ≤ tks.length → needs tks s 12 fuel →
    StOut tks (whenInst tks fuel s) s.current s.current
  returnInstSt : ∀ s, s.current ≤ tks.length → needs tks s 12 fuel →
    StOut tks (returnInst tks fuel s) s.current s.current
  switchInstSt : ∀ s, s.current ≤ tks.length → needs tks s 12 fuel →
    StOut tks (switchInst tks fuel s) s.current s.current
  forInstSt : ∀ s, s.current ≤ tks.length → needs tks s 12 fuel →
    StOut tks (forInst tks fuel s) s.current s.current
  onInstSt : ∀ s, s.current ≤ tks.length → needs tks s 12 fuel →
    StOut tks (onInst tks fuel s) s.current s.current
  toggleSt : ∀ s, s.current ≤ tks.length → needs tks s 12 fuel →
    StOut tks (toggle tks fuel s) s.current s.current
  waitSt : ∀ s, s.current ≤ tks.length → needs tks s 12 fuel →
    StOut tks (wait tks fuel s) s.current s.current
  logSt : ∀ s, s.current ≤ tks.length → needs tks s 12 fuel →
    StOut tks (log tks fuel s) s.current s.current
  copySt : ∀ s, s.current ≤ tks.length → needs tks s 12 fuel →
    StOut tks (copy tks fuel s) s.current s.current
  renameSt : ∀ s, s.current ≤ tks.length → needs tks s 12 fuel →
    StOut tks (rename tks fuel s) s.current s.current
  deleteSt : ∀ s, s.current ≤ tks.length → needs tks s 12 fuel →
    StOut tks (delete tks fuel s) s.current s.current
  runSt : ∀ s, s.current ≤ tks.length → needs tks s 12 fuel →
    StOut tks (run tks fuel s) s.current s.current
  runPathSt : ∀ s, s.current ≤ tks.length → needs tks s 12 fuel →
    StOut tks (runPath tks fuel s) s.current s.current
  runPathOnceSt : ∀ s, s.current ≤ tks.length → needs tks s 12 fuel →
    StOut tks (runPathOnce tks fuel s) s.current s.current
  compileSt : ∀ s, s.current ≤ tks.length → needs tks s 12 fuel →
    StOut tks (compile tks fuel s) s.current s.current
  printSt : ∀ s, s.current ≤ tks.length → needs tks s 12 fuel →
    StOut tks (print tks fuel s) s.current s.current
  argumentsSt : ∀ s, s.current ≤ tks.length → needs tks s 13 fuel →
    StOut tks (arguments tks fuel s) s.current s.current
  identifierLedInstructionSt : ∀ s, s.current ≤ tks.length →
    needs tks s 13 fuel →
    StOut tks (identifierLedInstruction tks fuel s)
      (s.current + 1) s.current
  identifierLedInstructionErr : ∀ s, s.current ≤ tks.length →
    needs tks s 13 fuel →
    ∀ e s1, identifierLedInstruction tks fuel s = .err e s1 →
      s1.current = s.current → atomStart (peekD tks s).type = false
  functionTrailerSt : ∀ s a it, s.current ≤ tks.length →
    needs tks s 14 fuel →
    StOut tks (functionTrailer tks fuel a it s) s.current s.current
  instructionSt : ∀ s, s.current ≤ tks.length → needs tks s 14 fuel →
    StOut tks (instruction tks fuel s) (s.current + 1) s.current
  instructionErr : ∀ s, s.current ≤ tks.length → needs tks s 14 fuel →
    ∀ e s1, instruction tks fuel s = .err e s1 →
      s1.current = s.current → (ParseErrorV.failed e).inst = none
  defineSt : ∀ s, s.current ≤ tks.length → needs tks s 15 fuel →
    StOut tks (define tks fuel s) (s.current + 1) s.current
  defineErr : ∀ s, s.current ≤ tks.length → needs tks s 15 fuel →
    ∀ e s1, define tks fuel s = .err e s1 →
      s1.current = s.current → (ParseErrorV.failed e).inst = none
  declarationSt : ∀ s, s.current ≤ tks.length → needs tks s 16 fuel →
    StOut tks (declaration tks fuel s) s.current s.current
  declarationOk : ∀ s, s.current ≤ tks.length → needs tks s 16 fuel →
    isAtEnd tks s = false →
    ∀ a s1, declaration tks fuel s = .ok a s1 →
      s.current + 1 ≤ s1.current
  blockDeclarationsSt : ∀ s ds es, s.current ≤ tks.length →
    needs tks s 17 fuel →
    StOut tks (blockDeclarations tks fuel ds es s) s.current s.current
  parseLoopSt : ∀ s insts errs, s.current ≤ tks.length →
    needs tks s 17 fuel →
    StOut tks (parseLoop tks fuel s insts errs) s.current s.current
  instructionBlockSt : ∀ s, s.current ≤ tks.length →
    needs tks s 18 fuel →
    StOut tks (instructionBlock tks fuel s) s.current s.current
  anonymousFunctionSt : ∀ s, s.current ≤ tks.length →
    needs tks s 18 fuel →
    StOut tks (anonymousFunction tks fuel s) s.current s.current

end Parser

/-! ## Theorems about the type engine -/

/-- Helper: `isSubtype` is transitive along the supertype chain. -/
theorem isSubtype_trans_aux :
    ∀ a b c : GType, a.isSubtype b = true → b.isSubtype c = true →
      a.isSubtype c = true
  | .mk n .none co sf ops, b, c, hab, hbc => by
    have hb : b = GType.mk n .none co sf ops := by
      simpa [GType.isSubtype] using hab
    rw [hb] at hbc
    exact hbc
  | .mk n (.some s) co sf ops, b, c, hab, hbc => by
    by_cases hb : b = GType.mk n (.some s) co sf ops
    · rw [hb] at hbc
      exact hbc
    · have hs : s.isSubtype b = true := by
        simpa [GType.isSubtype, hb] using hab
      have hsc : s.isSubtype c = true := isSubtype_trans_aux s b c hs hbc
      by_cases hc : c = GType.mk n (.some s) co sf ops
      · simp [GType.isSubtype, hc]
      · simpa [GType.isSubtype, hc] using hsc

/-- Helper: whatever `isSubtype` accepts, `canCoerce` accepts. -/
theorem canCoerce_of_isSubtype_aux :
    ∀ a b : GType, a.isSubtype b = true → a.canCoerce b = true
  | .mk n .none co sf ops, b, hab => by
    have hb : b = GType.mk n .none co sf ops := by
      simpa [GType.isSubtype] using hab
    simp [GType.canCoerce, hb]
  | .mk n (.some s) co sf ops, b, hab => by
    by_cases hb : b = GType.mk n (.some s) co sf ops
    · simp [GType.canCoerce, hb]
    · have hs : s.isSubtype b = true := by
        simpa [GType.isSubtype, hb] using hab
      have hsc : s.canCoerce b = true := canCoerce_of_isSubtype_aux s b hs
      simp [GType.canCoerce, hb, hsc]

/-- C5: `isSubtype` is reflexive and transitive along the declared single
supertype chain, and `canCoerce` is true whenever `isSubtype` is true. -/
theorem isSubtype_refl_trans_canCoerce :
    (∀ t : GType, t.isSubtype t = true) ∧
    (∀ a b c : GType, a.isSubtype b = true → b.isSubtype c = true →
      a.isSubtype c = true) ∧
    (∀ a b : GType, a.isSubtype b = true → a.canCoerce b = true) := by
  refine ⟨?_, isSubtype_trans_aux, canCoerce_of_isSubtype_aux⟩
  intro t
  match t with
  | .mk n .none co sf ops => simp [GType.isSubtype]
  | .mk n (.some s) co sf ops => simp [GType.isSubtype]

/-- C5 witness: the properties applied at the concrete `stage ⊑ structure`
chain. -/
theorem isSubtype_refl_trans_canCoerce_witness :
    stageT.isSubtype stageT = true ∧
    stageT.isSubtype structureT = true ∧
    stageT.canCoerce structureT = true :=
  ⟨isSubtype_refl_trans_canCoerce.1 stageT,
   isSubtype_refl_trans_canCoerce.2.1 stageT stageT structureT
     (isSubtype_refl_trans_canCoerce.1 stageT) (by decide),
   isSubtype_refl_trans_canCoerce.2.2 stageT structureT (by decide)⟩

/-- C6 counterexample: the claim quantifies over every generic/parametric
type, but `GenericType.toConcreteType` never returns a concrete type at
all — its body is `throw new Error('Method not implemented.')`. -/
theorem genericType_toConcreteType_throws :
    stageT.toConcreteType [] = Except.error "Method not implemented." := rfl

/-- C6 (amended): `GenericVariadicType.toConcreteType` is memoized per
argument, so instantiating twice with the identical argument returns the
reference-equal concrete `VariadicType` object. -/
theorem variadicToConcreteType_memoized :
    ∀ (st : GenericVariadicState) (t : GType),
      (variadicToConcreteType (variadicToConcreteType st t).2 t).1 =
        (variadicToConcreteType st t).1 := by
  intro st t
  cases h : st.concreteTypes.lookup t with
  | some cache => simp [variadicToConcreteType, h]
  | none => simp [variadicToConcreteType, h]

/-- C7: on the operator path, a `kind` with no registered operators
yields `undefined`; a registered (kind, other-operand) pair yields its
operator; but a registered kind with an unmatched other operand makes
`getOperator` throw `Method not implemented.` instead of returning
nothing — the failing input of the code bug. -/
theorem getOperator_throws_on_unmatched_operand :
    addableT.getOperator .multiply (.some booleanT) = Except.ok none ∧
    addableT.getOperator .plus (.some scalarT) =
      Except.ok (some (.mk .plus (.some scalarT))) ∧
    addableT.getOperator .plus (.some booleanT) =
      Except.error "Method not implemented." := by
  exact ⟨rfl, rfl, rfl⟩

/-! ## Theorems about the symbol table builder -/

/-- C3: on the failing input — a freshly declared global function `hi` —
`useFunction` reports `1 hi may not exist.` (the numeric
`KsSymbolKind.function`) with Error severity and records nothing, because
`lookupFunctionTracker` filters through `isKsVariable`; the unfiltered
`useSymbol` on the same state resolves the tracker, records it, and
appends the usage. -/
theorem useFunction_on_declared_function_reports_missing :
    declareFunction freshBuilder .globalScope tokHi [] false =
      .ok (none, bHi, some trHi) ∧
    useFunction bHi tokHi =
      .ok (some ⟨tokHi, "1 hi may not exist.", Sev.error, none⟩, bHi, none) ∧
    useSymbol bHi tokHi = .ok (none, bHiUsed, some trHiUsed) :=
  ⟨rfl, rfl, rfl⟩

/-- Helper: every diagnostic the unused-symbol loop emits carries Error
severity. -/
theorem unusedDiagnostics_severity :
    ∀ (sc : ScopeV), ∀ d ∈ unusedDiagnostics sc, d.severity = Sev.error := by
  intro sc
  induction sc with
  | nil => intro d hd; simp [unusedDiagnostics] at hd
  | cons e rest ih =>
    intro d hd
    obtain ⟨_, tr⟩ := e
    simp only [unusedDiagnostics, List.mem_append] at hd
    rcases hd with hd | hd
    · cases h : tr.symbol with
      | variableSym st nm =>
        rw [h] at hd
        by_cases hu : tr.usages.length = 0 <;> simp [hu] at hd <;> simp [hd]
      | functionSym st nm ps rv => rw [h] at hd; simp at hd
      | lockSym st nm cooked =>
        rw [h] at hd
        by_cases hu : (!cooked && tr.usages.length == 0) = true
        · simp [hu] at hd; simp [hd]
        · simp only [Bool.and_eq_true, beq_iff_eq] at hu
          by_cases hc : cooked <;> by_cases hl : tr.usages.length = 0 <;>
            simp [hc, hl] at hd hu ⊢ <;> simp [hd]
      | parameterSym nm df =>
        rw [h] at hd
        by_cases hu : tr.usages.length = 0 <;> simp [hu] at hd <;> simp [hd]
    · exact ih d hd

/-- C4 counterexample: closing a scope holding one unused variable `x`
emits the `Variable x was not used.` diagnostic at Error severity — not a
warning as claimed. -/
theorem endScope_unused_variable_error_severity :
    endScope bXvar =
      .ok ([⟨tokX, "Variable x was not used.", Sev.error, none⟩], bXvar) ∧
    Sev.error ≠ Sev.warning :=
  ⟨rfl, by decide⟩

/-- C4 (amended): `endScope` emits the unused-symbol diagnostics of the
closed scope, and every one of them — for parameters, locks and variables
alike — has Error severity. -/
theorem endScope_unused_severities :
    ∀ (b : Builder) (node : ScopeNodeV),
      activeScopeNode b.rootScope b.activeScopePath = some node →
      endScope b =
        .ok (unusedDiagnostics node.scope,
          { b with activeScopePath := b.activeScopePath.dropLast }) ∧
      ∀ d ∈ unusedDiagnostics node.scope, d.severity = Sev.error := by
  intro b node h
  refine ⟨?_, unusedDiagnostics_severity node.scope⟩
  simp [endScope, h]

/-- C4 witness: the amended theorem applied at the unused-variable state. -/
theorem endScope_unused_severities_witness :
    endScope bXvar =
      .ok (unusedDiagnostics (ScopeNodeV.mk [("x", trXvar)] []).scope, bXvar) ∧
    ∀ d ∈ unusedDiagnostics (ScopeNodeV.mk [("x", trXvar)] []).scope,
      d.severity = Sev.error := by
  have h := endScope_unused_severities bXvar (.mk [("x", trXvar)] []) rfl
  exact h

/-- Helper: `Map.set` then `Map.get` on the same key. -/
theorem scopeGet_scopeSet_self (sc : ScopeV) (k : String) (t : TrackerV) :
    scopeGet (scopeSet sc k t) k = some t := by
  induction sc with
  | nil => simp [scopeGet, scopeSet, List.lookup]
  | cons e rest ih =>
    obtain ⟨k2, t2⟩ := e
    by_cases hk : k2 = k
    · simp [scopeGet, scopeSet, hk, List.lookup]
    · have hk2 : (k == k2) = false := by
        simp [beq_eq_false_iff_ne]
        exact fun h => hk h.symm
      simp only [scopeSet, if_neg hk, scopeGet, List.lookup, hk2]
      exact ih

/-- Helper: replacing the scope at a path that `activeScopeNode` resolves
succeeds, and re-resolving the path reads the new scope. -/
theorem setScopeAt_resolves :
    ∀ (p : List Nat) (root node : ScopeNodeV) (sc : ScopeV),
      activeScopeNode root p = some node →
      ∃ root2, setScopeAt root p sc = some root2 ∧
        activeScopeNode root2 p = some (.mk sc node.children)
  | [], root, node, sc, h => by
    obtain ⟨s, cs⟩ := root
    simp [activeScopeNode] at h
    refine ⟨.mk sc cs, ?_, ?_⟩
    · simp [setScopeAt]
    · simp [activeScopeNode, ← h, ScopeNodeV.children]
  | i :: rest, root, node, sc, h => by
    obtain ⟨s, cs⟩ := root
    simp only [activeScopeNode, ScopeNodeV.children] at h
    cases hc : cs.get? i with
    | none => rw [hc] at h; exact absurd h (by simp)
    | some child =>
      rw [hc] at h
      obtain ⟨root2c, hset, hread⟩ := setScopeAt_resolves rest child node sc h
      have hi : i < cs.length := by
        rw [List.get?_eq_getElem?] at hc
        exact (List.getElem?_eq_some.mp hc).1
      refine ⟨.mk s (cs.set i root2c), ?_, ?_⟩
      · simp only [setScopeAt, hc, hset]
      · simp only [activeScopeNode, ScopeNodeV.children]
        rw [List.get?_eq_getElem?, List.getElem?_set_self hi]
        exact hread

/-- Helper: a successful innermost-scope lookup pins down the active node. -/
theorem lookup_local_ok (b : Builder) (tok : Tok) (r : Option TrackerV)
    (h : lookup b tok .localScope = .ok r) :
    ∃ node, activeScopeNode b.rootScope b.activeScopePath = some node ∧
      scopeGet node.scope tok.lexeme = r := by
  unfold lookup at h
  cases hn : activeScopeNode b.rootScope b.activeScopePath with
  | none => rw [hn] at h; exact absurd h (by simp)
  | some node =>
    rw [hn] at h
    simp at h
    exact ⟨node, rfl, h⟩

/-- Helper: after `insertTracker` at local scope, the innermost scope maps
the token to the inserted tracker. -/
theorem insertTracker_local_lookup (b : Builder) (tok : Tok) (tr : TrackerV)
    (node : ScopeNodeV)
    (hn : activeScopeNode b.rootScope b.activeScopePath = some node) :
    lookup (insertTracker b .localScope tok tr) tok .localScope =
      .ok (some tr) := by
  obtain ⟨root2, hset, hread⟩ :=
    setScopeAt_resolves b.activeScopePath b.rootScope node
      (scopeSet node.scope tok.lexeme tr) hn
  unfold insertTracker selectScopePath
  simp only [hn, hset]
  unfold lookup
  simp only [hread, ScopeNodeV.scope]
  rw [scopeGet_scopeSet_self]

/-- C9: a declare operation (variable, function, lock or parameter) that
reports a redeclaration conflict leaves the builder untouched and does
not write the token's tracker slot; one that reports only a shadowing
warning still inserts the fresh tracker into the selected scope and
records it on the token — again for all four declare operations. -/
theorem declare_conflict_keeps_table :
    ∀ (b : Builder) (st : ScopeTypeV) (tok : Tok) (params : List KsParameterV)
      (ret defaulted : Bool) (t : TrackerV),
      (lookup b tok st = .ok (some t) →
        declareVariable b st tok =
          .ok (some (localConflictError tok t.symbol), b, none) ∧
        declareFunction b st tok params ret =
          .ok (some (localConflictError tok t.symbol), b, none) ∧
        declareLock b st tok =
          .ok (some (localConflictError tok t.symbol), b, none) ∧
        declareParameter b st tok defaulted =
          .ok (some (localConflictError tok t.symbol), b, none)) ∧
      (∀ sh : TrackerV, lookup b tok .localScope = .ok none →
        lookup b tok .globalScope = .ok (some sh) →
        (declareVariable b .localScope tok =
          .ok (some (shadowSymbolHint tok sh.symbol),
            insertTracker b .localScope tok ⟨.variableSym .localScope tok, [], []⟩,
            some ⟨.variableSym .localScope tok, [], []⟩) ∧
         lookup (insertTracker b .localScope tok
             ⟨.variableSym .localScope tok, [], []⟩) tok .localScope =
           .ok (some ⟨.variableSym .localScope tok, [], []⟩)) ∧
        (declareFunction b .localScope tok params ret =
          .ok (some (shadowSymbolHint tok sh.symbol),
            insertTracker b .localScope tok
              ⟨.functionSym .localScope tok params ret, [], []⟩,
            some ⟨.functionSym .localScope tok params ret, [], []⟩) ∧
         lookup (insertTracker b .localScope tok
             ⟨.functionSym .localScope tok params ret, [], []⟩) tok
             .localScope =
           .ok (some ⟨.functionSym .localScope tok params ret, [], []⟩)) ∧
        (declareLock b .localScope tok =
          .ok (some (shadowSymbolHint tok sh.symbol),
            insertTracker b .localScope tok ⟨.lockSym .localScope tok false, [], []⟩,
            some ⟨.lockSym .localScope tok false, [], []⟩) ∧
         lookup (insertTracker b .localScope tok
             ⟨.lockSym .localScope tok false, [], []⟩) tok .localScope =
           .ok (some ⟨.lockSym .localScope tok false, [], []⟩)) ∧
        (declareParameter b .localScope tok defaulted =
          .ok (some (shadowSymbolHint tok sh.symbol),
            insertTracker b .localScope tok
              ⟨.parameterSym tok defaulted, [], []⟩,
            some ⟨.parameterSym tok defaulted, [], []⟩) ∧
         lookup (insertTracker b .localScope tok
             ⟨.parameterSym tok defaulted, [], []⟩) tok .localScope =
           .ok (some ⟨.parameterSym tok defaulted, [], []⟩))) := by
  intro b st tok params ret defaulted t
  constructor
  · intro h
    refine ⟨?_, ?_, ?_, ?_⟩ <;>
      simp [declareVariable, declareFunction, declareLock, declareParameter, h]
  · intro sh hlocal hglobal
    obtain ⟨node, hn, _⟩ := lookup_local_ok b tok none hlocal
    have hshadow : shadowDiagnostic b .localScope tok =
        .ok (some (shadowSymbolHint tok sh.symbol)) := by
      simp [shadowDiagnostic, hglobal]
    refine ⟨⟨?_, ?_⟩, ⟨?_, ?_⟩, ⟨?_, ?_⟩, ⟨?_, ?_⟩⟩
    · simp [declareVariable, hlocal, hshadow]
    · exact insertTracker_local_lookup b tok _ node hn
    · simp [declareFunction, hlocal, hshadow]
    · exact insertTracker_local_lookup b tok _ node hn
    · simp [declareLock, hlocal, hshadow]
    · exact insertTracker_local_lookup b tok _ node hn
    · simp [declareParameter, hlocal, hshadow]
    · exact insertTracker_local_lookup b tok _ node hn

/-- C9 witness: the conflict case for all four declare operations at a
builder already declaring global variable `x`, and the shadow case for
all four at a builder inside an empty child scope with global `x`
visible. -/
theorem declare_conflict_keeps_table_witness :
    (declareVariable bXvar .globalScope tokX =
      .ok (some (localConflictError tokX trXvar.symbol), bXvar, none) ∧
     declareFunction bXvar .globalScope tokX [] false =
      .ok (some (localConflictError tokX trXvar.symbol), bXvar, none) ∧
     declareLock bXvar .globalScope tokX =
      .ok (some (localConflictError tokX trXvar.symbol), bXvar, none) ∧
     declareParameter bXvar .globalScope tokX false =
      .ok (some (localConflictError tokX trXvar.symbol), bXvar, none)) ∧
    declareVariable bShadow .localScope tokX =
      .ok (some (shadowSymbolHint tokX trXvar.symbol),
        insertTracker bShadow .localScope tokX
          ⟨.variableSym .localScope tokX, [], []⟩,
        some ⟨.variableSym .localScope tokX, [], []⟩) ∧
    declareFunction bShadow .localScope tokX [] false =
      .ok (some (shadowSymbolHint tokX trXvar.symbol),
        insertTracker bShadow .localScope tokX
          ⟨.functionSym .localScope tokX [] false, [], []⟩,
        some ⟨.functionSym .localScope tokX [] false, [], []⟩) ∧
    declareLock bShadow .localScope tokX =
      .ok (some (shadowSymbolHint tokX trXvar.symbol),
        insertTracker bShadow .localScope tokX
          ⟨.lockSym .localScope tokX false, [], []⟩,
        some ⟨.lockSym .localScope tokX false, [], []⟩) ∧
    declareParameter bShadow .localScope tokX false =
      .ok (some (shadowSymbolHint tokX trXvar.symbol),
        insertTracker bShadow .localScope tokX
          ⟨.parameterSym tokX false, [], []⟩,
        some ⟨.parameterSym tokX false, [], []⟩) :=
  ⟨(declare_conflict_keeps_table bXvar .globalScope tokX [] false false
      trXvar).1 rfl,
   (((declare_conflict_keeps_table bShadow .localScope tokX [] false false
      trXvar).2 trXvar rfl rfl).1).1,
   (((declare_conflict_keeps_table bShadow .localScope tokX [] false false
      trXvar).2 trXvar rfl rfl).2.1).1,
   (((declare_conflict_keeps_table bShadow .localScope tokX [] false false
      trXvar).2 trXvar rfl rfl).2.2.1).1,
   (((declare_conflict_keeps_table bShadow .localScope tokX [] false false
      trXvar).2 trXvar rfl rfl).2.2.2).1⟩

theorem mem_insertName (l : List String) (u v : String) :
    v ∈ insertName l u ↔ (v ∈ l ∨ v = u) := by
  unfold insertName
  by_cases h : u ∈ l
  · simp only [if_pos h]
    exact ⟨Or.inl, fun hv => hv.elim id (fun he => he ▸ h)⟩
  · simp only [if_neg h, List.mem_cons]
    exact or_comm

theorem lookup_mapEntries (f : String → LinkTable → LinkTable) :
    ∀ (σ : Coord) (u : String),
      (mapEntries f σ).lookup u = (σ.lookup u).map (f u)
  | [], _ => rfl
  | (k, t) :: rest, u => by
    by_cases hk : u = k
    · simp [mapEntries, List.lookup, hk]
    · have hbeq : (u == k) = false := beq_false_of_ne hk
      simp only [mapEntries, List.map, List.lookup, hbeq]
      exact lookup_mapEntries f rest u

theorem lookup_linkDep (σ : Coord) (uri dep u : String) :
    (linkDep σ uri dep).lookup u = (σ.lookup u).map (linkEntry uri dep u) :=
  lookup_mapEntries (linkEntry uri dep) σ u

theorem lookup_detachUri (σ : Coord) (uri u : String) :
    (detachUri σ uri).lookup u = (σ.lookup u).map (detachEntry uri u) :=
  lookup_mapEntries (detachEntry uri) σ u

theorem ensureEntry_of_some (σ : Coord) (d : String) (t : LinkTable)
    (h : σ.lookup d = some t) : ensureEntry σ d = σ := by
  simp [ensureEntry, h]

theorem lookup_ensureEntry_of_none (σ : Coord) (d : String)
    (h : σ.lookup d = none) (u : String) :
    (ensureEntry σ d).lookup u =
      if u = d then some ⟨[], []⟩ else σ.lookup u := by
  unfold ensureEntry
  rw [h]
  by_cases hu : u = d
  · simp [List.lookup, hu]
  · have hbeq : (u == d) = false := beq_false_of_ne hu
    simp [List.lookup, hbeq, hu]

/-- The entry of the validated document always exists after `ensureEntry`. -/
theorem lookup_ensureEntry_self (σ : Coord) (d : String) :
    ∃ t, (ensureEntry σ d).lookup d = some t := by
  cases h : σ.lookup d with
  | some t => rw [ensureEntry_of_some σ d t h]; exact ⟨t, h⟩
  | none => rw [lookup_ensureEntry_of_none σ d h d]; simp

/-- The linking fold: pointwise description of every table after the
fresh dependency edges of `uri` have been linked. -/
theorem linkFold_spec (uri : String) :
    ∀ (deps : List String) (σ0 : Coord) (tu : LinkTable),
      σ0.lookup uri = some tu →
      ∃ tu',
        (deps.foldl (fun acc d => linkDep (ensureEntry acc d) uri d) σ0).lookup
            uri = some tu' ∧
        (∀ v, v ∈ tu'.dependencies ↔ (v ∈ tu.dependencies ∨ v ∈ deps)) ∧
        (∀ v, v ∈ tu'.dependents ↔
          (v ∈ tu.dependents ∨ (v = uri ∧ uri ∈ deps))) ∧
        (∀ u, u ≠ uri → ∀ t',
          (deps.foldl (fun acc d => linkDep (ensureEntry acc d) uri d)
              σ0).lookup u = some t' →
          ∃ t0,
            ((σ0.lookup u = some t0) ∨
              (σ0.lookup u = none ∧ t0 = ⟨[], []⟩ ∧ u ∈ deps)) ∧
            t'.dependencies = t0.dependencies ∧
            (∀ v, v ∈ t'.dependents ↔
              (v ∈ t0.dependents ∨ (v = uri ∧ u ∈ deps)))) ∧
        (∀ u,
          (deps.foldl (fun acc d => linkDep (ensureEntry acc d) uri d)
              σ0).lookup u = none → σ0.lookup u = none ∧ u ∉ deps)
  | [], σ0, tu, h => by
    refine ⟨tu, h, by simp, by simp, ?_, ?_⟩
    · intro u _ t' ht'
      exact ⟨t', Or.inl ht', rfl, by simp⟩
    · intro u hu
      exact ⟨hu, by simp⟩
  | d :: rest, σ0, tu, h => by
    -- the accumulated state after processing the head dependency
    have had : uri ≠ d ∨ (σ0.lookup d).isSome := by
      by_cases hud : uri = d
      · right; rw [← hud, h]; rfl
      · exact Or.inl hud
    have hua : (ensureEntry σ0 d).lookup uri = some tu := by
      cases hd0 : σ0.lookup d with
      | some t => rw [ensureEntry_of_some σ0 d t hd0]; exact h
      | none =>
        rw [lookup_ensureEntry_of_none σ0 d hd0 uri]
        have : uri ≠ d := by
          intro he; rw [he, hd0] at h; exact absurd h (by simp)
        simp [this, h]
    have hub : (linkDep (ensureEntry σ0 d) uri d).lookup uri =
        some (linkEntry uri d uri tu) := by
      rw [lookup_linkDep, hua]; rfl
    obtain ⟨tu', h1, h2, h3, h4, h5⟩ :=
      linkFold_spec uri rest (linkDep (ensureEntry σ0 d) uri d)
        (linkEntry uri d uri tu) hub
    have hdepsB : ∀ v, v ∈ (linkEntry uri d uri tu).dependencies ↔
        (v ∈ tu.dependencies ∨ v = d) := by
      intro v
      unfold linkEntry
      by_cases hud : uri = d <;>
        simp [hud, mem_insertName]
    have hdntsB : ∀ v, v ∈ (linkEntry uri d uri tu).dependents ↔
        (v ∈ tu.dependents ∨ (v = uri ∧ d = uri)) := by
      intro v
      unfold linkEntry
      by_cases hud : uri = d
      · subst hud
        simp [mem_insertName]
      · have hdu : ¬d = uri := fun he => hud he.symm
        simp [hud, hdu]
    refine ⟨tu', h1, ?_, ?_, ?_, ?_⟩
    · intro v
      rw [h2 v, hdepsB v, List.mem_cons]
      tauto
    · intro v
      rw [h3 v, hdntsB v, List.mem_cons]
      constructor
      · rintro ((hv | ⟨hv, hd⟩) | ⟨hv, hr⟩)
        · exact Or.inl hv
        · exact Or.inr ⟨hv, Or.inl hd.symm⟩
        · exact Or.inr ⟨hv, Or.inr hr⟩
      · rintro (hv | ⟨hv, (hd | hr)⟩)
        · exact Or.inl (Or.inl hv)
        · exact Or.inl (Or.inr ⟨hv, hd.symm⟩)
        · exact Or.inr ⟨hv, hr⟩
    · intro u hu t' ht'
      obtain ⟨t0b, hcase, hdeps, hdnts⟩ := h4 u hu t' ht'
      rcases hcase with hsome | ⟨hnone, ht0b, hur⟩
      · -- the intermediate state already had an entry for u
        rw [lookup_linkDep] at hsome
        cases ha : (ensureEntry σ0 d).lookup u with
        | none => rw [ha] at hsome; exact absurd hsome (by simp)
        | some t0a =>
          rw [ha] at hsome
          have ht0b2 : t0b = linkEntry uri d u t0a := by
            simpa using hsome.symm
          have hlinku : (linkEntry uri d u t0a).dependencies =
              t0a.dependencies ∧
              (∀ v, v ∈ (linkEntry uri d u t0a).dependents ↔
                (v ∈ t0a.dependents ∨ (v = uri ∧ u = d))) := by
            unfold linkEntry
            simp only [if_neg hu]
            by_cases hud : u = d
            · subst hud
              simp [mem_insertName]
            · simp [hud]
          -- now relate the ensured state to σ0
          cases hd0 : σ0.lookup d with
          | some t =>
            rw [ensureEntry_of_some σ0 d t hd0] at ha
            refine ⟨t0a, Or.inl ha, ?_, ?_⟩
            · rw [hdeps, ht0b2, hlinku.1]
            · intro v
              rw [hdnts v, ht0b2, hlinku.2 v, List.mem_cons]
              tauto
          | none =>
            rw [lookup_ensureEntry_of_none σ0 d hd0 u] at ha
            by_cases hud : u = d
            · rw [if_pos hud] at ha
              have ht0a : t0a = ⟨[], []⟩ := by
                exact ((Option.some.injEq _ _).mp ha).symm
              refine ⟨⟨[], []⟩,
                Or.inr ⟨by rw [hud]; exact hd0, rfl, by simp [hud]⟩, ?_, ?_⟩
              · rw [hdeps, ht0b2, hlinku.1, ht0a]
              · intro v
                rw [hdnts v, ht0b2, hlinku.2 v, ht0a, List.mem_cons]
                simp only [List.not_mem_nil, false_or]
                tauto
            · rw [if_neg hud] at ha
              refine ⟨t0a, Or.inl ha, ?_, ?_⟩
              · rw [hdeps, ht0b2, hlinku.1]
              · intro v
                rw [hdnts v, ht0b2, hlinku.2 v, List.mem_cons]
                tauto
      · -- the intermediate state had no entry: u was created later
        rw [lookup_linkDep] at hnone
        cases ha : (ensureEntry σ0 d).lookup u with
        | some t0a => rw [ha] at hnone; exact absurd hnone (by simp)
        | none =>
          have hud : u ≠ d := by
            intro he
            obtain ⟨t, hself⟩ := lookup_ensureEntry_self σ0 d
            rw [he] at ha
            rw [ha] at hself
            exact absurd hself (by simp)
          have h0 : σ0.lookup u = none := by
            cases hd0 : σ0.lookup d with
            | some t => rw [ensureEntry_of_some σ0 d t hd0] at ha; exact ha
            | none =>
              rw [lookup_ensureEntry_of_none σ0 d hd0 u, if_neg hud] at ha
              exact ha
          refine ⟨⟨[], []⟩, Or.inr ⟨h0, rfl, List.mem_cons_of_mem d hur⟩,
            by rw [hdeps, ht0b], ?_⟩
          intro v
          rw [hdnts v, ht0b, List.mem_cons]
          simp only [List.not_mem_nil, false_or]
          tauto
    · intro u hu
      obtain ⟨hb, hr⟩ := h5 u hu
      rw [lookup_linkDep] at hb
      cases ha : (ensureEntry σ0 d).lookup u with
      | some t0a => rw [ha] at hb; exact absurd hb (by simp)
      | none =>
        have hud : u ≠ d := by
          intro he
          obtain ⟨t, hself⟩ := lookup_ensureEntry_self σ0 d
          rw [he] at ha
          rw [ha] at hself
          exact absurd hself (by simp)
        have h0 : σ0.lookup u = none := by
          cases hd0 : σ0.lookup d with
          | some t => rw [ensureEntry_of_some σ0 d t hd0] at ha; exact ha
          | none =>
            rw [lookup_ensureEntry_of_none σ0 d hd0 u, if_neg hud] at ha
            exact ha
        refine ⟨h0, ?_⟩
        rw [List.mem_cons]
        rintro (he | he)
        · exact hud he
        · exact hr he

/-- C8 (spec-modelled): after `validateDocument` the link sets are again
mutually consistent and closed, the validated document's dependency set is
exactly its resolved load dependencies, and no stale edge to or from it
survives: any other document holds it in a link set exactly when that
document is one of the fresh dependencies. -/
theorem validateDocument_consistent_no_stale :
    ∀ (σ : Coord) (uri : String) (deps : List String),
      Consistent σ → Closed σ →
      Consistent (validateDocument σ uri deps) ∧
      Closed (validateDocument σ uri deps) ∧
      (∀ u t, u ≠ uri → (validateDocument σ uri deps).lookup u = some t →
        uri ∉ t.dependencies ∧ (uri ∈ t.dependents ↔ u ∈ deps)) ∧
      (∀ t, (validateDocument σ uri deps).lookup uri = some t →
        (∀ d, d ∈ t.dependencies ↔ d ∈ deps) ∧
        (∀ v, v ∈ t.dependents ↔ (v = uri ∧ uri ∈ deps))) := by
  intro σ uri deps hcons hclosed
  obtain ⟨te, hte⟩ := lookup_ensureEntry_self σ uri
  have h2u : (detachUri (ensureEntry σ uri) uri).lookup uri = some ⟨[], []⟩ := by
    rw [lookup_detachUri, hte]
    simp [detachEntry]
  obtain ⟨tu', h1, h2, h3, h4, h5⟩ :=
    linkFold_spec uri deps (detachUri (ensureEntry σ uri) uri) ⟨[], []⟩ h2u
  have hVD : validateDocument σ uri deps
      = deps.foldl (fun acc d => linkDep (ensureEntry acc d) uri d)
          (detachUri (ensureEntry σ uri) uri) := rfl
  have heu : ∀ u, u ≠ uri → (ensureEntry σ uri).lookup u = σ.lookup u := by
    intro u hu
    cases h0 : σ.lookup uri with
    | some t => rw [ensureEntry_of_some σ uri t h0]
    | none => rw [lookup_ensureEntry_of_none σ uri h0 u, if_neg hu]
  have h2l : ∀ u, u ≠ uri →
      (detachUri (ensureEntry σ uri) uri).lookup u =
        (σ.lookup u).map (detachEntry uri u) := by
    intro u hu
    rw [lookup_detachUri, heu u hu]
  have hmemf : ∀ (l : List String) (v : String),
      v ∈ l.filter (fun x => x ≠ uri) ↔ (v ∈ l ∧ v ≠ uri) := by
    intro l v
    simp [List.mem_filter]
  have hdetd : ∀ u t, u ≠ uri → ∀ v,
      (v ∈ (detachEntry uri u t).dependencies ↔ (v ∈ t.dependencies ∧ v ≠ uri)) ∧
      (v ∈ (detachEntry uri u t).dependents ↔ (v ∈ t.dependents ∧ v ≠ uri)) := by
    intro u t hu v
    unfold detachEntry
    rw [if_neg hu]
    exact ⟨hmemf t.dependencies v, hmemf t.dependents v⟩
  -- entries of σ survive into the final state
  have hsurv : ∀ b tb, σ.lookup b = some tb →
      ∃ x, (validateDocument σ uri deps).lookup b = some x := by
    intro b tb hb
    cases hfin : (validateDocument σ uri deps).lookup b with
    | some x => exact ⟨x, rfl⟩
    | none =>
      rw [hVD] at hfin
      obtain ⟨h0, _⟩ := h5 b hfin
      by_cases hbu : b = uri
      · rw [hbu, h2u] at h0
        exact absurd h0 (by simp)
      · rw [h2l b hbu, hb] at h0
        exact absurd h0 (by simp)
  -- the characterization of non-validated entries
  have hother : ∀ u t, u ≠ uri →
      (validateDocument σ uri deps).lookup u = some t →
      ∃ t0,
        ((σ.lookup u = some t0 ∧
          (∀ v, v ∈ t.dependencies ↔ (v ∈ t0.dependencies ∧ v ≠ uri)) ∧
          (∀ v, v ∈ t.dependents ↔
            ((v ∈ t0.dependents ∧ v ≠ uri) ∨ (v = uri ∧ u ∈ deps)))) ∨
         (σ.lookup u = none ∧ u ∈ deps ∧ t.dependencies = [] ∧
          (∀ v, v ∈ t.dependents ↔ (v = uri ∧ u ∈ deps)))) := by
    intro u t hu ht
    rw [hVD] at ht
    obtain ⟨t0, hcase, hdeps, hdnts⟩ := h4 u hu t ht
    rcases hcase with hsome | ⟨hnone, ht0, hud⟩
    · rw [h2l u hu] at hsome
      cases hs : σ.lookup u with
      | none => rw [hs] at hsome; exact absurd hsome (by simp)
      | some tS =>
        rw [hs] at hsome
        have ht0d : t0 = detachEntry uri u tS := by simpa using hsome.symm
        refine ⟨tS, Or.inl ⟨rfl, ?_, ?_⟩⟩
        · intro v
          rw [hdeps, ht0d]
          exact (hdetd u tS hu v).1
        · intro v
          rw [hdnts v, ht0d, (hdetd u tS hu v).2]
    · rw [h2l u hu] at hnone
      cases hs : σ.lookup u with
      | some tS => rw [hs] at hnone; exact absurd hnone (by simp)
      | none =>
        refine ⟨⟨[], []⟩, Or.inr ⟨rfl, hud, by rw [hdeps, ht0], ?_⟩⟩
        intro v
        rw [hdnts v, ht0]
        simp
  -- the no-stale-edges conclusion
  have hstale : ∀ u t, u ≠ uri →
      (validateDocument σ uri deps).lookup u = some t →
      uri ∉ t.dependencies ∧ (uri ∈ t.dependents ↔ u ∈ deps) := by
    intro u t hu ht
    obtain ⟨t0, hc⟩ := hother u t hu ht
    rcases hc with ⟨_, hdeps, hdnts⟩ | ⟨_, hud, hdeps, hdnts⟩
    · constructor
      · intro hmem
        exact ((hdeps uri).mp hmem).2 rfl
      · rw [hdnts uri]
        constructor
        · rintro (⟨_, hne⟩ | ⟨_, hd⟩)
          · exact absurd rfl hne
          · exact hd
        · intro hd
          exact Or.inr ⟨rfl, hd⟩
    · constructor
      · rw [hdeps]; simp
      · rw [hdnts uri]
        exact ⟨fun h => h.2, fun h => ⟨rfl, h⟩⟩
  -- the validated document's own entry
  have hself : ∀ t, (validateDocument σ uri deps).lookup uri = some t →
      (∀ d, d ∈ t.dependencies ↔ d ∈ deps) ∧
      (∀ v, v ∈ t.dependents ↔ (v = uri ∧ uri ∈ deps)) := by
    intro t ht
    rw [hVD] at ht
    rw [h1] at ht
    have hteq : t = tu' := by simpa using ht.symm
    subst hteq
    constructor
    · intro d
      rw [h2 d]
      simp
    · intro v
      rw [h3 v]
      simp
  refine ⟨?_, ?_, hstale, hself⟩
  · -- consistency
    intro a b ta tb hta htb
    by_cases hau : a = uri
    · have hta2 : (validateDocument σ uri deps).lookup uri = some ta :=
        hau ▸ hta
      obtain ⟨hd, hn⟩ := hself ta hta2
      by_cases hbu : b = uri
      · have htb2 : (validateDocument σ uri deps).lookup uri = some tb :=
          hbu ▸ htb
        have hteq : tb = ta := by rw [hta2] at htb2; simpa using htb2.symm
        subst hteq
        rw [hd b, hn a]
        simp [hau, hbu]
      · rw [hd b]
        obtain ⟨_, hb2⟩ := hstale b tb hbu htb
        rw [hau, hb2]
    · by_cases hbu : b = uri
      · subst hbu
        obtain ⟨hb1, _⟩ := hstale a ta hau hta
        obtain ⟨_, hn⟩ := hself tb htb
        rw [hn a]
        constructor
        · intro hmem; exact absurd hmem hb1
        · rintro ⟨he, _⟩; exact absurd he hau
      · -- both differ from the validated uri
        obtain ⟨t0a, hca⟩ := hother a ta hau hta
        obtain ⟨t0b, hcb⟩ := hother b tb hbu htb
        rcases hca with ⟨hsa, hdepsa, hdntsa⟩ | ⟨hna, hina, hdepsa, hdntsa⟩
        · rcases hcb with ⟨hsb, hdepsb, hdntsb⟩ | ⟨hnb, hinb, hdepsb, hdntsb⟩
          · rw [hdepsa b, hdntsb a]
            have horig := hcons a b t0a t0b hsa hsb
            constructor
            · rintro ⟨hmem, _⟩
              exact Or.inl ⟨horig.mp hmem, hau⟩
            · rintro (⟨hmem, _⟩ | ⟨he, _⟩)
              · exact ⟨horig.mpr hmem, hbu⟩
              · exact absurd he hau
          · -- b has no table in σ: a cannot list it (closure)
            rw [hdepsa b, hdntsb a]
            constructor
            · rintro ⟨hmem, _⟩
              obtain ⟨htb2, hb2⟩ := (hclosed a t0a hsa).1 b hmem
              rw [hnb] at hb2
              exact absurd hb2 (by simp)
            · rintro ⟨he, _⟩
              exact absurd he hau
        · rcases hcb with ⟨hsb, hdepsb, hdntsb⟩ | ⟨hnb, hinb, hdepsb, hdntsb⟩
          · rw [hdepsa, hdntsb a]
            constructor
            · intro hmem
              exact absurd hmem (by simp)
            · rintro (⟨hmem, _⟩ | ⟨he, _⟩)
              · obtain ⟨hta2, ha2⟩ := (hclosed b t0b hsb).2 a hmem
                rw [hna] at ha2
                exact absurd ha2 (by simp)
              · exact absurd he hau
          · rw [hdepsa, hdntsb a]
            constructor
            · intro hmem
              exact absurd hmem (by simp)
            · rintro ⟨he, _⟩
              exact absurd he hau
  · -- closure
    intro a ta hta
    by_cases hau : a = uri
    · have hta2 : (validateDocument σ uri deps).lookup uri = some ta :=
        hau ▸ hta
      obtain ⟨hd, hn⟩ := hself ta hta2
      constructor
      · intro b hb
        rw [hd b] at hb
        cases hfin : (validateDocument σ uri deps).lookup b with
        | some x => exact ⟨x, rfl⟩
        | none =>
          rw [hVD] at hfin
          obtain ⟨_, hnb⟩ := h5 b hfin
          exact absurd hb hnb
      · intro b hb
        rw [hn b] at hb
        rw [hb.1]
        exact ⟨ta, hta2⟩
    · obtain ⟨t0, hc⟩ := hother a ta hau hta
      rcases hc with ⟨hsa, hdepsa, hdntsa⟩ | ⟨hna, hina, hdepsa, hdntsa⟩
      · constructor
        · intro b hb
          obtain ⟨hmem, _⟩ := (hdepsa b).mp hb
          obtain ⟨tb0, hb0⟩ := (hclosed a t0 hsa).1 b hmem
          exact hsurv b tb0 hb0
        · intro b hb
          rcases (hdntsa b).mp hb with ⟨hmem, _⟩ | ⟨he, _⟩
          · obtain ⟨tb0, hb0⟩ := (hclosed a t0 hsa).2 b hmem
            exact hsurv b tb0 hb0
          · subst he
            rw [hVD]
            exact ⟨tu', h1⟩
      · constructor
        · intro b hb
          rw [hdepsa] at hb
          exact absurd hb (by simp)
        · intro b hb
          obtain ⟨he, _⟩ := (hdntsa b).mp hb
          subst he
          rw [hVD]
          exact ⟨tu', h1⟩

/-- C8 witness: the theorem applied at the empty coordinator state,
validating document `A` with one resolved dependency `B`. -/
theorem validateDocument_consistent_no_stale_witness :
    Consistent (validateDocument [] "A" ["B"]) ∧
    Closed (validateDocument [] "A" ["B"]) ∧
    (∀ u t, u ≠ "A" → (validateDocument [] "A" ["B"]).lookup u = some t →
      "A" ∉ t.dependencies ∧ ("A" ∈ t.dependents ↔ u ∈ ["B"])) ∧
    (∀ t, (validateDocument [] "A" ["B"]).lookup "A" = some t →
      (∀ d, d ∈ t.dependencies ↔ d ∈ ["B"]) ∧
      (∀ v, v ∈ t.dependents ↔ (v = "A" ∧ "A" ∈ ["B"]))) :=
  validateDocument_consistent_no_stale [] "A" ["B"]
    (by intro a b ta tb ha hb; simp [List.lookup] at ha)
    (by intro a ta ha; simp [List.lookup] at ha)

/-- C10: for every input (empty included) the constructor's appended eof
token keeps every reachable cursor strictly in bounds, `advance` never
moves past the eof token, and therefore `peek` always returns a defined
token — the bracketed read `tokens[current]` is `some`, never the
fallback — and `isAtEnd` is well-defined. -/
theorem parser_cursor_in_bounds :
    ∀ (input : List Token) (s : PState), ReachableState input s →
      s.current < (initTokens input).length ∧
      (initTokens input).get? s.current =
        some (peekD (initTokens input) s) := by
  intro input s hreach
  have hlen : (initTokens input).length = input.length + 1 := by
    simp [initTokens]
  have hlast : (initTokens input).get? input.length = some (eofToken input) := by
    rw [initTokens, List.get?_eq_getElem?]
    rw [List.getElem?_append_right (by omega)]
    simp
  have hbound : s.current < (initTokens input).length := by
    induction hreach with
    | init => simp [initState, hlen]
    | stepAdvance hprev ih =>
      rename_i s0
      unfold advance
      by_cases hend : isAtEnd (initTokens input) s0
      · simp [hend]; exact ih
      · simp [hend]
        have hne : s0.current ≠ input.length := by
          intro he
          have hpk : peekD (initTokens input) s0 = eofToken input := by
            unfold peekD
            rw [he]
            rw [List.get?_eq_getElem?] at hlast
            simp [List.getD_eq_getElem?_getD, hlast]
          unfold isAtEnd at hend
          rw [hpk] at hend
          simp [eofToken] at hend
          cases hin : input.getLast? with
          | none => rw [hin] at hend; simp at hend
          | some t => rw [hin] at hend; simp at hend
        omega
    | stepRun i hprev ih => exact ih
  refine ⟨hbound, ?_⟩
  unfold peekD
  rw [List.get?_eq_getElem?, List.getElem?_eq_getElem (by simpa using hbound)]
  rw [List.getD_eq_getElem?_getD, List.getElem?_eq_getElem (by simpa using hbound)]
  simp

/-- C10 witness: the constructor state of the empty input, and one
advance from it. -/
theorem parser_cursor_in_bounds_witness :
    (initState.current < (initTokens []).length ∧
      (initTokens []).get? initState.current =
        some (peekD (initTokens []) initState)) ∧
    ((advance (initTokens []) initState).current < (initTokens []).length) :=
  ⟨parser_cursor_in_bounds [] initState .init,
   (parser_cursor_in_bounds [] (advance (initTokens []) initState)
      (.stepAdvance .init)).1⟩

namespace Parser

section ParserThms

variable (tks : List Token)

/-- Inversion for `POut.bind` landing in `ok`. -/
theorem POut.bind_ok_inv {α β : Type} {x : POut α} {f : α → PState → POut β}
    {r : β} {sEnd : PState} (h : POut.bind x f = .ok r sEnd) :
    ∃ a s1, x = .ok a s1 ∧ f a s1 = .ok r sEnd := by
  cases x with
  | ok a s1 => exact ⟨a, s1, rfl, h⟩
  | err e s1 => simp [POut.bind] at h
  | crash s1 => simp [POut.bind] at h
  | fuelOut => simp [POut.bind] at h

theorem command_ok_shape {s : PState} {r : NR InstV} {sEnd : PState}
    (h : command tks s = .ok r sEnd) : isInvalidInst r.value = false := by
  unfold command at h
  obtain ⟨a, s1, _, h⟩ := POut.bind_ok_inv h
  cases h
  rfl

theorem unset_ok_shape {s : PState} {r : NR InstV} {sEnd : PState}
    (h : unset tks s = .ok r sEnd) : isInvalidInst r.value = false := by
  unfold unset at h
  obtain ⟨a, s1, _, h⟩ := POut.bind_ok_inv h
  obtain ⟨a2, s2, _, h⟩ := POut.bind_ok_inv h
  cases h
  rfl

theorem unlock_ok_shape {s : PState} {r : NR InstV} {sEnd : PState}
    (h : unlock tks s = .ok r sEnd) : isInvalidInst r.value = false := by
  unfold unlock at h
  obtain ⟨a, s1, _, h⟩ := POut.bind_ok_inv h
  obtain ⟨a2, s2, _, h⟩ := POut.bind_ok_inv h
  cases h
  rfl

theorem lazyGlobal_ok_shape {s : PState} {r : NR InstV} {sEnd : PState}
    (h : lazyGlobal tks s = .ok r sEnd) : isInvalidInst r.value = false := by
  unfold lazyGlobal at h
  obtain ⟨a, s1, _, h⟩ := POut.bind_ok_inv h
  obtain ⟨a2, s2, _, h⟩ := POut.bind_ok_inv h
  obtain ⟨a3, s3, _, h⟩ := POut.bind_ok_inv h
  cases h
  rfl

theorem breakInst_ok_shape {s : PState} {r : NR InstV} {sEnd : PState}
    (h : breakInst tks s = .ok r sEnd) : isInvalidInst r.value = false := by
  unfold breakInst at h
  obtain ⟨a, s1, _, h⟩ := POut.bind_ok_inv h
  cases h
  rfl

theorem list_ok_shape {s : PState} {r : NR InstV} {sEnd : PState}
    (h : list tks s = .ok r sEnd) : isInvalidInst r.value = false := by
  unfold list at h
  split at h
  · split at h
    · obtain ⟨a, s1, _, h⟩ := POut.bind_ok_inv h
      obtain ⟨a2, s2, _, h⟩ := POut.bind_ok_inv h
      cases h
      rfl
    · obtain ⟨a, s1, _, h⟩ := POut.bind_ok_inv h
      cases h
      rfl
  · obtain ⟨a, s1, _, h⟩ := POut.bind_ok_inv h
    cases h
    rfl

theorem onOff_ok_shape {sfx : ExprV} {s : PState} {r : NR InstV}
    {sEnd : PState} (h : onOff tks sfx s = .ok r sEnd) :
    isInvalidInst r.value = false := by
  unfold onOff at h
  obtain ⟨a, s1, _, h⟩ := POut.bind_ok_inv h
  cases h
  rfl

theorem identifierLedInstruction_ok_shape {fuel : Nat} {s : PState}
    {r : NR InstV} {sEnd : PState}
    (h : identifierLedInstruction tks fuel s = .ok r sEnd) :
    isInvalidInst r.value = false := by
  cases fuel with
  | zero => simp [identifierLedInstruction] at h
  | succ f =>
    simp only [identifierLedInstruction] at h
    obtain ⟨a, s1, _, h⟩ := POut.bind_ok_inv h
    split at h
    · obtain ⟨a2, s2, honoff, h⟩ := POut.bind_ok_inv h
      cases h
      have := onOff_ok_shape tks honoff
      simpa using this
    · obtain ⟨a2, s2, _, h⟩ := POut.bind_ok_inv h
      cases h
      rfl

theorem commandExpression_ok_shape {fuel : Nat} {s : PState} {r : NR InstV}
    {sEnd : PState} (h : commandExpression tks fuel s = .ok r sEnd) :
    isInvalidInst r.value = false := by
  cases fuel with
  | zero => simp [commandExpression] at h
  | succ f =>
    simp only [commandExpression] at h
    obtain ⟨a, s1, _, h⟩ := POut.bind_ok_inv h
    obtain ⟨a2, s2, _, h⟩ := POut.bind_ok_inv h
    cases h
    rfl

theorem set_ok_shape {fuel : Nat} {s : PState} {r : NR InstV} {sEnd : PState}
    (h : set tks fuel s = .ok r sEnd) : isInvalidInst r.value = false := by
  cases fuel with
  | zero => simp [set] at h
  | succ f =>
    simp only [set] at h
    obtain ⟨a, s1, _, h⟩ := POut.bind_ok_inv h
    obtain ⟨a2, s2, _, h⟩ := POut.bind_ok_inv h
    obtain ⟨a3, s3, _, h⟩ := POut.bind_ok_inv h
    obtain ⟨a4, s4, _, h⟩ := POut.bind_ok_inv h
    cases h
    rfl

theorem ifInst_ok_shape {fuel : Nat} {s : PState} {r : NR InstV}
    {sEnd : PState} (h : ifInst tks fuel s = .ok r sEnd) :
    isInvalidInst r.value = false := by
  cases fuel with
  | zero => simp [ifInst] at h
  | succ f =>
    simp only [ifInst] at h
    obtain ⟨a, s1, _, h⟩ := POut.bind_ok_inv h
    obtain ⟨a2, s2, _, h⟩ := POut.bind_ok_inv h
    split at h
    · obtain ⟨a3, s3, _, h⟩ := POut.bind_ok_inv h
      cases h
      rfl
    · cases h
      rfl

theorem untilInst_ok_shape {fuel : Nat} {s : PState} {r : NR InstV}
    {sEnd : PState} (h : untilInst tks fuel s = .ok r sEnd) :
    isInvalidInst r.value = false := by
  cases fuel with
  | zero => simp [untilInst] at h
  | succ f =>
    simp only [untilInst] at h
    obtain ⟨a, s1, _, h⟩ := POut.bind_ok_inv h
    obtain ⟨a2, s2, _, h⟩ := POut.bind_ok_inv h
    cases h
    rfl

theorem fromInst_ok_shape {fuel : Nat} {s : PState} {r : NR InstV}
    {sEnd : PState} (h : fromInst tks fuel s = .ok r sEnd) :
    isInvalidInst r.value = false := by
  cases fuel with
  | zero => simp [fromInst] at h
  | succ f =>
    simp only [fromInst] at h
    split at h
    · obtain ⟨a, s1, _, h⟩ := POut.bind_ok_inv h
      obtain ⟨a2, s2, _, h⟩ := POut.bind_ok_inv h
      obtain ⟨a3, s3, _, h⟩ := POut.bind_ok_inv h
      obtain ⟨a4, s4, _, h⟩ := POut.bind_ok_inv h
      split at h
      · obtain ⟨a5, s5, _, h⟩ := POut.bind_ok_inv h
        obtain ⟨a6, s6, _, h⟩ := POut.bind_ok_inv h
        obtain ⟨a7, s7, _, h⟩ := POut.bind_ok_inv h
        cases h
        rfl
      · cases h
    · cases h

theorem whenInst_ok_shape {fuel : Nat} {s : PState} {r : NR InstV}
    {sEnd : PState} (h : whenInst tks fuel s = .ok r sEnd) :
    isInvalidInst r.value = false := by
  cases fuel with
  | zero => simp [whenInst] at h
  | succ f =>
    simp only [whenInst] at h
    obtain ⟨a, s1, _, h⟩ := POut.bind_ok_inv h
    obtain ⟨a2, s2, _, h⟩ := POut.bind_ok_inv h
    obtain ⟨a3, s3, _, h⟩ := POut.bind_ok_inv h
    cases h
    rfl

theorem returnInst_ok_shape {fuel : Nat} {s : PState} {r : NR InstV}
    {sEnd : PState} (h : returnInst tks fuel s = .ok r sEnd) :
    isInvalidInst r.value = false := by
  cases fuel with
  | zero => simp [returnInst] at h
  | succ f =>
    simp only [returnInst] at h
    split at h
    · obtain ⟨a, s1, _, h⟩ := POut.bind_ok_inv h
      obtain ⟨a2, s2, _, h⟩ := POut.bind_ok_inv h
      cases h
      rfl
    · obtain ⟨a, s1, _, h⟩ := POut.bind_ok_inv h
      cases h
      rfl

theorem switchInst_ok_shape {fuel : Nat} {s : PState} {r : NR InstV}
    {sEnd : PState} (h : switchInst tks fuel s = .ok r sEnd) :
    isInvalidInst r.value = false := by
  cases fuel with
  | zero => simp [switchInst] at h
  | succ f =>
    simp only [switchInst] at h
    obtain ⟨a, s1, _, h⟩ := POut.bind_ok_inv h
    obtain ⟨a2, s2, _, h⟩ := POut.bind_ok_inv h
    obtain ⟨a3, s3, _, h⟩ := POut.bind_ok_inv h
    cases h
    rfl

theorem forInst_ok_shape {fuel : Nat} {s : PState} {r : NR InstV}
    {sEnd : PState} (h : forInst tks fuel s = .ok r sEnd) :
    isInvalidInst r.value = false := by
  cases fuel with
  | zero => simp [forInst] at h
  | succ f =>
    simp only [forInst] at h
    obtain ⟨a, s1, _, h⟩ := POut.bind_ok_inv h
    obtain ⟨a2, s2, _, h⟩ := POut.bind_ok_inv h
    obtain ⟨a3, s3, _, h⟩ := POut.bind_ok_inv h
    obtain ⟨a4, s4, _, h⟩ := POut.bind_ok_inv h
    cases h
    rfl

theorem onInst_ok_shape {fuel : Nat} {s : PState} {r : NR InstV}
    {sEnd : PState} (h : onInst tks fuel s = .ok r sEnd) :
    isInvalidInst r.value = false := by
  cases fuel with
  | zero => simp [onInst] at h
  | succ f =>
    simp only [onInst] at h
    obtain ⟨a, s1, _, h⟩ := POut.bind_ok_inv h
    obtain ⟨a2, s2, _, h⟩ := POut.bind_ok_inv h
    cases h
    rfl

theorem toggle_ok_shape {fuel : Nat} {s : PState} {r : NR InstV}
    {sEnd : PState} (h : toggle tks fuel s = .ok r sEnd) :
    isInvalidInst r.value = false := by
  cases fuel with
  | zero => simp [toggle] at h
  | succ f =>
    simp only [toggle] at h
    obtain ⟨a, s1, _, h⟩ := POut.bind_ok_inv h
    obtain ⟨a2, s2, _, h⟩ := POut.bind_ok_inv h
    cases h
    rfl

theorem wait_ok_shape {fuel : Nat} {s : PState} {r : NR InstV}
    {sEnd : PState} (h : wait tks fuel s = .ok r sEnd) :
    isInvalidInst r.value = false := by
  cases fuel with
  | zero => simp [wait] at h
  | succ f =>
    simp only [wait] at h
    obtain ⟨a, s1, _, h⟩ := POut.bind_ok_inv h
    obtain ⟨a2, s2, _, h⟩ := POut.bind_ok_inv h
    cases h
    rfl

theorem log_ok_shape {fuel : Nat} {s : PState} {r : NR InstV}
    {sEnd : PState} (h : log tks fuel s = .ok r sEnd) :
    isInvalidInst r.value = false := by
  cases fuel with
  | zero => simp [log] at h
  | succ f =>
    simp only [log] at h
    obtain ⟨a, s1, _, h⟩ := POut.bind_ok_inv h
    obtain ⟨a2, s2, _, h⟩ := POut.bind_ok_inv h
    obtain ⟨a3, s3, _, h⟩ := POut.bind_ok_inv h
    obtain ⟨a4, s4, _, h⟩ := POut.bind_ok_inv h
    cases h
    rfl

theorem copy_ok_shape {fuel : Nat} {s : PState} {r : NR InstV}
    {sEnd : PState} (h : copy tks fuel s = .ok r sEnd) :
    isInvalidInst r.value = false := by
  cases fuel with
  | zero => simp [copy] at h
  | succ f =>
    simp only [copy] at h
    obtain ⟨a, s1, _, h⟩ := POut.bind_ok_inv h
    obtain ⟨a2, s2, _, h⟩ := POut.bind_ok_inv h
    obtain ⟨a3, s3, _, h⟩ := POut.bind_ok_inv h
    obtain ⟨a4, s4, _, h⟩ := POut.bind_ok_inv h
    cases h
    rfl

theorem rename_ok_shape {fuel : Nat} {s : PState} {r : NR InstV}
    {sEnd : PState} (h : rename tks fuel s = .ok r sEnd) :
    isInvalidInst r.value = false := by
  cases fuel with
  | zero => simp [rename] at h
  | succ f =>
    simp only [rename] at h
    obtain ⟨a, s1, _, h⟩ := POut.bind_ok_inv h
    obtain ⟨a2, s2, _, h⟩ := POut.bind_ok_inv h
    obtain ⟨a3, s3, _, h⟩ := POut.bind_ok_inv h
    obtain ⟨a4, s4, _, h⟩ := POut.bind_ok_inv h
    obtain ⟨a5, s5, _, h⟩ := POut.bind_ok_inv h
    obtain ⟨a6, s6, _, h⟩ := POut.bind_ok_inv h
    cases h
    rfl

theorem delete_ok_shape {fuel : Nat} {s : PState} {r : NR InstV}
    {sEnd : PState} (h : delete tks fuel s = .ok r sEnd) :
    isInvalidInst r.value = false := by
  cases fuel with
  | zero => simp [delete] at h
  | succ f =>
    simp only [delete] at h
    obtain ⟨a, s1, _, h⟩ := POut.bind_ok_inv h
    split at h
    · obtain ⟨a2, s2, _, h⟩ := POut.bind_ok_inv h
      obtain ⟨a3, s3, _, h⟩ := POut.bind_ok_inv h
      cases h
      rfl
    · obtain ⟨a2, s2, _, h⟩ := POut.bind_ok_inv h
      cases h
      rfl

theorem run_ok_shape {fuel : Nat} {s : PState} {r : NR InstV}
    {sEnd : PState} (h : run tks fuel s = .ok r sEnd) :
    isInvalidInst r.value = false := by
  cases fuel with
  | zero => simp [run] at h
  | succ f =>
    simp only [run, addRunInst] at h
    obtain ⟨a, s1, _, h⟩ := POut.bind_ok_inv h
    split at h
    · obtain ⟨a2, s2, _, h⟩ := POut.bind_ok_inv h
      obtain ⟨a3, s3, _, h⟩ := POut.bind_ok_inv h
      split at h
      · obtain ⟨a4, s4, _, h⟩ := POut.bind_ok_inv h
        obtain ⟨a5, s5, _, h⟩ := POut.bind_ok_inv h
        obtain ⟨a6, s6, _, h⟩ := POut.bind_ok_inv h
        cases h
        rfl
      · obtain ⟨a4, s4, _, h⟩ := POut.bind_ok_inv h
        cases h
        rfl
    · split at h
      · obtain ⟨a2, s2, _, h⟩ := POut.bind_ok_inv h
        obtain ⟨a3, s3, _, h⟩ := POut.bind_ok_inv h
        obtain ⟨a4, s4, _, h⟩ := POut.bind_ok_inv h
        cases h
        rfl
      · obtain ⟨a2, s2, _, h⟩ := POut.bind_ok_inv h
        cases h
        rfl

theorem runPath_ok_shape {fuel : Nat} {s : PState} {r : NR InstV}
    {sEnd : PState} (h : runPath tks fuel s = .ok r sEnd) :
    isInvalidInst r.value = false := by
  cases fuel with
  | zero => simp [runPath] at h
  | succ f =>
    simp only [runPath, addRunInst] at h
    obtain ⟨a, s1, _, h⟩ := POut.bind_ok_inv h
    obtain ⟨a2, s2, _, h⟩ := POut.bind_ok_inv h
    split at h
    · obtain ⟨a3, s3, _, h⟩ := POut.bind_ok_inv h
      obtain ⟨a4, s4, _, h⟩ := POut.bind_ok_inv h
      obtain ⟨a5, s5, _, h⟩ := POut.bind_ok_inv h
      cases h
      rfl
    · obtain ⟨a3, s3, _, h⟩ := POut.bind_ok_inv h
      obtain ⟨a4, s4, _, h⟩ := POut.bind_ok_inv h
      cases h
      rfl

theorem runPathOnce_ok_shape {fuel : Nat} {s : PState} {r : NR InstV}
    {sEnd : PState} (h : runPathOnce tks fuel s = .ok r sEnd) :
    isInvalidInst r.value = false := by
  cases fuel with
  | zero => simp [runPathOnce] at h
  | succ f =>
    simp only [runPathOnce, addRunInst] at h
    obtain ⟨a, s1, _, h⟩ := POut.bind_ok_inv h
    obtain ⟨a2, s2, _, h⟩ := POut.bind_ok_inv h
    split at h
    · obtain ⟨a3, s3, _, h⟩ := POut.bind_ok_inv h
      obtain ⟨a4, s4, _, h⟩ := POut.bind_ok_inv h
      obtain ⟨a5, s5, _, h⟩ := POut.bind_ok_inv h
      cases h
      rfl
    · obtain ⟨a3, s3, _, h⟩ := POut.bind_ok_inv h
      obtain ⟨a4, s4, _, h⟩ := POut.bind_ok_inv h
      cases h
      rfl

theorem compile_ok_shape {fuel : Nat} {s : PState} {r : NR InstV}
    {sEnd : PState} (h : compile tks fuel s = .ok r sEnd) :
    isInvalidInst r.value = false := by
  cases fuel with
  | zero => simp [compile] at h
  | succ f =>
    simp only [compile] at h
    obtain ⟨a, s1, _, h⟩ := POut.bind_ok_inv h
    split at h
    · obtain ⟨a2, s2, _, h⟩ := POut.bind_ok_inv h
      obtain ⟨a3, s3, _, h⟩ := POut.bind_ok_inv h
      cases h
      rfl
    · obtain ⟨a2, s2, _, h⟩ := POut.bind_ok_inv h
      cases h
      rfl

theorem print_ok_shape {fuel : Nat} {s : PState} {r : NR InstV}
    {sEnd : PState} (h : print tks fuel s = .ok r sEnd) :
    isInvalidInst r.value = false := by
  cases fuel with
  | zero => simp [print] at h
  | succ f =>
    simp only [print] at h
    obtain ⟨a, s1, _, h⟩ := POut.bind_ok_inv h
    split at h
    · obtain ⟨a2, s2, _, h⟩ := POut.bind_ok_inv h
      obtain ⟨a3, s3, _, h⟩ := POut.bind_ok_inv h
      obtain ⟨a4, s4, _, h⟩ := POut.bind_ok_inv h
      obtain ⟨a5, s5, _, h⟩ := POut.bind_ok_inv h
      obtain ⟨a6, s6, _, h⟩ := POut.bind_ok_inv h
      obtain ⟨a7, s7, _, h⟩ := POut.bind_ok_inv h
      cases h
      rfl
    · obtain ⟨a2, s2, _, h⟩ := POut.bind_ok_inv h
      cases h
      rfl

theorem instructionBlock_ok_shape {fuel : Nat} {s : PState} {r : NR InstV}
    {sEnd : PState} (h : instructionBlock tks fuel s = .ok r sEnd) :
    isInvalidInst r.value = false := by
  cases fuel with
  | zero => simp [instructionBlock] at h
  | succ f =>
    simp only [instructionBlock] at h
    obtain ⟨a, s1, _, h⟩ := POut.bind_ok_inv h
    split at h
    · cases h
      rfl
    · cases h

theorem declareFunction_ok_shape {fuel : Nat} {sc : Option ScopeDecl}
    {s : PState} {r : NR InstV} {sEnd : PState}
    (h : declareFunction tks fuel sc s = .ok r sEnd) :
    isInvalidInst r.value = false := by
  cases fuel with
  | zero => simp [declareFunction] at h
  | succ f =>
    simp only [declareFunction] at h
    obtain ⟨a, s1, _, h⟩ := POut.bind_ok_inv h
    split at h
    · obtain ⟨a2, s2, _, h⟩ := POut.bind_ok_inv h
      cases h
      rfl
    · cases h

theorem declareParameter_ok_shape {fuel : Nat} {sc : Option ScopeDecl}
    {s : PState} {r : NR InstV} {sEnd : PState}
    (h : declareParameter tks fuel sc s = .ok r sEnd) :
    isInvalidInst r.value = false := by
  cases fuel with
  | zero => simp [declareParameter] at h
  | succ f =>
    simp only [declareParameter] at h
    obtain ⟨a, s1, _, h⟩ := POut.bind_ok_inv h
    obtain ⟨a2, s2, _, h⟩ := POut.bind_ok_inv h
    obtain ⟨a3, s3, _, h⟩ := POut.bind_ok_inv h
    cases h
    rfl

theorem declareLock_ok_shape {fuel : Nat} {sc : Option ScopeDecl}
    {s : PState} {r : NR InstV} {sEnd : PState}
    (h : declareLock tks fuel sc s = .ok r sEnd) :
    isInvalidInst r.value = false := by
  cases fuel with
  | zero => simp [declareLock] at h
  | succ f =>
    simp only [declareLock] at h
    obtain ⟨a, s1, _, h⟩ := POut.bind_ok_inv h
    obtain ⟨a2, s2, _, h⟩ := POut.bind_ok_inv h
    obtain ⟨a3, s3, _, h⟩ := POut.bind_ok_inv h
    obtain ⟨a4, s4, _, h⟩ := POut.bind_ok_inv h
    cases h
    rfl

theorem declareVariable_ok_shape {fuel : Nat} {sc : ScopeDecl}
    {s : PState} {r : NR InstV} {sEnd : PState}
    (h : declareVariable tks fuel sc s = .ok r sEnd) :
    isInvalidInst r.value = false := by
  cases fuel with
  | zero => simp [declareVariable] at h
  | succ f =>
    simp only [declareVariable] at h
    obtain ⟨a, s1, _, h⟩ := POut.bind_ok_inv h
    obtain ⟨a2, s2, _, h⟩ := POut.bind_ok_inv h
    obtain ⟨a3, s3, _, h⟩ := POut.bind_ok_inv h
    obtain ⟨a4, s4, _, h⟩ := POut.bind_ok_inv h
    cases h
    rfl

/-- `define` only returns the specific declaration nodes — never an
Invalid node. -/
theorem define_ok_shape {fuel : Nat} {s : PState} {r : NR InstV}
    {sEnd : PState} (h : define tks fuel s = .ok r sEnd) :
    isInvalidInst r.value = false := by
  cases fuel with
  | zero => simp [define] at h
  | succ f =>
    simp only [define] at h
    split at h
    · exact declareFunction_ok_shape tks h
    · split at h
      · exact declareParameter_ok_shape tks h
      · split at h
        · exact declareLock_ok_shape tks h
        · split at h
          · exact declareVariable_ok_shape tks h
          · cases h

/-- `instruction` only returns the specific statement nodes — never an
Invalid node. -/
theorem instruction_ok_shape {fuel : Nat} {s : PState} {r : NR InstV}
    {sEnd : PState} (h : instruction tks fuel s = .ok r sEnd) :
    isInvalidInst r.value = false := by
  cases fuel with
  | zero => simp [instruction] at h
  | succ f =>
    simp only [instruction] at h
    split at h <;>
      first
      | exact instructionBlock_ok_shape tks h
      | exact identifierLedInstruction_ok_shape tks h
      | exact command_ok_shape tks h
      | exact commandExpression_ok_shape tks h
      | exact unset_ok_shape tks h
      | exact unlock_ok_shape tks h
      | exact set_ok_shape tks h
      | exact lazyGlobal_ok_shape tks h
      | exact ifInst_ok_shape tks h
      | exact untilInst_ok_shape tks h
      | exact fromInst_ok_shape tks h
      | exact whenInst_ok_shape tks h
      | exact returnInst_ok_shape tks h
      | exact breakInst_ok_shape tks h
      | exact switchInst_ok_shape tks h
      | exact forInst_ok_shape tks h
      | exact onInst_ok_shape tks h
      | exact toggle_ok_shape tks h
      | exact wait_ok_shape tks h
      | exact log_ok_shape tks h
      | exact copy_ok_shape tks h
      | exact rename_ok_shape tks h
      | exact delete_ok_shape tks h
      | exact run_ok_shape tks h
      | exact runPath_ok_shape tks h
      | exact runPathOnce_ok_shape tks h
      | exact compile_ok_shape tks h
      | exact list_ok_shape tks h
      | exact print_ok_shape tks h
      | (cases h; rfl)
      | cases h

/-- `declaration` either returns the specific statement node of its
dispatch target, or — through the catch — exactly one Invalid node
spanning the tokens from the statement start to the synchronized cursor,
bundling exactly the one caught error. -/
theorem declaration_shape {fuel : Nat} {s : PState} {r : NR InstV}
    {sEnd : PState} (h : declaration tks fuel s = .ok r sEnd) :
    isInvalidInst r.value = false ∨
    (∃ e, r.errors = [e] ∧
      r.value = .invalid (sliceTks tks s.current sEnd.current)) := by
  cases fuel with
  | zero => simp [declaration] at h
  | succ f =>
    simp only [declaration] at h
    split at h
    · rename_i r0 s1 heq
      cases h
      left
      split at heq
      · exact define_ok_shape tks heq
      · exact instruction_ok_shape tks heq
    · rename_i e s1 heq
      split at h
      · cases h
        right
        exact ⟨e, rfl, rfl⟩
      · cases h
      · cases h
      · cases h
    · cases h
    · cases h

/-- The loop of `parse` decomposes into top-level regions. -/
theorem parseLoop_regions :
    ∀ (fuel : Nat) (s : PState) (acc : List InstV)
      (errAcc : List ParseErrorV) (l : List InstV) (e : List ParseErrorV)
      (sEnd : PState),
      parseLoop tks fuel s acc errAcc = .ok (l, e) sEnd →
      ∃ l2 e2, l = acc ++ l2 ∧ e = errAcc ++ e2 ∧ Regions tks s l2 e2 sEnd := by
  intro fuel
  induction fuel with
  | zero => intro s acc errAcc l e sEnd h; simp [parseLoop] at h
  | succ f ih =>
    intro s acc errAcc l e sEnd h
    simp only [parseLoop] at h
    split at h
    · rename_i hend
      cases h
      exact ⟨[], [], by simp, by simp, Regions.done s hend⟩
    · rename_i hend
      obtain ⟨r0, s1, hdecl, h⟩ := POut.bind_ok_inv h
      obtain ⟨l2, e2, hl, he, hreg⟩ := ih s1 (acc ++ [r0.value])
        (errAcc ++ r0.errors) l e sEnd h
      refine ⟨r0.value :: l2, r0.errors ++ e2, ?_, ?_, ?_⟩
      · rw [hl, List.append_assoc]
        rfl
      · rw [he, List.append_assoc]
      · rcases declaration_shape tks hdecl with hok | ⟨e0, herr, hval⟩
        · exact Regions.success s r0 s1 l2 e2 sEnd ⟨f, hdecl⟩ hok hreg
        · exact Regions.failure s r0 s1 l2 e2 sEnd e0
            ⟨f, hdecl⟩ hval herr hreg

/-- Counting helper: a list splits into its satisfying and its failing
members. -/
theorem length_countP_split (L : List InstV) :
    L.length = L.countP (fun st => !(isInvalidInst st)) +
      L.countP (fun st => isInvalidInst st) := by
  induction L with
  | nil => simp
  | cons st rest ih =>
    by_cases hst : isInvalidInst st
    · simp [List.countP_cons, hst, ih]
      omega
    · simp [List.countP_cons, hst, ih]
      omega

/-- C2: a successful parse decomposes the tree's top level into one
statement per region — each failed region replaced by exactly one Invalid
node spanning its skipped tokens with its single bundled error — unless
the parse boundary caught an escaped failure and returned the empty tree;
consequently the top-level count equals the non-failed statements plus
one Invalid node per failed region. -/
theorem parse_one_invalid_per_failed_region :
    ∀ (fuel : Nat) (input : List Token) (r : ParseResultV) (sEnd : PState),
      Parser.parseFromTokens fuel input = POut.ok r sEnd →
      (Regions (initTokens input) initState r.script r.parseErrors sEnd ∨
        r.script = []) ∧
      r.script.length =
        r.script.countP (fun st => !(isInvalidInst st)) +
        r.script.countP (fun st => isInvalidInst st) := by
  intro fuel input r sEnd h
  refine ⟨?_, length_countP_split r.script⟩
  unfold parseFromTokens parse at h
  split at h
  · rename_i p s1 heq
    cases h
    obtain ⟨l2, e2, hl, he, hreg⟩ :=
      parseLoop_regions (initTokens input) fuel initState [] [] p.1 p.2 sEnd heq
    simp at hl he
    left
    show Regions (initTokens input) initState p.1 p.2 sEnd
    rw [hl, he]
    exact hreg
  · cases h
    right
    rfl
  · cases h
    right
    rfl
  · cases h

/-- Witness for C2: parsing the two-token garbage stream `, ,` (neither
comma can start an instruction) returns one Invalid node spanning both
tokens with the single `Unknown instruction found` error, and that result
satisfies the region decomposition. -/
theorem parse_one_invalid_per_failed_region_witness :
    Parser.parseFromTokens 100
        [⟨.comma, ",", ⟨0, 0⟩, ⟨0, 1⟩, "f.ks"⟩,
         ⟨.comma, ",", ⟨0, 0⟩, ⟨0, 1⟩, "f.ks"⟩] =
      POut.ok
        ⟨[InstV.invalid
            [⟨.comma, ",", ⟨0, 0⟩, ⟨0, 1⟩, "f.ks"⟩,
             ⟨.comma, ",", ⟨0, 0⟩, ⟨0, 1⟩, "f.ks"⟩]],
          [ParseErrorV.mk (some ⟨.comma, ",", ⟨0, 0⟩, ⟨0, 1⟩, "f.ks"⟩)
            ⟨none, none⟩ "Unknown instruction found" []], []⟩
        ⟨2, []⟩ ∧
    ((Regions
        (initTokens
          [⟨.comma, ",", ⟨0, 0⟩, ⟨0, 1⟩, "f.ks"⟩,
           ⟨.comma, ",", ⟨0, 0⟩, ⟨0, 1⟩, "f.ks"⟩])
        initState
        (ParseResultV.mk
          [InstV.invalid
            [⟨.comma, ",", ⟨0, 0⟩, ⟨0, 1⟩, "f.ks"⟩,
             ⟨.comma, ",", ⟨0, 0⟩, ⟨0, 1⟩, "f.ks"⟩]]
          [ParseErrorV.mk (some ⟨.comma, ",", ⟨0, 0⟩, ⟨0, 1⟩, "f.ks"⟩)
            ⟨none, none⟩ "Unknown instruction found" []] []).script
        (ParseResultV.mk
          [InstV.invalid
            [⟨.comma, ",", ⟨0, 0⟩, ⟨0, 1⟩, "f.ks"⟩,
             ⟨.comma, ",", ⟨0, 0⟩, ⟨0, 1⟩, "f.ks"⟩]]
          [ParseErrorV.mk (some ⟨.comma, ",", ⟨0, 0⟩, ⟨0, 1⟩, "f.ks"⟩)
            ⟨none, none⟩ "Unknown instruction found" []] []).parseErrors
        ⟨2, []⟩ ∨
      (ParseResultV.mk
        [InstV.invalid
          [⟨.comma, ",", ⟨0, 0⟩, ⟨0, 1⟩, "f.ks"⟩,
           ⟨.comma, ",", ⟨0, 0⟩, ⟨0, 1⟩, "f.ks"⟩]]
        [ParseErrorV.mk (some ⟨.comma, ",", ⟨0, 0⟩, ⟨0, 1⟩, "f.ks"⟩)
          ⟨none, none⟩ "Unknown instruction found" []] []).script = []) ∧
    (ParseResultV.mk
      [InstV.invalid
        [⟨.comma, ",", ⟨0, 0⟩, ⟨0, 1⟩, "f.ks"⟩,
         ⟨.comma, ",", ⟨0, 0⟩, ⟨0, 1⟩, "f.ks"⟩]]
      [ParseErrorV.mk (some ⟨.comma, ",", ⟨0, 0⟩, ⟨0, 1⟩, "f.ks"⟩)
        ⟨none, none⟩ "Unknown instruction found" []] []).script.length =
      (ParseResultV.mk
        [InstV.invalid
          [⟨.comma, ",", ⟨0, 0⟩, ⟨0, 1⟩, "f.ks"⟩,
           ⟨.comma, ",", ⟨0, 0⟩, ⟨0, 1⟩, "f.ks"⟩]]
        [ParseErrorV.mk (some ⟨.comma, ",", ⟨0, 0⟩, ⟨0, 1⟩, "f.ks"⟩)
          ⟨none, none⟩ "Unknown instruction found" []] []).script.countP
          (fun st => !(isInvalidInst st)) +
      (ParseResultV.mk
        [InstV.invalid
          [⟨.comma, ",", ⟨0, 0⟩, ⟨0, 1⟩, "f.ks"⟩,
           ⟨.comma, ",", ⟨0, 0⟩, ⟨0, 1⟩, "f.ks"⟩]]
        [ParseErrorV.mk (some ⟨.comma, ",", ⟨0, 0⟩, ⟨0, 1⟩, "f.ks"⟩)
          ⟨none, none⟩ "Unknown instruction found" []] []).script.countP
          (fun st => isInvalidInst st)) :=
  ⟨rfl,
    parse_one_invalid_per_failed_region 100
      [⟨.comma, ",", ⟨0, 0⟩, ⟨0, 1⟩, "f.ks"⟩,
       ⟨.comma, ",", ⟨0, 0⟩, ⟨0, 1⟩, "f.ks"⟩]
      ⟨[InstV.invalid
          [⟨.comma, ",", ⟨0, 0⟩, ⟨0, 1⟩, "f.ks"⟩,
           ⟨.comma, ",", ⟨0, 0⟩, ⟨0, 1⟩, "f.ks"⟩]],
        [ParseErrorV.mk (some ⟨.comma, ",", ⟨0, 0⟩, ⟨0, 1⟩, "f.ks"⟩)
          ⟨none, none⟩ "Unknown instruction found" []], []⟩
      ⟨2, []⟩ rfl⟩

/-! Fuel-sufficiency infrastructure (C1): cursor facts about the token
primitives, composition lemmas for `StOut`, and the arithmetic of
`needs`. -/

theorem peekD_eof_of_ge {s : PState} (h : tks.length ≤ s.current) :
    (peekD tks s).type = .eof := by
  unfold peekD
  rw [List.getD_eq_default]
  · rfl
  · exact h

theorem lt_length_of_not_atEnd {s : PState}
    (h : isAtEnd tks s = false) : s.current < tks.length := by
  by_contra hge
  push_neg at hge
  have := peekD_eof_of_ge tks hge
  simp [isAtEnd, this] at h

theorem advance_strict {s : PState} (h : isAtEnd tks s = false) :
    (advance tks s).current = s.current + 1 := by
  unfold advance
  simp [h]

theorem advance_bounds {s : PState} (h : s.current ≤ tks.length) :
    s.current ≤ (advance tks s).current ∧
      (advance tks s).current ≤ tks.length := by
  unfold advance
  split
  · exact ⟨Nat.le_refl _, h⟩
  · rename_i hend
    simp only [Bool.not_eq_true] at hend
    have := lt_length_of_not_atEnd tks hend
    exact ⟨Nat.le_succ _, this⟩

theorem check_ne_eof {s : PState} {t : TokenType}
    (h : check tks s t = true) : isAtEnd tks s = false := by
  unfold check at h
  split at h
  · exact absurd h (by simp)
  · rename_i hend
    simp only [Bool.not_eq_true] at hend
    exact hend

theorem check_false_ne {s : PState} {t : TokenType}
    (h : check tks s t = false) (ht : t ≠ .eof) :
    (peekD tks s).type ≠ t := by
  unfold check at h
  split at h
  · rename_i hend
    simp only [isAtEnd, decide_eq_true_eq] at hend
    rw [hend]
    exact fun hc => ht hc.symm
  · simpa using h

theorem matchToken_true {s : PState} {types : List TokenType}
    {s1 : PState} (h : matchToken tks s types = (true, s1)) :
    isAtEnd tks s = false ∧ s1.current = s.current + 1 := by
  unfold matchToken at h
  split at h
  · rename_i hany
    obtain ⟨t, _, hc⟩ := List.any_eq_true.mp hany
    have hend := check_ne_eof tks hc
    cases h
    exact ⟨hend, advance_strict tks hend⟩
  · exact absurd h (by simp)

theorem matchToken_false {s : PState} {types : List TokenType}
    {s1 : PState} (h : matchToken tks s types = (false, s1)) :
    s1 = s ∧ ∀ t ∈ types, check tks s t = false := by
  unfold matchToken at h
  split at h
  · exact absurd h (by simp)
  · rename_i hany
    cases h
    refine ⟨rfl, ?_⟩
    intro t hmem
    by_contra hc
    exact hany (List.any_eq_true.mpr ⟨t, hmem, by simpa using hc⟩)

theorem matchIdentifier_true {s s1 : PState}
    (h : matchIdentifier tks s = (true, s1)) :
    isAtEnd tks s = false ∧ s1.current = s.current + 1 := by
  unfold matchIdentifier at h
  split at h
  · rename_i hid
    unfold identifierCheck at hid
    split at hid
    · exact absurd hid (by simp)
    · rename_i hend
      simp only [Bool.not_eq_true] at hend
      cases h
      exact ⟨hend, advance_strict tks hend⟩
  · exact absurd h (by simp)

theorem matchIdentifier_false {s s1 : PState}
    (h : matchIdentifier tks s = (false, s1)) :
    s1 = s ∧ identifierCheck tks s = false := by
  unfold matchIdentifier at h
  split at h
  · exact absurd h (by simp)
  · rename_i hid
    cases h
    exact ⟨rfl, by simpa using hid⟩

theorem matchToken_snd_bounds {s : PState} {types : List TokenType}
    (h : s.current ≤ tks.length) :
    s.current ≤ (matchToken tks s types).2.current ∧
      (matchToken tks s types).2.current ≤ tks.length := by
  rcases hm : matchToken tks s types with ⟨b, s1⟩
  cases b
  · obtain ⟨hs1, -⟩ := matchToken_false tks hm
    rw [hs1]
    exact ⟨Nat.le_refl _, h⟩
  · obtain ⟨hend, hcur⟩ := matchToken_true tks hm
    have hlt := lt_length_of_not_atEnd tks hend
    dsimp only
    exact ⟨by omega, by omega⟩

theorem isAtEnd_congr {s s' : PState} (h : s.current = s'.current) :
    isAtEnd tks s = isAtEnd tks s' := by
  simp [isAtEnd, peekD, h]

theorem StOut.weaken {α : Type} {o : POut α} {a b a' b' : Nat}
    (h : StOut tks o a b) (ha : a' ≤ a) (hb : b' ≤ b) :
    StOut tks o a' b' := by
  cases o <;> simp only [StOut] at * <;> omega

theorem StOut.err_lower {α : Type} {o : POut α} {a b : Nat}
    {e : ParseErrorV} {s1 : PState} (hst : StOut tks o a b)
    (heq : o = .err e s1) : b ≤ s1.current := by
  rw [heq] at hst
  exact hst.1

theorem StOut.bind_st {α β : Type} {o : POut α} {f : α → PState → POut β}
    {c1 c2 d : Nat} (h1 : StOut tks o c1 c2)
    (h2 : ∀ a s1, o = .ok a s1 → c1 ≤ s1.current →
      s1.current ≤ tks.length → StOut tks (f a s1) d c2) :
    StOut tks (POut.bind o f) d c2 := by
  cases o with
  | ok a s1 => exact h2 a s1 rfl h1.1 h1.2
  | err e s1 => exact h1
  | crash s1 => exact h1
  | fuelOut => exact h1.elim

theorem StOut.ok_st {α : Type} {a : α} {s1 : PState} {c : Nat}
    (h1 : c ≤ s1.current) (h2 : s1.current ≤ tks.length) :
    StOut tks (POut.ok a s1) c c := ⟨h1, h2⟩

theorem consumeTokenThrow_st {msg : String} {failed : Option NodeCtor}
    {types : List TokenType} {s : PState} (h : s.current ≤ tks.length) :
    StOut tks (consumeTokenThrow tks msg failed types s)
      (s.current + 1) s.current := by
  unfold consumeTokenThrow
  rcases hm : matchToken tks s types with ⟨b, s1⟩
  cases b
  · obtain ⟨hs1, _⟩ := matchToken_false tks hm
    subst hs1
    exact ⟨Nat.le_refl _, h⟩
  · obtain ⟨hend, hcur⟩ := matchToken_true tks hm
    have := lt_length_of_not_atEnd tks hend
    exact ⟨by omega, by omega⟩

theorem consumeIdentifierThrow_st {msg : String}
    {failed : Option NodeCtor} {s : PState} (h : s.current ≤ tks.length) :
    StOut tks (consumeIdentifierThrow tks msg failed s)
      (s.current + 1) s.current := by
  unfold consumeIdentifierThrow
  rcases hm : matchIdentifier tks s with ⟨b, s1⟩
  cases b
  · obtain ⟨hs1, _⟩ := matchIdentifier_false tks hm
    subst hs1
    exact ⟨Nat.le_refl _, h⟩
  · obtain ⟨hend, hcur⟩ := matchIdentifier_true tks hm
    have := lt_length_of_not_atEnd tks hend
    exact ⟨by omega, by omega⟩

theorem terminal_st {failed : Option NodeCtor} {s : PState}
    (h : s.current ≤ tks.length) :
    StOut tks (terminal tks failed s) (s.current + 1) s.current :=
  consumeTokenThrow_st tks h

theorem consumeTokenReturn_st {msg : String} {failed : Option NodeCtor}
    {types : List TokenType} {s : PState} (h : s.current ≤ tks.length) :
    s.current ≤ (consumeTokenReturn tks msg failed types s).2.current ∧
      (consumeTokenReturn tks msg failed types s).2.current ≤
        tks.length := by
  unfold consumeTokenReturn
  split
  · rename_i s1 heq
    obtain ⟨hend, hcur⟩ := matchToken_true tks heq
    have := lt_length_of_not_atEnd tks hend
    dsimp only
    exact ⟨by omega, by omega⟩
  · rename_i s1 heq
    obtain ⟨hs1, _⟩ := matchToken_false tks heq
    subst hs1
    dsimp only
    exact ⟨Nat.le_refl _, h⟩

theorem addRunInst_st {inst : InstV} {errors : List ParseErrorV}
    {s : PState} (h : s.current ≤ tks.length) :
    StOut tks (addRunInst inst errors s) s.current s.current :=
  ⟨Nat.le_refl _, h⟩

theorem needs_none {s : PState} {r : Nat} (h : needs tks s r 0) :
    False := by
  simp only [needs] at h
  omega

theorem needs_step_same {s : PState} {r1 r2 n : Nat}
    (h : needs tks s r1 (n + 1)) (hr : r2 < r1) : needs tks s r2 n := by
  simp only [needs] at *
  omega

theorem needs_step_adv {s s1 : PState} {r1 r2 n : Nat}
    (h : needs tks s r1 (n + 1)) (hc : s.current + 1 ≤ s1.current)
    (hE : s1.current ≤ tks.length) (hr : r2 ≤ r1 + 20) :
    needs tks s1 r2 n := by
  simp only [needs] at *
  omega

theorem needs_step_ge {s s1 : PState} {r1 r2 n : Nat}
    (h : needs tks s r1 (n + 1)) (hc : s.current ≤ s1.current)
    (hE : s1.current ≤ tks.length) (hr : r2 < r1) :
    needs tks s1 r2 n := by
  simp only [needs] at *
  have : tks.length - s1.current ≤ tks.length - s.current := by omega
  have h21 : (tks.length - s1.current) * 21 ≤
      (tks.length - s.current) * 21 := Nat.mul_le_mul_right 21 this
  omega

theorem synchronizeLoop_st : ∀ (fuel : Nat) (s : PState),
    s.current ≤ tks.length → tks.length - s.current + 1 ≤ fuel →
    StOut tks (synchronizeLoop tks fuel s) s.current s.current := by
  intro fuel
  induction fuel with
  | zero => intro s h hf; omega
  | succ n ih =>
    intro s h hf
    simp only [synchronizeLoop]
    split
    · exact ⟨Nat.le_refl _, h⟩
    · rename_i hend
      simp only [Bool.not_eq_true] at hend
      have hlt := lt_length_of_not_atEnd tks hend
      split
      · exact ⟨Nat.le_refl _, h⟩
      · split
        · exact ⟨Nat.le_refl _, h⟩
        · split
          · exact ⟨Nat.le_refl _, h⟩
          · have hadv := advance_strict tks hend
            have h2 := ih (advance tks s) (by omega) (by omega)
            exact h2.weaken tks (by omega) (by omega)

theorem synchronize_st {fuel : Nat} {failed : FailedCtor} {s : PState}
    (h : s.current ≤ tks.length)
    (hf : tks.length - s.current + 1 ≤ fuel) :
    StOut tks (synchronize tks fuel failed s) s.current s.current := by
  unfold synchronize
  split
  · have hbs := advance_bounds tks h
    have h2 := synchronizeLoop_st tks fuel (advance tks s) hbs.2
      (by omega)
    exact h2.weaken tks hbs.1 hbs.1
  · exact synchronizeLoop_st tks fuel s h hf

theorem synchronize_none_st {fuel : Nat} {failed : FailedCtor}
    {s : PState} (h : s.current ≤ tks.length)
    (hnone : failed.inst = none) (hend : isAtEnd tks s = false)
    (hf : tks.length - s.current + 1 ≤ fuel) :
    StOut tks (synchronize tks fuel failed s)
      (s.current + 1) (s.current + 1) := by
  unfold synchronize
  rw [hnone]
  have hadv := advance_strict tks hend
  have hlt := lt_length_of_not_atEnd tks hend
  have h2 := synchronizeLoop_st tks fuel (advance tks s)
    (by omega) (by omega)
  exact h2.weaken tks (by omega) (by omega)

theorem atomStart_eq_false {t : TokenType} (h1 : t ≠ .false)
    (h2 : t ≠ .true) (h3 : t ≠ .fileIdentifier) (h4 : t ≠ .string)
    (h5 : t ≠ .integer) (h6 : t ≠ .double) (h7 : t ≠ .identifier)
    (h8 : t ≠ .bracketOpen) : atomStart t = false := by
  cases t <;> first | rfl | simp_all

/-! `StOut` facts for the unfueled statement leaves. -/

theorem command_st {s : PState} (h : s.current ≤ tks.length) :
    StOut tks (command tks s) s.current s.current := by
  unfold command
  refine StOut.bind_st tks
    ((terminal_st tks h).weaken tks (Nat.le_refl _) (Nat.le_refl _)) ?_
  intro a s1 _ hlo hhi
  exact ⟨by omega, hhi⟩

theorem unset_st {s : PState} (h : s.current ≤ tks.length) :
    StOut tks (unset tks s) s.current s.current := by
  unfold unset
  refine StOut.bind_st tks
    ((consumeTokenThrow_st tks h).weaken tks (Nat.le_refl _)
      (Nat.le_refl _)) ?_
  intro a s1 _ hlo hhi
  refine StOut.bind_st tks
    ((terminal_st tks hhi).weaken tks (Nat.le_refl _) (by omega)) ?_
  intro b s2 _ hlo2 hhi2
  exact ⟨by omega, hhi2⟩

theorem unlock_st {s : PState} (h : s.current ≤ tks.length) :
    StOut tks (unlock tks s) s.current s.current := by
  unfold unlock
  refine StOut.bind_st tks
    ((consumeTokenThrow_st tks h).weaken tks (Nat.le_refl _)
      (Nat.le_refl _)) ?_
  intro a s1 _ hlo hhi
  refine StOut.bind_st tks
    ((terminal_st tks hhi).weaken tks (Nat.le_refl _) (by omega)) ?_
  intro b s2 _ hlo2 hhi2
  exact ⟨by omega, hhi2⟩

theorem lazyGlobal_st {s : PState} (h : s.current ≤ tks.length) :
    StOut tks (lazyGlobal tks s) s.current s.current := by
  unfold lazyGlobal
  refine StOut.bind_st tks
    ((consumeTokenThrow_st tks h).weaken tks (Nat.le_refl _)
      (Nat.le_refl _)) ?_
  intro a s1 _ hlo hhi
  refine StOut.bind_st tks
    ((consumeTokenThrow_st tks hhi).weaken tks (Nat.le_refl _)
      (by omega)) ?_
  intro b s2 _ hlo2 hhi2
  refine StOut.bind_st tks
    ((terminal_st tks hhi2).weaken tks (Nat.le_refl _) (by omega)) ?_
  intro c s3 _ hlo3 hhi3
  exact ⟨by omega, hhi3⟩

theorem breakInst_st {s : PState} (h : s.current ≤ tks.length) :
    StOut tks (breakInst tks s) s.current s.current := by
  unfold breakInst
  refine StOut.bind_st tks
    ((terminal_st tks h).weaken tks (Nat.le_refl _) (Nat.le_refl _)) ?_
  intro a s1 _ hlo hhi
  exact ⟨by omega, hhi⟩

theorem onOff_st {sfx : ExprV} {s : PState} (h : s.current ≤ tks.length) :
    StOut tks (onOff tks sfx s) s.current s.current := by
  unfold onOff
  refine StOut.bind_st tks
    ((terminal_st tks h).weaken tks (Nat.le_refl _) (Nat.le_refl _)) ?_
  intro a s1 _ hlo hhi
  exact ⟨by omega, hhi⟩

theorem list_st {s : PState} (h : s.current ≤ tks.length) :
    StOut tks (list tks s) s.current s.current := by
  unfold list
  split
  · rename_i s1 heq
    obtain ⟨hend, hcur⟩ := matchIdentifier_true tks heq
    have hlt := lt_length_of_not_atEnd tks hend
    split
    · rename_i s2 heq2
      obtain ⟨hend2, hcur2⟩ := matchToken_true tks heq2
      have hlt2 := lt_length_of_not_atEnd tks hend2
      refine StOut.bind_st tks
        ((consumeIdentifierThrow_st tks (by omega)).weaken tks
          (Nat.le_refl _) (by omega)) ?_
      intro a s3 _ hlo hhi
      refine StOut.bind_st tks
        ((terminal_st tks hhi).weaken tks (Nat.le_refl _) (by omega)) ?_
      intro b s4 _ hlo2 hhi2
      exact ⟨by omega, hhi2⟩
    · rename_i s2 heq2
      obtain ⟨hs2, -⟩ := matchToken_false tks heq2
      subst hs2
      refine StOut.bind_st tks
        ((terminal_st tks (by omega)).weaken tks (Nat.le_refl _)
          (by omega)) ?_
      intro a s3 _ hlo hhi
      exact ⟨by omega, hhi⟩
  · rename_i s1 heq
    obtain ⟨hs1, -⟩ := matchIdentifier_false tks heq
    subst hs1
    refine StOut.bind_st tks
      ((terminal_st tks h).weaken tks (Nat.le_refl _) (Nat.le_refl _)) ?_
    intro a s2 _ hlo hhi
    exact ⟨by omega, hhi⟩

/-! The induction steps, one per fueled routine, bottom of the
same-cursor call chain first. -/

theorem stepAtom {n : Nat} (ih : FuelOK tks n) :
    ∀ s it, s.current ≤ tks.length → needs tks s 0 (n + 1) →
      StOut tks (atom tks (n + 1) it s) (s.current + 1) s.current := by
  intro s it h hf
  simp only [atom]
  split
  · rename_i s1 heq
    obtain ⟨hend, hcur⟩ := matchToken_true tks heq
    have hlt := lt_length_of_not_atEnd tks hend
    exact ⟨by omega, by omega⟩
  · rename_i s1 heq
    obtain ⟨hs1, -⟩ := matchToken_false tks heq
    subst hs1
    split
    · rename_i hid
      have hpeek : (peekD tks s1).type = .identifier := by
        simpa [isValidIdentifier] using hid
      have hend : isAtEnd tks s1 = false := by
        simp [isAtEnd, hpeek]
      have hadv := advance_strict tks hend
      have hlt := lt_length_of_not_atEnd tks hend
      exact ⟨by omega, by omega⟩
    · split
      · rename_i s2 heq2
        obtain ⟨hend2, hcur2⟩ := matchToken_true tks heq2
        have hlt2 := lt_length_of_not_atEnd tks hend2
        refine StOut.bind_st tks
          ((ih.expressionSt s2 none (by omega)
            (needs_step_adv tks hf (by omega) (by omega)
              (by omega))).weaken tks (Nat.le_refl _) (by omega)) ?_
        intro a s3 _ hlo hhi
        refine StOut.bind_st tks
          ((consumeTokenThrow_st tks hhi).weaken tks (Nat.le_refl _)
            (by omega)) ?_
        intro b s4 _ hlo2 hhi2
        exact ⟨by omega, hhi2⟩
      · rename_i s2 heq2
        obtain ⟨hs2, -⟩ := matchToken_false tks heq2
        subst hs2
        exact ⟨Nat.le_refl _, h⟩

theorem stepAtomErr {n : Nat} (ih : FuelOK tks n) :
    ∀ s it, s.current ≤ tks.length → needs tks s 0 (n + 1) →
      ∀ e s1, atom tks (n + 1) it s = .err e s1 →
        s1.current = s.current → atomStart (peekD tks s).type = false := by
  intro s it h hf e s1 heq hc
  simp only [atom] at heq
  split at heq
  · simp at heq
  · rename_i s1' heqm
    obtain ⟨hs1', hchk6⟩ := matchToken_false tks heqm
    subst hs1'
    split at heq
    · simp at heq
    · rename_i hid
      split at heq
      · rename_i s2 heqb
        obtain ⟨hendb, hcurb⟩ := matchToken_true tks heqb
        have hlt := lt_length_of_not_atEnd tks hendb
        have hexSt := ih.expressionSt s2 none (by omega)
          (needs_step_adv tks hf (by omega) (by omega) (by omega))
        cases hex : expression tks n none s2 with
        | ok a s3 =>
          rw [hex] at heq hexSt
          simp only [POut.bind] at heq
          have hctSt := @consumeTokenThrow_st tks
            "Expect \")\" after expression"
            (some (.exprCtor "Grouping")) [.bracketClose] s3 hexSt.2
          cases hct : consumeTokenThrow tks "Expect \")\" after expression"
              (some (.exprCtor "Grouping")) [.bracketClose] s3 with
          | ok b s4 => rw [hct] at heq; simp [POut.bind] at heq
          | err e2 s4 =>
            rw [hct] at heq hctSt
            simp only [POut.bind] at heq
            cases heq
            have h1 := hexSt.1
            have h2 := hctSt.1
            omega
          | crash s4 => rw [hct] at heq; simp [POut.bind] at heq
          | fuelOut => rw [hct] at hctSt; exact hctSt.elim
        | err e2 s3 =>
          rw [hex] at heq hexSt
          simp only [POut.bind] at heq
          cases heq
          have h1 := hexSt.1
          omega
        | crash s3 => rw [hex] at heq; simp [POut.bind] at heq
        | fuelOut => rw [hex] at hexSt; exact hexSt.elim
      · rename_i s2 heqb
        obtain ⟨hs2, hchkb⟩ := matchToken_false tks heqb
        subst hs2
        apply atomStart_eq_false
        · exact check_false_ne tks (hchk6 _ (by simp)) (by decide)
        · exact check_false_ne tks (hchk6 _ (by simp)) (by decide)
        · exact check_false_ne tks (hchk6 _ (by simp)) (by decide)
        · exact check_false_ne tks (hchk6 _ (by simp)) (by decide)
        · exact check_false_ne tks (hchk6 _ (by simp)) (by decide)
        · exact check_false_ne tks (hchk6 _ (by simp)) (by decide)
        · simpa [isValidIdentifier] using hid
        · exact check_false_ne tks (hchkb _ (by simp)) (by decide)

theorem stepArrayIndex {n : Nat} (ih : FuelOK tks n) :
    ∀ s a it, s.current ≤ tks.length → needs tks s 0 (n + 1) →
      StOut tks (arrayIndex tks (n + 1) a it s) s.current s.current := by
  intro s a it h hf
  simp only [arrayIndex]
  refine StOut.bind_st tks
    ((consumeTokenThrow_st tks h).weaken tks (Nat.le_refl _)
      (Nat.le_refl _)) ?_
  intro b s1 _ hlo hhi
  exact ⟨by omega, hhi⟩

theorem stepSuffixTermLoop {n : Nat} (ih : FuelOK tks n) :
    ∀ s it e, s.current ≤ tks.length → needs tks s 1 (n + 1) →
      StOut tks (suffixTermLoop tks (n + 1) it e s)
        s.current s.current := by
  intro s it e h hf
  simp only [suffixTermLoop]
  split
  · rename_i s1 heq
    obtain ⟨hend, hcur⟩ := matchToken_true tks heq
    have hlt := lt_length_of_not_atEnd tks hend
    refine StOut.bind_st tks
      ((ih.arrayIndexSt s1 e.value it (by omega)
        (needs_step_adv tks hf (by omega) (by omega)
          (by omega))).weaken tks (Nat.le_refl _) (by omega)) ?_
    intro ix s2 _ hlo hhi
    exact (ih.suffixTermLoopSt s2 it _ hhi
      (needs_step_adv tks hf (by omega) hhi (by omega))).weaken tks
        (by omega) (by omega)
  · rename_i s1 heq
    obtain ⟨hs1, -⟩ := matchToken_false tks heq
    subst hs1
    split
    · rename_i s2 heq2
      obtain ⟨hend2, hcur2⟩ := matchToken_true tks heq2
      have hlt2 := lt_length_of_not_atEnd tks hend2
      refine StOut.bind_st tks
        ((ih.arrayBracketSt s2 e.value it (by omega)
          (needs_step_adv tks hf (by omega) (by omega)
            (by omega))).weaken tks (Nat.le_refl _) (by omega)) ?_
      intro br s3 _ hlo hhi
      exact (ih.suffixTermLoopSt s3 it _ hhi
        (needs_step_adv tks hf (by omega) hhi (by omega))).weaken tks
          (by omega) (by omega)
    · rename_i s2 heq2
      obtain ⟨hs2, -⟩ := matchToken_false tks heq2
      subst hs2
      split
      · rename_i s3 heq3
        obtain ⟨hend3, hcur3⟩ := matchToken_true tks heq3
        have hlt3 := lt_length_of_not_atEnd tks hend3
        refine StOut.bind_st tks
          ((ih.functionTrailerSt s3 e.value it (by omega)
            (needs_step_adv tks hf (by omega) (by omega)
              (by omega))).weaken tks (Nat.le_refl _) (by omega)) ?_
        intro tr s4 _ hlo hhi
        exact (ih.suffixTermLoopSt s4 it _ hhi
          (needs_step_adv tks hf (by omega) hhi (by omega))).weaken tks
            (by omega) (by omega)
      · rename_i s3 heq3
        obtain ⟨hs3, -⟩ := matchToken_false tks heq3
        subst hs3
        split
        · rename_i s4 heq4
          obtain ⟨hend4, hcur4⟩ := matchToken_true tks heq4
          have hlt4 := lt_length_of_not_atEnd tks hend4
          exact ⟨by omega, by omega⟩
        · rename_i s4 heq4
          obtain ⟨hs4, -⟩ := matchToken_false tks heq4
          subst hs4
          exact ⟨Nat.le_refl _, h⟩

theorem stepSuffixTerm {n : Nat} (ih : FuelOK tks n) :
    ∀ s it, s.current ≤ tks.length → needs tks s 1 (n + 1) →
      StOut tks (suffixTerm tks (n + 1) it s)
        (s.current + 1) s.current := by
  intro s it h hf
  simp only [suffixTerm]
  refine StOut.bind_st tks
    (ih.atomSt s it h (needs_step_same tks hf (by omega))) ?_
  intro e s1 _ hlo hhi
  exact (ih.suffixTermLoopSt s1 it _ hhi
    (needs_step_adv tks hf hlo hhi (by omega))).weaken tks
      (by omega) (by omega)

theorem stepSuffixTermErr {n : Nat} (ih : FuelOK tks n) :
    ∀ s it, s.current ≤ tks.length → needs tks s 1 (n + 1) →
      ∀ e s1, suffixTerm tks (n + 1) it s = .err e s1 →
        s1.current = s.current →
        atomStart (peekD tks s).type = false := by
  intro s it h hf e s1 heq hc
  simp only [suffixTerm] at heq
  have hatSt := ih.atomSt s it h (needs_step_same tks hf (by omega))
  cases hat : atom tks n it s with
  | ok a s2 =>
    rw [hat] at heq hatSt
    simp only [POut.bind] at heq
    have hloopSt := ih.suffixTermLoopSt s2 it a hatSt.2
      (needs_step_adv tks hf hatSt.1 hatSt.2 (by omega))
    rw [heq] at hloopSt
    have h1 := hatSt.1
    have h2 := hloopSt.1
    omega
  | err e2 s2 =>
    rw [hat] at heq
    simp only [POut.bind] at heq
    cases heq
    exact ih.atomErr s it h (needs_step_same tks hf (by omega))
      _ _ hat hc
  | crash s2 =>
    rw [hat] at heq
    simp [POut.bind] at heq
  | fuelOut =>
    rw [hat] at hatSt
    exact hatSt.elim

theorem stepSuffixLoop {n : Nat} (ih : FuelOK tks n) :
    ∀ s e, s.current ≤ tks.length → needs tks s 1 (n + 1) →
      StOut tks (suffixLoop tks (n + 1) e s) s.current s.current := by
  intro s e h hf
  simp only [suffixLoop]
  split
  · rename_i s1 heq
    obtain ⟨hs1, -⟩ := matchToken_false tks heq
    subst hs1
    exact ⟨Nat.le_refl _, h⟩
  · rename_i s1 heq
    obtain ⟨hend, hcur⟩ := matchToken_true tks heq
    have hlt := lt_length_of_not_atEnd tks hend
    refine StOut.bind_st tks
      ((ih.suffixTrailerSt s1 e.value (by omega)
        (needs_step_adv tks hf (by omega) (by omega)
          (by omega))).weaken tks (Nat.le_refl _) (by omega)) ?_
    intro tr s2 _ hlo hhi
    exact (ih.suffixLoopSt s2 _ hhi
      (needs_step_adv tks hf (by omega) hhi (by omega))).weaken tks
        (by omega) (by omega)

theorem stepSuffixTrailer {n : Nat} (ih : FuelOK tks n) :
    ∀ s e, s.current ≤ tks.length → needs tks s 2 (n + 1) →
      StOut tks (suffixTrailer tks (n + 1) e s) s.current s.current := by
  intro s e h hf
  simp only [suffixTrailer]
  refine StOut.bind_st tks
    ((ih.suffixTermSt s true h
      (needs_step_same tks hf (by omega))).weaken tks (Nat.le_refl _)
        (Nat.le_refl _)) ?_
  intro tr s1 _ hlo hhi
  exact ⟨by omega, hhi⟩

theorem stepSuffix {n : Nat} (ih : FuelOK tks n) :
    ∀ s, s.current ≤ tks.length → needs tks s 2 (n + 1) →
      StOut tks (suffix tks (n + 1) s) (s.current + 1) s.current := by
  intro s h hf
  simp only [suffix]
  refine StOut.bind_st tks
    (ih.suffixTermSt s false h (needs_step_same tks hf (by omega))) ?_
  intro e s1 _ hlo hhi
  exact (ih.suffixLoopSt s1 _ hhi
    (needs_step_adv tks hf hlo hhi (by omega))).weaken tks
      (by omega) (by omega)

theorem stepSuffixErr {n : Nat} (ih : FuelOK tks n) :
    ∀ s, s.current ≤ tks.length → needs tks s 2 (n + 1) →
      ∀ e s1, suffix tks (n + 1) s = .err e s1 →
        s1.current = s.current →
        atomStart (peekD tks s).type = false := by
  intro s h hf e s1 heq hc
  simp only [suffix] at heq
  have htSt := ih.suffixTermSt s false h (needs_step_same tks hf
    (by omega))
  cases hst : suffixTerm tks n false s with
  | ok a s2 =>
    rw [hst] at heq htSt
    simp only [POut.bind] at heq
    have hloopSt := ih.suffixLoopSt s2 a htSt.2
      (needs_step_adv tks hf htSt.1 htSt.2 (by omega))
    rw [heq] at hloopSt
    have h1 := htSt.1
    have h2 := hloopSt.1
    omega
  | err e2 s2 =>
    rw [hst] at heq
    simp only [POut.bind] at heq
    cases heq
    exact ih.suffixTermErr s false h (needs_step_same tks hf (by omega))
      _ _ hst hc
  | crash s2 =>
    rw [hst] at heq
    simp [POut.bind] at heq
  | fuelOut =>
    rw [hst] at htSt
    exact htSt.elim

theorem stepSuffixCatch {n : Nat} (ih : FuelOK tks n) :
    ∀ s i, s.current ≤ tks.length → needs tks s 3 (n + 1) →
      StOut tks (suffixCatch tks (n + 1) i s)
        (s.current + 1) s.current := by
  intro s i h hf
  simp only [suffixCatch]
  have hsufSt := ih.suffixSt s h (needs_step_same tks hf (by omega))
  cases hsuf : suffix tks n s with
  | ok a s1 =>
    rw [hsuf] at hsufSt
    exact hsufSt
  | err e s1 =>
    rw [hsuf] at hsufSt
    exact hsufSt
  | crash s1 =>
    rw [hsuf] at hsufSt
    exact hsufSt
  | fuelOut =>
    rw [hsuf] at hsufSt
    exact hsufSt.elim

theorem stepSuffixCatchErr {n : Nat} (ih : FuelOK tks n) :
    ∀ s i, s.current ≤ tks.length → needs tks s 3 (n + 1) →
      ∀ e s1, suffixCatch tks (n + 1) i s = .err e s1 →
        s1.current = s.current →
        atomStart (peekD tks s).type = false := by
  intro s i h hf e s1 heq hc
  simp only [suffixCatch] at heq
  cases hsuf : suffix tks n s with
  | ok a s2 =>
    rw [hsuf] at heq
    simp at heq
  | err e2 s2 =>
    rw [hsuf] at heq
    cases heq
    exact ih.suffixErr s h (needs_step_same tks hf (by omega))
      _ _ hsuf hc
  | crash s2 =>
    rw [hsuf] at heq
    simp at heq
  | fuelOut =>
    have hsufSt := ih.suffixSt s h (needs_step_same tks hf (by omega))
    rw [hsuf] at hsufSt
    exact hsufSt.elim

theorem stepFactorLoop {n : Nat} (ih : FuelOK tks n) :
    ∀ s e, s.current ≤ tks.length → needs tks s 1 (n + 1) →
      StOut tks (factorLoop tks (n + 1) e s) s.current s.current := by
  intro s e h hf
  simp only [factorLoop]
  split
  · rename_i s1 heq
    obtain ⟨hs1, -⟩ := matchToken_false tks heq
    subst hs1
    exact ⟨Nat.le_refl _, h⟩
  · rename_i s1 heq
    obtain ⟨hend, hcur⟩ := matchToken_true tks heq
    have hlt := lt_length_of_not_atEnd tks hend
    refine StOut.bind_st tks
      ((ih.suffixSt s1 (by omega)
        (needs_step_adv tks hf (by omega) (by omega)
          (by omega))).weaken tks (Nat.le_refl _) (by omega)) ?_
    intro ex s2 _ hlo hhi
    exact (ih.factorLoopSt s2 _ hhi
      (needs_step_adv tks hf (by omega) hhi (by omega))).weaken tks
        (by omega) (by omega)

theorem stepFactor {n : Nat} (ih : FuelOK tks n) :
    ∀ s, s.current ≤ tks.length → needs tks s 3 (n + 1) →
      StOut tks (factor tks (n + 1) s) (s.current + 1) s.current := by
  intro s h hf
  simp only [factor]
  refine StOut.bind_st tks
    (ih.suffixSt s h (needs_step_same tks hf (by omega))) ?_
  intro e s1 _ hlo hhi
  exact (ih.factorLoopSt s1 _ hhi
    (needs_step_adv tks hf hlo hhi (by omega))).weaken tks
      (by omega) (by omega)

theorem stepUnary {n : Nat} (ih : FuelOK tks n) :
    ∀ s, s.current ≤ tks.length → needs tks s 4 (n + 1) →
      StOut tks (unary tks (n + 1) s) (s.current + 1) s.current := by
  intro s h hf
  simp only [unary]
  split
  · rename_i s1 heq
    obtain ⟨hend, hcur⟩ := matchToken_true tks heq
    have hlt := lt_length_of_not_atEnd tks hend
    refine StOut.bind_st tks
      ((ih.unarySt s1 (by omega)
        (needs_step_adv tks hf (by omega) (by omega)
          (by omega))).weaken tks (Nat.le_refl _) (by omega)) ?_
    intro u s2 _ hlo hhi
    exact ⟨by omega, hhi⟩
  · rename_i s1 heq
    obtain ⟨hs1, -⟩ := matchToken_false tks heq
    subst hs1
    exact ih.factorSt s1 h (needs_step_same tks hf (by omega))

theorem stepMultiplicationLoop {n : Nat} (ih : FuelOK tks n) :
    ∀ s e, s.current ≤ tks.length → needs tks s 1 (n + 1) →
      StOut tks (multiplicationLoop tks (n + 1) e s)
        s.current s.current := by
  intro s e h hf
  simp only [multiplicationLoop]
  split
  · rename_i s1 heq
    obtain ⟨hs1, -⟩ := matchToken_false tks heq
    subst hs1
    exact ⟨Nat.le_refl _, h⟩
  · rename_i s1 heq
    obtain ⟨hend, hcur⟩ := matchToken_true tks heq
    have hlt := lt_length_of_not_atEnd tks hend
    refine StOut.bind_st tks
      ((ih.unarySt s1 (by omega)
        (needs_step_adv tks hf (by omega) (by omega)
          (by omega))).weaken tks (Nat.le_refl _) (by omega)) ?_
    intro r s2 _ hlo hhi
    exact (ih.multiplicationLoopSt s2 _ hhi
      (needs_step_adv tks hf (by omega) hhi (by omega))).weaken tks
        (by omega) (by omega)

theorem stepMultiplication {n : Nat} (ih : FuelOK tks n) :
    ∀ s, s.current ≤ tks.length → needs tks s 5 (n + 1) →
      StOut tks (multiplication tks (n + 1) s)
        (s.current + 1) s.current := by
  intro s h hf
  simp only [multiplication]
  refine StOut.bind_st tks
    (ih.unarySt s h (needs_step_same tks hf (by omega))) ?_
  intro e s1 _ hlo hhi
  exact (ih.multiplicationLoopSt s1 _ hhi
    (needs_step_adv tks hf hlo hhi (by omega))).weaken tks
      (by omega) (by omega)

theorem stepAdditionLoop {n : Nat} (ih : FuelOK tks n) :
    ∀ s e, s.current ≤ tks.length → needs tks s 1 (n + 1) →
      StOut tks (additionLoop tks (n + 1) e s) s.current s.current := by
  intro s e h hf
  simp only [additionLoop]
  split
  · rename_i s1 heq
    obtain ⟨hs1, -⟩ := matchToken_false tks heq
    subst hs1
    exact ⟨Nat.le_refl _, h⟩
  · rename_i s1 heq
    obtain ⟨hend, hcur⟩ := matchToken_true tks heq
    have hlt := lt_length_of_not_atEnd tks hend
    refine StOut.bind_st tks
      ((ih.multiplicationSt s1 (by omega)
        (needs_step_adv tks hf (by omega) (by omega)
          (by omega))).weaken tks (Nat.le_refl _) (by omega)) ?_
    intro r s2 _ hlo hhi
    exact (ih.additionLoopSt s2 _ hhi
      (needs_step_adv tks hf (by omega) hhi (by omega))).weaken tks
        (by omega) (by omega)

theorem stepAddition {n : Nat} (ih : FuelOK tks n) :
    ∀ s, s.current ≤ tks.length → needs tks s 6 (n + 1) →
      StOut tks (addition tks (n + 1) s) (s.current + 1) s.current := by
  intro s h hf
  simp only [addition]
  refine StOut.bind_st tks
    (ih.multiplicationSt s h (needs_step_same tks hf (by omega))) ?_
  intro e s1 _ hlo hhi
  exact (ih.additionLoopSt s1 _ hhi
    (needs_step_adv tks hf hlo hhi (by omega))).weaken tks
      (by omega) (by omega)

theorem stepComparisonLoop {n : Nat} (ih : FuelOK tks n) :
    ∀ s e, s.current ≤ tks.length → needs tks s 1 (n + 1) →
      StOut tks (comparisonLoop tks (n + 1) e s) s.current s.current := by
  intro s e h hf
  simp only [comparisonLoop]
  split
  · rename_i s1 heq
    obtain ⟨hs1, -⟩ := matchToken_false tks heq
    subst hs1
    exact ⟨Nat.le_refl _, h⟩
  · rename_i s1 heq
    obtain ⟨hend, hcur⟩ := matchToken_true tks heq
    have hlt := lt_length_of_not_atEnd tks hend
    refine StOut.bind_st tks
      ((ih.additionSt s1 (by omega)
        (needs_step_adv tks hf (by omega) (by omega)
          (by omega))).weaken tks (Nat.le_refl _) (by omega)) ?_
    intro r s2 _ hlo hhi
    exact (ih.comparisonLoopSt s2 _ hhi
      (needs_step_adv tks hf (by omega) hhi (by omega))).weaken tks
        (by omega) (by omega)

theorem stepComparison {n : Nat} (ih : FuelOK tks n) :
    ∀ s, s.current ≤ tks.length → needs tks s 7 (n + 1) →
      StOut tks (comparison tks (n + 1) s) (s.current + 1) s.current := by
  intro s h hf
  simp only [comparison]
  refine StOut.bind_st tks
    (ih.additionSt s h (needs_step_same tks hf (by omega))) ?_
  intro e s1 _ hlo hhi
  exact (ih.comparisonLoopSt s1 _ hhi
    (needs_step_adv tks hf hlo hhi (by omega))).weaken tks
      (by omega) (by omega)

theorem stepEqualityLoop {n : Nat} (ih : FuelOK tks n) :
    ∀ s e, s.current ≤ tks.length → needs tks s 1 (n + 1) →
      StOut tks (equalityLoop tks (n + 1) e s) s.current s.current := by
  intro s e h hf
  simp only [equalityLoop]
  split
  · rename_i s1 heq
    obtain ⟨hs1, -⟩ := matchToken_false tks heq
    subst hs1
    exact ⟨Nat.le_refl _, h⟩
  · rename_i s1 heq
    obtain ⟨hend, hcur⟩ := matchToken_true tks heq
    have hlt := lt_length_of_not_atEnd tks hend
    refine StOut.bind_st tks
      ((ih.comparisonSt s1 (by omega)
        (needs_step_adv tks hf (by omega) (by omega)
          (by omega))).weaken tks (Nat.le_refl _) (by omega)) ?_
    intro r s2 _ hlo hhi
    exact (ih.equalityLoopSt s2 _ hhi
      (needs_step_adv tks hf (by omega) hhi (by omega))).weaken tks
        (by omega) (by omega)

theorem stepEquality {n : Nat} (ih : FuelOK tks n) :
    ∀ s, s.current ≤ tks.length → needs tks s 8 (n + 1) →
      StOut tks (equality tks (n + 1) s) (s.current + 1) s.current := by
  intro s h hf
  simp only [equality]
  refine StOut.bind_st tks
    (ih.comparisonSt s h (needs_step_same tks hf (by omega))) ?_
  intro e s1 _ hlo hhi
  exact (ih.equalityLoopSt s1 _ hhi
    (needs_step_adv tks hf hlo hhi (by omega))).weaken tks
      (by omega) (by omega)

theorem stepAndLoop {n : Nat} (ih : FuelOK tks n) :
    ∀ s e, s.current ≤ tks.length → needs tks s 1 (n + 1) →
      StOut tks (andLoop tks (n + 1) e s) s.current s.current := by
  intro s e h hf
  simp only [andLoop]
  split
  · rename_i s1 heq
    obtain ⟨hs1, -⟩ := matchToken_false tks heq
    subst hs1
    exact ⟨Nat.le_refl _, h⟩
  · rename_i s1 heq
    obtain ⟨hend, hcur⟩ := matchToken_true tks heq
    have hlt := lt_length_of_not_atEnd tks hend
    refine StOut.bind_st tks
      ((ih.equalitySt s1 (by omega)
        (needs_step_adv tks hf (by omega) (by omega)
          (by omega))).weaken tks (Nat.le_refl _) (by omega)) ?_
    intro r s2 _ hlo hhi
    exact (ih.andLoopSt s2 _ hhi
      (needs_step_adv tks hf (by omega) hhi (by omega))).weaken tks
        (by omega) (by omega)

theorem stepAndExpr {n : Nat} (ih : FuelOK tks n) :
    ∀ s, s.current ≤ tks.length → needs tks s 9 (n + 1) →
      StOut tks (andExpr tks (n + 1) s) (s.current + 1) s.current := by
  intro s h hf
  simp only [andExpr]
  refine StOut.bind_st tks
    (ih.equalitySt s h (needs_step_same tks hf (by omega))) ?_
  intro e s1 _ hlo hhi
  exact (ih.andLoopSt s1 _ hhi
    (needs_step_adv tks hf hlo hhi (by omega))).weaken tks
      (by omega) (by omega)

theorem stepOrLoop {n : Nat} (ih : FuelOK tks n) :
    ∀ s e, s.current ≤ tks.length → needs tks s 1 (n + 1) →
      StOut tks (orLoop tks (n + 1) e s) s.current s.current := by
  intro s e h hf
  simp only [orLoop]
  split
  · rename_i s1 heq
    obtain ⟨hs1, -⟩ := matchToken_false tks heq
    subst hs1
    exact ⟨Nat.le_refl _, h⟩
  · rename_i s1 heq
    obtain ⟨hend, hcur⟩ := matchToken_true tks heq
    have hlt := lt_length_of_not_atEnd tks hend
    refine StOut.bind_st tks
      ((ih.andExprSt s1 (by omega)
        (needs_step_adv tks hf (by omega) (by omega)
          (by omega))).weaken tks (Nat.le_refl _) (by omega)) ?_
    intro r s2 _ hlo hhi
    exact (ih.orLoopSt s2 _ hhi
      (needs_step_adv tks hf (by omega) hhi (by omega))).weaken tks
        (by omega) (by omega)

theorem stepOrExpr {n : Nat} (ih : FuelOK tks n) :
    ∀ s, s.current ≤ tks.length → needs tks s 10 (n + 1) →
      StOut tks (orExpr tks (n + 1) s) (s.current + 1) s.current := by
  intro s h hf
  simp only [orExpr]
  refine StOut.bind_st tks
    (ih.andExprSt s h (needs_step_same tks hf (by omega))) ?_
  intro e s1 _ hlo hhi
  exact (ih.orLoopSt s1 _ hhi
    (needs_step_adv tks hf hlo hhi (by omega))).weaken tks
      (by omega) (by omega)

theorem stepExpression {n : Nat} (ih : FuelOK tks n) :
    ∀ s i, s.current ≤ tks.length → needs tks s 11 (n + 1) →
      StOut tks (expression tks (n + 1) i s)
        (s.current + 1) s.current := by
  intro s i h hf
  simp only [expression]
  rcases hm : matchToken tks s [.curlyOpen] with ⟨b, s1⟩
  cases b
  · obtain ⟨hs1, -⟩ := matchToken_false tks hm
    subst hs1
    dsimp only
    have hoSt := ih.orExprSt s1 h (needs_step_same tks hf (by omega))
    cases ho : orExpr tks n s1 with
    | ok a s2 =>
      rw [ho] at hoSt
      exact hoSt
    | err e s2 =>
      rw [ho] at hoSt
      exact ⟨hoSt.1, hoSt.2⟩
    | crash s2 =>
      rw [ho] at hoSt
      exact hoSt
    | fuelOut =>
      rw [ho] at hoSt
      exact hoSt.elim
  · obtain ⟨hend, hcur⟩ := matchToken_true tks hm
    have hlt := lt_length_of_not_atEnd tks hend
    dsimp only
    have haSt := ih.anonymousFunctionSt s1 (by omega)
      (needs_step_adv tks hf (by omega) (by omega) (by omega))
    cases ha : anonymousFunction tks n s1 with
    | ok a s2 =>
      rw [ha] at haSt
      have h1 := haSt.1
      exact ⟨by omega, haSt.2⟩
    | err e s2 =>
      rw [ha] at haSt
      have h1 := haSt.1
      exact ⟨by omega, haSt.2⟩
    | crash s2 =>
      rw [ha] at haSt
      have h1 := haSt.1
      exact ⟨by omega, haSt.2⟩
    | fuelOut =>
      rw [ha] at haSt
      exact haSt.elim

theorem stepArgumentsLoop {n : Nat} (ih : FuelOK tks n) :
    ∀ s, s.current ≤ tks.length → needs tks s 12 (n + 1) →
      StOut tks (argumentsLoop tks (n + 1) s) s.current s.current := by
  intro s h hf
  simp only [argumentsLoop]
  refine StOut.bind_st tks
    ((ih.expressionSt s none h
      (needs_step_same tks hf (by omega))).weaken tks (Nat.le_refl _)
        (Nat.le_refl _)) ?_
  intro arg s1 _ hlo hhi
  split
  · rename_i s2 heq
    obtain ⟨hend, hcur⟩ := matchToken_true tks heq
    have hlt := lt_length_of_not_atEnd tks hend
    refine StOut.bind_st tks
      ((ih.argumentsLoopSt s2 (by omega)
        (needs_step_adv tks hf (by omega) (by omega)
          (by omega))).weaken tks (Nat.le_refl _) (by omega)) ?_
    intro rest s3 _ hlo2 hhi2
    exact ⟨by omega, hhi2⟩
  · rename_i s2 heq
    obtain ⟨hs2, -⟩ := matchToken_false tks heq
    subst hs2
    exact ⟨by omega, hhi⟩

theorem stepArguments {n : Nat} (ih : FuelOK tks n) :
    ∀ s, s.current ≤ tks.length → needs tks s 13 (n + 1) →
      StOut tks (arguments tks (n + 1) s) s.current s.current := by
  intro s h hf
  simp only [arguments]
  split
  · exact ih.argumentsLoopSt s h (needs_step_same tks hf (by omega))
  · exact ⟨Nat.le_refl _, h⟩

theorem stepArrayBracket {n : Nat} (ih : FuelOK tks n) :
    ∀ s a it, s.current ≤ tks.length → needs tks s 12 (n + 1) →
      StOut tks (arrayBracket tks (n + 1) a it s)
        s.current s.current := by
  intro s a it h hf
  simp only [arrayBracket]
  refine StOut.bind_st tks
    ((ih.expressionSt s none h
      (needs_step_same tks hf (by omega))).weaken tks (Nat.le_refl _)
        (Nat.le_refl _)) ?_
  intro ind s1 _ hlo hhi
  refine StOut.bind_st tks
    ((consumeTokenThrow_st tks hhi).weaken tks (Nat.le_refl _)
      (by omega)) ?_
  intro b s2 _ hlo2 hhi2
  exact ⟨by omega, hhi2⟩

theorem stepFunctionTrailer {n : Nat} (ih : FuelOK tks n) :
    ∀ s a it, s.current ≤ tks.length → needs tks s 14 (n + 1) →
      StOut tks (functionTrailer tks (n + 1) a it s)
        s.current s.current := by
  intro s a it h hf
  simp only [functionTrailer]
  refine StOut.bind_st tks
    (ih.argumentsSt s h (needs_step_same tks hf (by omega))) ?_
  intro args s1 _ hlo hhi
  refine StOut.bind_st tks
    ((consumeTokenThrow_st tks hhi).weaken tks (Nat.le_refl _)
      (by omega)) ?_
  intro b s2 _ hlo2 hhi2
  exact ⟨by omega, hhi2⟩

theorem stepCommandExpression {n : Nat} (ih : FuelOK tks n) :
    ∀ s, s.current ≤ tks.length → needs tks s 12 (n + 1) →
      StOut tks (commandExpression tks (n + 1) s)
        s.current s.current := by
  intro s h hf
  simp only [commandExpression]
  refine StOut.bind_st tks
    ((ih.expressionSt s _ h
      (needs_step_same tks hf (by omega))).weaken tks (Nat.le_refl _)
        (Nat.le_refl _)) ?_
  intro e s1 _ hlo hhi
  refine StOut.bind_st tks
    ((terminal_st tks hhi).weaken tks (Nat.le_refl _) (by omega)) ?_
  intro t s2 _ hlo2 hhi2
  exact ⟨by omega, hhi2⟩

theorem stepSet {n : Nat} (ih : FuelOK tks n) :
    ∀ s, s.current ≤ tks.length → needs tks s 12 (n + 1) →
      StOut tks (Parser.set tks (n + 1) s) s.current s.current := by
  intro s h hf
  simp only [Parser.set]
  refine StOut.bind_st tks
    ((ih.suffixCatchSt s _ h
      (needs_step_same tks hf (by omega))).weaken tks (Nat.le_refl _)
        (Nat.le_refl _)) ?_
  intro sfx s1 _ hlo hhi
  refine StOut.bind_st tks
    ((consumeTokenThrow_st tks hhi).weaken tks (Nat.le_refl _)
      (by omega)) ?_
  intro toTok s2 _ hlo2 hhi2
  refine StOut.bind_st tks
    ((ih.expressionSt s2 _ hhi2
      (needs_step_adv tks hf (by omega) hhi2 (by omega))).weaken tks
        (Nat.le_refl _) (by omega)) ?_
  intro v s3 _ hlo3 hhi3
  refine StOut.bind_st tks
    ((terminal_st tks hhi3).weaken tks (Nat.le_refl _) (by omega)) ?_
  intro t s4 _ hlo4 hhi4
  exact ⟨by omega, hhi4⟩

theorem stepUntilInst {n : Nat} (ih : FuelOK tks n) :
    ∀ s, s.current ≤ tks.length → needs tks s 12 (n + 1) →
      StOut tks (untilInst tks (n + 1) s) s.current s.current := by
  intro s h hf
  simp only [untilInst]
  refine StOut.bind_st tks
    ((ih.expressionSt s _ h
      (needs_step_same tks hf (by omega))).weaken tks (Nat.le_refl _)
        (Nat.le_refl _)) ?_
  intro cond s1 _ hlo hhi
  refine StOut.bind_st tks
    ((ih.declarationSt s1 hhi
      (needs_step_adv tks hf hlo hhi (by omega))).weaken tks
        (Nat.le_refl _) (by omega)) ?_
  intro inst s2 _ hlo2 hhi2
  rcases hm : matchToken tks s2 [.period] with ⟨b3, s3⟩
  have hb := @matchToken_snd_bounds tks s2 [.period] hhi2
  rw [hm] at hb
  dsimp only at hb
  obtain ⟨hb1, hb2⟩ := hb
  dsimp only
  exact ⟨by omega, hb2⟩

theorem stepWhenInst {n : Nat} (ih : FuelOK tks n) :
    ∀ s, s.current ≤ tks.length → needs tks s 12 (n + 1) →
      StOut tks (whenInst tks (n + 1) s) s.current s.current := by
  intro s h hf
  simp only [whenInst]
  refine StOut.bind_st tks
    ((ih.expressionSt s _ h
      (needs_step_same tks hf (by omega))).weaken tks (Nat.le_refl _)
        (Nat.le_refl _)) ?_
  intro cond s1 _ hlo hhi
  refine StOut.bind_st tks
    ((consumeTokenThrow_st tks hhi).weaken tks (Nat.le_refl _)
      (by omega)) ?_
  intro thenTok s2 _ hlo2 hhi2
  refine StOut.bind_st tks
    ((ih.declarationSt s2 hhi2
      (needs_step_adv tks hf (by omega) hhi2 (by omega))).weaken tks
        (Nat.le_refl _) (by omega)) ?_
  intro inst s3 _ hlo3 hhi3
  rcases hm : matchToken tks s3 [.period] with ⟨b4, s4⟩
  have hb := @matchToken_snd_bounds tks s3 [.period] hhi3
  rw [hm] at hb
  dsimp only at hb
  obtain ⟨hb1, hb2⟩ := hb
  dsimp only
  exact ⟨by omega, hb2⟩

theorem stepReturnInst {n : Nat} (ih : FuelOK tks n) :
    ∀ s, s.current ≤ tks.length → needs tks s 12 (n + 1) →
      StOut tks (returnInst tks (n + 1) s) s.current s.current := by
  intro s h hf
  simp only [returnInst]
  split
  · refine StOut.bind_st tks
      ((ih.expressionSt s _ h
        (needs_step_same tks hf (by omega))).weaken tks (Nat.le_refl _)
          (Nat.le_refl _)) ?_
    intro v s1 _ hlo hhi
    refine StOut.bind_st tks
      ((terminal_st tks hhi).weaken tks (Nat.le_refl _) (by omega)) ?_
    intro t s2 _ hlo2 hhi2
    exact ⟨by omega, hhi2⟩
  · refine StOut.bind_st tks
      ((terminal_st tks h).weaken tks (Nat.le_refl _)
        (Nat.le_refl _)) ?_
    intro t s1 _ hlo hhi
    exact ⟨by omega, hhi⟩

theorem stepSwitchInst {n : Nat} (ih : FuelOK tks n) :
    ∀ s, s.current ≤ tks.length → needs tks s 12 (n + 1) →
      StOut tks (switchInst tks (n + 1) s) s.current s.current := by
  intro s h hf
  simp only [switchInst]
  refine StOut.bind_st tks
    ((consumeTokenThrow_st tks h).weaken tks (Nat.le_refl _)
      (Nat.le_refl _)) ?_
  intro toTok s1 _ hlo hhi
  refine StOut.bind_st tks
    ((ih.expressionSt s1 _ hhi
      (needs_step_adv tks hf hlo hhi (by omega))).weaken tks
        (Nat.le_refl _) (by omega)) ?_
  intro v s2 _ hlo2 hhi2
  refine StOut.bind_st tks
    ((terminal_st tks hhi2).weaken tks (Nat.le_refl _) (by omega)) ?_
  intro t s3 _ hlo3 hhi3
  exact ⟨by omega, hhi3⟩

theorem stepOnInst {n : Nat} (ih : FuelOK tks n) :
    ∀ s, s.current ≤ tks.length → needs tks s 12 (n + 1) →
      StOut tks (onInst tks (n + 1) s) s.current s.current := by
  intro s h hf
  simp only [onInst]
  refine StOut.bind_st tks
    ((ih.suffixCatchSt s _ h
      (needs_step_same tks hf (by omega))).weaken tks (Nat.le_refl _)
        (Nat.le_refl _)) ?_
  intro sfx s1 _ hlo hhi
  refine StOut.bind_st tks
    ((ih.declarationSt s1 hhi
      (needs_step_adv tks hf hlo hhi (by omega))).weaken tks
        (Nat.le_refl _) (by omega)) ?_
  intro inst s2 _ hlo2 hhi2
  exact ⟨by omega, hhi2⟩

theorem stepToggle {n : Nat} (ih : FuelOK tks n) :
    ∀ s, s.current ≤ tks.length → needs tks s 12 (n + 1) →
      StOut tks (toggle tks (n + 1) s) s.current s.current := by
  intro s h hf
  simp only [toggle]
  refine StOut.bind_st tks
    ((ih.suffixCatchSt s _ h
      (needs_step_same tks hf (by omega))).weaken tks (Nat.le_refl _)
        (Nat.le_refl _)) ?_
  intro sfx s1 _ hlo hhi
  refine StOut.bind_st tks
    ((terminal_st tks hhi).weaken tks (Nat.le_refl _) (by omega)) ?_
  intro t s2 _ hlo2 hhi2
  exact ⟨by omega, hhi2⟩

theorem stepWait {n : Nat} (ih : FuelOK tks n) :
    ∀ s, s.current ≤ tks.length → needs tks s 12 (n + 1) →
      StOut tks (wait tks (n + 1) s) s.current s.current := by
  intro s h hf
  simp only [wait]
  rcases hm : matchToken tks s [.until] with ⟨b1, s1⟩
  have hb := @matchToken_snd_bounds tks s [.until] h
  rw [hm] at hb
  dsimp only at hb
  obtain ⟨hb1, hb2⟩ := hb
  dsimp only
  refine StOut.bind_st tks
    ((ih.expressionSt s1 _ hb2
      (needs_step_ge tks hf hb1 hb2 (by omega))).weaken tks
        (Nat.le_refl _) (by omega)) ?_
  intro e s2 _ hlo hhi
  refine StOut.bind_st tks
    ((terminal_st tks hhi).weaken tks (Nat.le_refl _) (by omega)) ?_
  intro t s3 _ hlo2 hhi2
  exact ⟨by omega, hhi2⟩

theorem stepLog {n : Nat} (ih : FuelOK tks n) :
    ∀ s, s.current ≤ tks.length → needs tks s 12 (n + 1) →
      StOut tks (log tks (n + 1) s) s.current s.current := by
  intro s h hf
  simp only [log]
  refine StOut.bind_st tks
    ((ih.expressionSt s _ h
      (needs_step_same tks hf (by omega))).weaken tks (Nat.le_refl _)
        (Nat.le_refl _)) ?_
  intro e s1 _ hlo hhi
  refine StOut.bind_st tks
    ((consumeTokenThrow_st tks hhi).weaken tks (Nat.le_refl _)
      (by omega)) ?_
  intro toTok s2 _ hlo2 hhi2
  refine StOut.bind_st tks
    ((ih.expressionSt s2 _ hhi2
      (needs_step_adv tks hf (by omega) hhi2 (by omega))).weaken tks
        (Nat.le_refl _) (by omega)) ?_
  intro t s3 _ hlo3 hhi3
  refine StOut.bind_st tks
    ((terminal_st tks hhi3).weaken tks (Nat.le_refl _) (by omega)) ?_
  intro t2 s4 _ hlo4 hhi4
  exact ⟨by omega, hhi4⟩

theorem stepCopy {n : Nat} (ih : FuelOK tks n) :
    ∀ s, s.current ≤ tks.length → needs tks s 12 (n + 1) →
      StOut tks (copy tks (n + 1) s) s.current s.current := by
  intro s h hf
  simp only [copy]
  refine StOut.bind_st tks
    ((ih.expressionSt s _ h
      (needs_step_same tks hf (by omega))).weaken tks (Nat.le_refl _)
        (Nat.le_refl _)) ?_
  intro e s1 _ hlo hhi
  refine StOut.bind_st tks
    ((consumeTokenThrow_st tks hhi).weaken tks (Nat.le_refl _)
      (by omega)) ?_
  intro toFrom s2 _ hlo2 hhi2
  refine StOut.bind_st tks
    ((ih.expressionSt s2 _ hhi2
      (needs_step_adv tks hf (by omega) hhi2 (by omega))).weaken tks
        (Nat.le_refl _) (by omega)) ?_
  intro t s3 _ hlo3 hhi3
  refine StOut.bind_st tks
    ((terminal_st tks hhi3).weaken tks (Nat.le_refl _) (by omega)) ?_
  intro t2 s4 _ hlo4 hhi4
  exact ⟨by omega, hhi4⟩

theorem stepRename {n : Nat} (ih : FuelOK tks n) :
    ∀ s, s.current ≤ tks.length → needs tks s 12 (n + 1) →
      StOut tks (Parser.rename tks (n + 1) s) s.current s.current := by
  intro s h hf
  simp only [Parser.rename]
  refine StOut.bind_st tks
    ((consumeTokenThrow_st tks h).weaken tks (Nat.le_refl _)
      (Nat.le_refl _)) ?_
  intro fv s1 _ hlo hhi
  refine StOut.bind_st tks
    ((consumeTokenThrow_st tks hhi).weaken tks (Nat.le_refl _)
      (by omega)) ?_
  intro io s2 _ hlo2 hhi2
  refine StOut.bind_st tks
    ((ih.expressionSt s2 _ hhi2
      (needs_step_adv tks hf (by omega) hhi2 (by omega))).weaken tks
        (Nat.le_refl _) (by omega)) ?_
  intro e s3 _ hlo3 hhi3
  refine StOut.bind_st tks
    ((consumeTokenThrow_st tks hhi3).weaken tks (Nat.le_refl _)
      (by omega)) ?_
  intro toTok s4 _ hlo4 hhi4
  refine StOut.bind_st tks
    ((ih.expressionSt s4 _ hhi4
      (needs_step_adv tks hf (by omega) hhi4 (by omega))).weaken tks
        (Nat.le_refl _) (by omega)) ?_
  intro t s5 _ hlo5 hhi5
  refine StOut.bind_st tks
    ((terminal_st tks hhi5).weaken tks (Nat.le_refl _) (by omega)) ?_
  intro t2 s6 _ hlo6 hhi6
  exact ⟨by omega, hhi6⟩

theorem stepDelete {n : Nat} (ih : FuelOK tks n) :
    ∀ s, s.current ≤ tks.length → needs tks s 12 (n + 1) →
      StOut tks (delete tks (n + 1) s) s.current s.current := by
  intro s h hf
  simp only [delete]
  refine StOut.bind_st tks
    ((ih.expressionSt s _ h
      (needs_step_same tks hf (by omega))).weaken tks (Nat.le_refl _)
        (Nat.le_refl _)) ?_
  intro e s1 _ hlo hhi
  split
  · rename_i s2 heq
    obtain ⟨hend, hcur⟩ := matchToken_true tks heq
    have hlt := lt_length_of_not_atEnd tks hend
    refine StOut.bind_st tks
      ((ih.expressionSt s2 _ (by omega)
        (needs_step_adv tks hf (by omega) (by omega)
          (by omega))).weaken tks (Nat.le_refl _) (by omega)) ?_
    intro t s3 _ hlo2 hhi2
    refine StOut.bind_st tks
      ((terminal_st tks hhi2).weaken tks (Nat.le_refl _) (by omega)) ?_
    intro t2 s4 _ hlo3 hhi3
    exact ⟨by omega, hhi3⟩
  · rename_i s2 heq
    obtain ⟨hs2, -⟩ := matchToken_false tks heq
    subst hs2
    refine StOut.bind_st tks
      ((terminal_st tks hhi).weaken tks (Nat.le_refl _) (by omega)) ?_
    intro t s3 _ hlo2 hhi2
    exact ⟨by omega, hhi2⟩

theorem stepCompile {n : Nat} (ih : FuelOK tks n) :
    ∀ s, s.current ≤ tks.length → needs tks s 12 (n + 1) →
      StOut tks (compile tks (n + 1) s) s.current s.current := by
  intro s h hf
  simp only [compile]
  refine StOut.bind_st tks
    ((ih.expressionSt s _ h
      (needs_step_same tks hf (by omega))).weaken tks (Nat.le_refl _)
        (Nat.le_refl _)) ?_
  intro e s1 _ hlo hhi
  split
  · rename_i s2 heq
    obtain ⟨hend, hcur⟩ := matchToken_true tks heq
    have hlt := lt_length_of_not_atEnd tks hend
    refine StOut.bind_st tks
      ((ih.expressionSt s2 _ (by omega)
        (needs_step_adv tks hf (by omega) (by omega)
          (by omega))).weaken tks (Nat.le_refl _) (by omega)) ?_
    intro t s3 _ hlo2 hhi2
    refine StOut.bind_st tks
      ((terminal_st tks hhi2).weaken tks (Nat.le_refl _) (by omega)) ?_
    intro t2 s4 _ hlo3 hhi3
    exact ⟨by omega, hhi3⟩
  · rename_i s2 heq
    obtain ⟨hs2, -⟩ := matchToken_false tks heq
    subst hs2
    refine StOut.bind_st tks
      ((terminal_st tks hhi).weaken tks (Nat.le_refl _) (by omega)) ?_
    intro t s3 _ hlo2 hhi2
    exact ⟨by omega, hhi2⟩

theorem stepPrint {n : Nat} (ih : FuelOK tks n) :
    ∀ s, s.current ≤ tks.length → needs tks s 12 (n + 1) →
      StOut tks (print tks (n + 1) s) s.current s.current := by
  intro s h hf
  simp only [print]
  refine StOut.bind_st tks
    ((ih.expressionSt s _ h
      (needs_step_same tks hf (by omega))).weaken tks (Nat.le_refl _)
        (Nat.le_refl _)) ?_
  intro e s1 _ hlo hhi
  split
  · rename_i s2 heq
    obtain ⟨hend, hcur⟩ := matchToken_true tks heq
    have hlt := lt_length_of_not_atEnd tks hend
    refine StOut.bind_st tks
      ((consumeTokenThrow_st tks (by omega : s2.current ≤
        tks.length)).weaken tks (Nat.le_refl _) (by omega)) ?_
    intro b1 s3 _ hlo2 hhi2
    refine StOut.bind_st tks
      ((ih.expressionSt s3 _ hhi2
        (needs_step_adv tks hf (by omega) hhi2 (by omega))).weaken tks
          (Nat.le_refl _) (by omega)) ?_
    intro x s4 _ hlo3 hhi3
    refine StOut.bind_st tks
      ((consumeTokenThrow_st tks hhi3).weaken tks (Nat.le_refl _)
        (by omega)) ?_
    intro b2 s5 _ hlo4 hhi4
    refine StOut.bind_st tks
      ((ih.expressionSt s5 _ hhi4
        (needs_step_adv tks hf (by omega) hhi4 (by omega))).weaken tks
          (Nat.le_refl _) (by omega)) ?_
    intro y s6 _ hlo5 hhi5
    refine StOut.bind_st tks
      ((consumeTokenThrow_st tks hhi5).weaken tks (Nat.le_refl _)
        (by omega)) ?_
    intro b3 s7 _ hlo6 hhi6
    refine StOut.bind_st tks
      ((terminal_st tks hhi6).weaken tks (Nat.le_refl _) (by omega)) ?_
    intro t s8 _ hlo7 hhi7
    exact ⟨by omega, hhi7⟩
  · rename_i s2 heq
    obtain ⟨hs2, -⟩ := matchToken_false tks heq
    subst hs2
    refine StOut.bind_st tks
      ((terminal_st tks hhi).weaken tks (Nat.le_refl _) (by omega)) ?_
    intro t s3 _ hlo2 hhi2
    exact ⟨by omega, hhi2⟩

theorem stepIfInst {n : Nat} (ih : FuelOK tks n) :
    ∀ s, s.current ≤ tks.length → needs tks s 12 (n + 1) →
      StOut tks (ifInst tks (n + 1) s) s.current s.current := by
  intro s h hf
  simp only [ifInst]
  refine StOut.bind_st tks
    ((ih.expressionSt s _ h
      (needs_step_same tks hf (by omega))).weaken tks (Nat.le_refl _)
        (Nat.le_refl _)) ?_
  intro cond s1 _ hlo hhi
  refine StOut.bind_st tks
    ((ih.declarationSt s1 hhi
      (needs_step_adv tks hf hlo hhi (by omega))).weaken tks
        (Nat.le_refl _) (by omega)) ?_
  intro inst s2 _ hlo2 hhi2
  rcases hm3 : matchToken tks s2 [.period] with ⟨b3, s3⟩
  have hb3 := @matchToken_snd_bounds tks s2 [.period] hhi2
  rw [hm3] at hb3
  dsimp only at hb3
  obtain ⟨h31, h32⟩ := hb3
  dsimp only
  split
  · rename_i s4 heq4
    obtain ⟨hend4, hcur4⟩ := matchToken_true tks heq4
    have hlt4 := lt_length_of_not_atEnd tks hend4
    refine StOut.bind_st tks
      ((ih.declarationSt s4 (by omega)
        (needs_step_adv tks hf (by omega) (by omega)
          (by omega))).weaken tks (Nat.le_refl _) (by omega)) ?_
    intro elseR s5 _ hlo5 hhi5
    rcases hm6 : matchToken tks s5 [.period] with ⟨b6, s6⟩
    have hb6 := @matchToken_snd_bounds tks s5 [.period] hhi5
    rw [hm6] at hb6
    dsimp only at hb6
    obtain ⟨h61, h62⟩ := hb6
    dsimp only
    exact ⟨by omega, h62⟩
  · rename_i s4 heq4
    obtain ⟨hs4, -⟩ := matchToken_false tks heq4
    have hc4 : s4.current = s3.current := by rw [hs4]
    exact ⟨by omega, by omega⟩

theorem stepForInst {n : Nat} (ih : FuelOK tks n) :
    ∀ s, s.current ≤ tks.length → needs tks s 12 (n + 1) →
      StOut tks (forInst tks (n + 1) s) s.current s.current := by
  intro s h hf
  simp only [forInst]
  refine StOut.bind_st tks
    ((consumeIdentifierThrow_st tks h).weaken tks (Nat.le_refl _)
      (Nat.le_refl _)) ?_
  intro idf s1 _ hlo hhi
  refine StOut.bind_st tks
    ((consumeTokenThrow_st tks hhi).weaken tks (Nat.le_refl _)
      (by omega)) ?_
  intro inTok s2 _ hlo2 hhi2
  refine StOut.bind_st tks
    ((ih.suffixCatchSt s2 _ hhi2
      (needs_step_adv tks hf (by omega) hhi2 (by omega))).weaken tks
        (Nat.le_refl _) (by omega)) ?_
  intro sfx s3 _ hlo3 hhi3
  refine StOut.bind_st tks
    ((ih.declarationSt s3 hhi3
      (needs_step_adv tks hf (by omega) hhi3 (by omega))).weaken tks
        (Nat.le_refl _) (by omega)) ?_
  intro inst s4 _ hlo4 hhi4
  rcases hm5 : matchToken tks s4 [.period] with ⟨b5, s5⟩
  have hb5 := @matchToken_snd_bounds tks s4 [.period] hhi4
  rw [hm5] at hb5
  dsimp only at hb5
  obtain ⟨h51, h52⟩ := hb5
  dsimp only
  exact ⟨by omega, h52⟩

theorem stepFromInst {n : Nat} (ih : FuelOK tks n) :
    ∀ s, s.current ≤ tks.length → needs tks s 12 (n + 1) →
      StOut tks (fromInst tks (n + 1) s) s.current s.current := by
  intro s h hf
  simp only [fromInst]
  split
  · rename_i s1 heq
    obtain ⟨hend, hcur⟩ := matchToken_true tks heq
    have hlt := lt_length_of_not_atEnd tks hend
    refine StOut.bind_st tks
      ((ih.instructionBlockSt s1 (by omega)
        (needs_step_adv tks hf (by omega) (by omega)
          (by omega))).weaken tks (Nat.le_refl _) (by omega)) ?_
    intro init s2 _ hlo2 hhi2
    refine StOut.bind_st tks
      ((consumeTokenThrow_st tks hhi2).weaken tks (Nat.le_refl _)
        (by omega)) ?_
    intro untilTok s3 _ hlo3 hhi3
    refine StOut.bind_st tks
      ((ih.expressionSt s3 _ hhi3
        (needs_step_adv tks hf (by omega) hhi3 (by omega))).weaken tks
          (Nat.le_refl _) (by omega)) ?_
    intro cond s4 _ hlo4 hhi4
    refine StOut.bind_st tks
      ((consumeTokenThrow_st tks hhi4).weaken tks (Nat.le_refl _)
        (by omega)) ?_
    intro stepTok s5 _ hlo5 hhi5
    split
    · rename_i s6 heq6
      obtain ⟨hend6, hcur6⟩ := matchToken_true tks heq6
      have hlt6 := lt_length_of_not_atEnd tks hend6
      refine StOut.bind_st tks
        ((ih.instructionBlockSt s6 (by omega)
          (needs_step_adv tks hf (by omega) (by omega)
            (by omega))).weaken tks (Nat.le_refl _) (by omega)) ?_
      intro inc s7 _ hlo7 hhi7
      refine StOut.bind_st tks
        ((consumeTokenThrow_st tks hhi7).weaken tks (Nat.le_refl _)
          (by omega)) ?_
      intro doTok s8 _ hlo8 hhi8
      refine StOut.bind_st tks
        ((ih.declarationSt s8 hhi8
          (needs_step_adv tks hf (by omega) hhi8 (by omega))).weaken tks
            (Nat.le_refl _) (by omega)) ?_
      intro inst s9 _ hlo9 hhi9
      exact ⟨by omega, hhi9⟩
    · rename_i s6 heq6
      obtain ⟨hs6, -⟩ := matchToken_false tks heq6
      have hc6 : s6.current = s5.current := by rw [hs6]
      exact ⟨by omega, by omega⟩
  · rename_i s1 heq
    obtain ⟨hs1, -⟩ := matchToken_false tks heq
    have hc1 : s1.current = s.current := by rw [hs1]
    exact ⟨by omega, by omega⟩

theorem stepRun {n : Nat} (ih : FuelOK tks n) :
    ∀ s, s.current ≤ tks.length → needs tks s 12 (n + 1) →
      StOut tks (run tks (n + 1) s) s.current s.current := by
  intro s h hf
  simp only [run]
  rcases hm1 : matchToken tks s [.once] with ⟨bonce, s1⟩
  have hb1 := @matchToken_snd_bounds tks s [.once] h
  rw [hm1] at hb1
  dsimp only at hb1
  obtain ⟨h11, h12⟩ := hb1
  dsimp only
  refine StOut.bind_st tks
    ((consumeTokenThrow_st tks h12).weaken tks (Nat.le_refl _)
      (by omega)) ?_
  intro idf s2 _ hlo2 hhi2
  rcases hm3 : matchToken tks s2 [.bracketOpen] with ⟨bopen, s3⟩
  have hb3 := @matchToken_snd_bounds tks s2 [.bracketOpen] hhi2
  rw [hm3] at hb3
  dsimp only at hb3
  obtain ⟨h31, h32⟩ := hb3
  dsimp only
  split
  · refine StOut.bind_st tks
      ((ih.argumentsSt s3 h32
        (needs_step_adv tks hf (by omega) h32 (by omega))).weaken tks
          (Nat.le_refl _) (by omega)) ?_
    intro args s4 _ hlo4 hhi4
    refine StOut.bind_st tks
      ((consumeTokenThrow_st tks hhi4).weaken tks (Nat.le_refl _)
        (by omega)) ?_
    intro cl s5 _ hlo5 hhi5
    split
    · rename_i s6 heq6
      obtain ⟨hend6, hcur6⟩ := matchToken_true tks heq6
      have hlt6 := lt_length_of_not_atEnd tks hend6
      refine StOut.bind_st tks
        ((ih.argumentsSt s6 (by omega)
          (needs_step_adv tks hf (by omega) (by omega)
            (by omega))).weaken tks (Nat.le_refl _) (by omega)) ?_
      intro args2 s7 _ hlo7 hhi7
      refine StOut.bind_st tks
        ((ih.expressionSt s7 _ hhi7
          (needs_step_adv tks hf (by omega) hhi7 (by omega))).weaken tks
            (Nat.le_refl _) (by omega)) ?_
      intro e s8 _ hlo8 hhi8
      refine StOut.bind_st tks
        ((terminal_st tks hhi8).weaken tks (Nat.le_refl _)
          (by omega)) ?_
      intro t s9 _ hlo9 hhi9
      exact (addRunInst_st tks hhi9).weaken tks (by omega) (by omega)
    · rename_i s6 heq6
      obtain ⟨hs6, -⟩ := matchToken_false tks heq6
      have hc6 : s6.current = s5.current := by rw [hs6]
      refine StOut.bind_st tks
        ((terminal_st tks (by omega : s6.current ≤ tks.length)).weaken
          tks (Nat.le_refl _) (by omega)) ?_
      intro t s7 _ hlo7 hhi7
      exact (addRunInst_st tks hhi7).weaken tks (by omega) (by omega)
  · split
    · rename_i s6 heq6
      obtain ⟨hend6, hcur6⟩ := matchToken_true tks heq6
      have hlt6 := lt_length_of_not_atEnd tks hend6
      refine StOut.bind_st tks
        ((ih.argumentsSt s6 (by omega)
          (needs_step_adv tks hf (by omega) (by omega)
            (by omega))).weaken tks (Nat.le_refl _) (by omega)) ?_
      intro args2 s7 _ hlo7 hhi7
      refine StOut.bind_st tks
        ((ih.expressionSt s7 _ hhi7
          (needs_step_adv tks hf (by omega) hhi7 (by omega))).weaken tks
            (Nat.le_refl _) (by omega)) ?_
      intro e s8 _ hlo8 hhi8
      refine StOut.bind_st tks
        ((terminal_st tks hhi8).weaken tks (Nat.le_refl _)
          (by omega)) ?_
      intro t s9 _ hlo9 hhi9
      exact (addRunInst_st tks hhi9).weaken tks (by omega) (by omega)
    · rename_i s6 heq6
      obtain ⟨hs6, -⟩ := matchToken_false tks heq6
      have hc6 : s6.current = s3.current := by rw [hs6]
      refine StOut.bind_st tks
        ((terminal_st tks (by omega : s6.current ≤ tks.length)).weaken
          tks (Nat.le_refl _) (by omega)) ?_
      intro t s7 _ hlo7 hhi7
      exact (addRunInst_st tks hhi7).weaken tks (by omega) (by omega)

theorem stepRunPath {n : Nat} (ih : FuelOK tks n) :
    ∀ s, s.current ≤ tks.length → needs tks s 12 (n + 1) →
      StOut tks (runPath tks (n + 1) s) s.current s.current := by
  intro s h hf
  simp only [runPath]
  refine StOut.bind_st tks
    ((consumeTokenThrow_st tks h).weaken tks (Nat.le_refl _)
      (Nat.le_refl _)) ?_
  intro opTok s1 _ hlo hhi
  refine StOut.bind_st tks
    ((ih.expressionSt s1 _ hhi
      (needs_step_adv tks hf hlo hhi (by omega))).weaken tks
        (Nat.le_refl _) (by omega)) ?_
  intro e s2 _ hlo2 hhi2
  rcases hm3 : matchToken tks s2 [.comma] with ⟨bcomma, s3⟩
  have hb3 := @matchToken_snd_bounds tks s2 [.comma] hhi2
  rw [hm3] at hb3
  dsimp only at hb3
  obtain ⟨h31, h32⟩ := hb3
  dsimp only
  split
  · refine StOut.bind_st tks
      ((ih.argumentsSt s3 h32
        (needs_step_adv tks hf (by omega) h32 (by omega))).weaken tks
          (Nat.le_refl _) (by omega)) ?_
    intro args s4 _ hlo4 hhi4
    refine StOut.bind_st tks
      ((consumeTokenThrow_st tks hhi4).weaken tks (Nat.le_refl _)
        (by omega)) ?_
    intro cl s5 _ hlo5 hhi5
    refine StOut.bind_st tks
      ((terminal_st tks hhi5).weaken tks (Nat.le_refl _) (by omega)) ?_
    intro t s6 _ hlo6 hhi6
    exact (addRunInst_st tks hhi6).weaken tks (by omega) (by omega)
  · refine StOut.bind_st tks
      ((consumeTokenThrow_st tks h32).weaken tks (Nat.le_refl _)
        (by omega)) ?_
    intro cl s5 _ hlo5 hhi5
    refine StOut.bind_st tks
      ((terminal_st tks hhi5).weaken tks (Nat.le_refl _) (by omega)) ?_
    intro t s6 _ hlo6 hhi6
    exact (addRunInst_st tks hhi6).weaken tks (by omega) (by omega)

theorem stepRunPathOnce {n : Nat} (ih : FuelOK tks n) :
    ∀ s, s.current ≤ tks.length → needs tks s 12 (n + 1) →
      StOut tks (runPathOnce tks (n + 1) s) s.current s.current := by
  intro s h hf
  simp only [runPathOnce]
  refine StOut.bind_st tks
    ((consumeTokenThrow_st tks h).weaken tks (Nat.le_refl _)
      (Nat.le_refl _)) ?_
  intro opTok s1 _ hlo hhi
  refine StOut.bind_st tks
    ((ih.expressionSt s1 _ hhi
      (needs_step_adv tks hf hlo hhi (by omega))).weaken tks
        (Nat.le_refl _) (by omega)) ?_
  intro e s2 _ hlo2 hhi2
  rcases hm3 : matchToken tks s2 [.comma] with ⟨bcomma, s3⟩
  have hb3 := @matchToken_snd_bounds tks s2 [.comma] hhi2
  rw [hm3] at hb3
  dsimp only at hb3
  obtain ⟨h31, h32⟩ := hb3
  dsimp only
  split
  · refine StOut.bind_st tks
      ((ih.argumentsSt s3 h32
        (needs_step_adv tks hf (by omega) h32 (by omega))).weaken tks
          (Nat.le_refl _) (by omega)) ?_
    intro args s4 _ hlo4 hhi4
    refine StOut.bind_st tks
      ((consumeTokenThrow_st tks hhi4).weaken tks (Nat.le_refl _)
        (by omega)) ?_
    intro cl s5 _ hlo5 hhi5
    refine StOut.bind_st tks
      ((terminal_st tks hhi5).weaken tks (Nat.le_refl _) (by omega)) ?_
    intro t s6 _ hlo6 hhi6
    exact (addRunInst_st tks hhi6).weaken tks (by omega) (by omega)
  · refine StOut.bind_st tks
      ((consumeTokenThrow_st tks h32).weaken tks (Nat.le_refl _)
        (by omega)) ?_
    intro cl s5 _ hlo5 hhi5
    refine StOut.bind_st tks
      ((terminal_st tks hhi5).weaken tks (Nat.le_refl _) (by omega)) ?_
    intro t s6 _ hlo6 hhi6
    exact (addRunInst_st tks hhi6).weaken tks (by omega) (by omega)

theorem stepDeclareNormalParameters {n : Nat} (ih : FuelOK tks n) :
    ∀ s, s.current ≤ tks.length → needs tks s 1 (n + 1) →
      StOut tks (declareNormalParameters tks (n + 1) s)
        s.current s.current := by
  intro s h hf
  simp only [declareNormalParameters]
  split
  · exact ⟨Nat.le_refl _, h⟩
  · refine StOut.bind_st tks
      ((consumeIdentifierThrow_st tks h).weaken tks (Nat.le_refl _)
        (Nat.le_refl _)) ?_
    intro idf s1 _ hlo hhi
    split
    · rename_i s2 heq
      obtain ⟨hend, hcur⟩ := matchToken_true tks heq
      have hlt := lt_length_of_not_atEnd tks hend
      refine StOut.bind_st tks
        ((ih.declareNormalParametersSt s2 (by omega)
          (needs_step_adv tks hf (by omega) (by omega)
            (by omega))).weaken tks (Nat.le_refl _) (by omega)) ?_
      intro rest s3 _ hlo2 hhi2
      exact ⟨by omega, hhi2⟩
    · rename_i s2 heq
      obtain ⟨hs2, -⟩ := matchToken_false tks heq
      have hc2 : s2.current = s1.current := by rw [hs2]
      exact ⟨by omega, by omega⟩

theorem stepDeclaredDefaultedParameters {n : Nat} (ih : FuelOK tks n) :
    ∀ s, s.current ≤ tks.length → needs tks s 1 (n + 1) →
      StOut tks (declaredDefaultedParameters tks (n + 1) s)
        s.current s.current := by
  intro s h hf
  simp only [declaredDefaultedParameters]
  split
  · exact ⟨Nat.le_refl _, h⟩
  · refine StOut.bind_st tks
      ((consumeIdentifierThrow_st tks h).weaken tks (Nat.le_refl _)
        (Nat.le_refl _)) ?_
    intro idf s1 _ hlo hhi
    refine StOut.bind_st tks
      ((consumeTokenThrow_st tks hhi).weaken tks (Nat.le_refl _)
        (by omega)) ?_
    intro toIs s2 _ hlo2 hhi2
    refine StOut.bind_st tks
      ((ih.expressionSt s2 _ hhi2
        (needs_step_adv tks hf (by omega) hhi2 (by omega))).weaken tks
          (Nat.le_refl _) (by omega)) ?_
    intro v s3 _ hlo3 hhi3
    split
    · rename_i s4 heq
      obtain ⟨hend, hcur⟩ := matchToken_true tks heq
      have hlt := lt_length_of_not_atEnd tks hend
      refine StOut.bind_st tks
        ((ih.declaredDefaultedParametersSt s4 (by omega)
          (needs_step_adv tks hf (by omega) (by omega)
            (by omega))).weaken tks (Nat.le_refl _) (by omega)) ?_
      intro rest s5 _ hlo4 hhi4
      exact ⟨by omega, hhi4⟩
    · rename_i s4 heq
      obtain ⟨hs4, -⟩ := matchToken_false tks heq
      have hc4 : s4.current = s3.current := by rw [hs4]
      exact ⟨by omega, by omega⟩

theorem stepDeclareFunction {n : Nat} (ih : FuelOK tks n) :
    ∀ s sc, s.current ≤ tks.length → needs tks s 1 (n + 1) →
      StOut tks (declareFunction tks (n + 1) sc s)
        s.current s.current := by
  intro s sc h hf
  simp only [declareFunction]
  refine StOut.bind_st tks
    ((consumeIdentifierThrow_st tks h).weaken tks (Nat.le_refl _)
      (Nat.le_refl _)) ?_
  intro fid s1 _ hlo hhi
  split
  · rename_i s2 heq
    obtain ⟨hend, hcur⟩ := matchToken_true tks heq
    have hlt := lt_length_of_not_atEnd tks hend
    refine StOut.bind_st tks
      ((ih.instructionBlockSt s2 (by omega)
        (needs_step_adv tks hf (by omega) (by omega)
          (by omega))).weaken tks (Nat.le_refl _) (by omega)) ?_
    intro blockR s3 _ hlo2 hhi2
    rcases hm4 : matchToken tks s3 [.period] with ⟨b4, s4⟩
    have hb4 := @matchToken_snd_bounds tks s3 [.period] hhi2
    rw [hm4] at hb4
    dsimp only at hb4
    obtain ⟨h41, h42⟩ := hb4
    dsimp only
    exact ⟨by omega, h42⟩
  · rename_i s2 heq
    obtain ⟨hs2, -⟩ := matchToken_false tks heq
    have hc2 : s2.current = s1.current := by rw [hs2]
    exact ⟨by omega, by omega⟩

theorem stepDeclareParameter {n : Nat} (ih : FuelOK tks n) :
    ∀ s sc, s.current ≤ tks.length → needs tks s 2 (n + 1) →
      StOut tks (declareParameter tks (n + 1) sc s)
        s.current s.current := by
  intro s sc h hf
  simp only [declareParameter]
  refine StOut.bind_st tks
    (ih.declareNormalParametersSt s h
      (needs_step_same tks hf (by omega))) ?_
  intro params s1 _ hlo hhi
  refine StOut.bind_st tks
    ((ih.declaredDefaultedParametersSt s1 hhi
      (needs_step_ge tks hf hlo hhi (by omega))).weaken tks
        (Nat.le_refl _) (by omega)) ?_
  intro defaults s2 _ hlo2 hhi2
  refine StOut.bind_st tks
    ((terminal_st tks hhi2).weaken tks (Nat.le_refl _) (by omega)) ?_
  intro t s3 _ hlo3 hhi3
  exact ⟨by omega, hhi3⟩

theorem stepDeclareLock {n : Nat} (ih : FuelOK tks n) :
    ∀ s sc, s.current ≤ tks.length → needs tks s 1 (n + 1) →
      StOut tks (declareLock tks (n + 1) sc s) s.current s.current := by
  intro s sc h hf
  simp only [declareLock]
  refine StOut.bind_st tks
    ((consumeIdentifierThrow_st tks h).weaken tks (Nat.le_refl _)
      (Nat.le_refl _)) ?_
  intro idf s1 _ hlo hhi
  refine StOut.bind_st tks
    ((consumeTokenThrow_st tks hhi).weaken tks (Nat.le_refl _)
      (by omega)) ?_
  intro toTok s2 _ hlo2 hhi2
  refine StOut.bind_st tks
    ((ih.expressionSt s2 _ hhi2
      (needs_step_adv tks hf (by omega) hhi2 (by omega))).weaken tks
        (Nat.le_refl _) (by omega)) ?_
  intro v s3 _ hlo3 hhi3
  refine StOut.bind_st tks
    ((terminal_st tks hhi3).weaken tks (Nat.le_refl _) (by omega)) ?_
  intro t s4 _ hlo4 hhi4
  exact ⟨by omega, hhi4⟩

theorem stepDeclareVariable {n : Nat} (ih : FuelOK tks n) :
    ∀ s sc, s.current ≤ tks.length → needs tks s 1 (n + 1) →
      StOut tks (declareVariable tks (n + 1) sc s)
        s.current s.current := by
  intro s sc h hf
  simp only [declareVariable]
  refine StOut.bind_st tks
    ((consumeIdentifierThrow_st tks h).weaken tks (Nat.le_refl _)
      (Nat.le_refl _)) ?_
  intro idf s1 _ hlo hhi
  refine StOut.bind_st tks
    ((consumeTokenThrow_st tks hhi).weaken tks (Nat.le_refl _)
      (by omega)) ?_
  intro toIs s2 _ hlo2 hhi2
  refine StOut.bind_st tks
    ((ih.expressionSt s2 _ hhi2
      (needs_step_adv tks hf (by omega) hhi2 (by omega))).weaken tks
        (Nat.le_refl _) (by omega)) ?_
  intro v s3 _ hlo3 hhi3
  refine StOut.bind_st tks
    ((terminal_st tks hhi3).weaken tks (Nat.le_refl _) (by omega)) ?_
  intro t s4 _ hlo4 hhi4
  exact ⟨by omega, hhi4⟩

theorem stepIdentifierLedInstruction {n : Nat} (ih : FuelOK tks n) :
    ∀ s, s.current ≤ tks.length → needs tks s 13 (n + 1) →
      StOut tks (identifierLedInstruction tks (n + 1) s)
        (s.current + 1) s.current := by
  intro s h hf
  simp only [identifierLedInstruction]
  refine StOut.bind_st tks
    (ih.suffixCatchSt s _ h (needs_step_same tks hf (by omega))) ?_
  intro sfx s1 _ hlo hhi
  split
  · rename_i s2 heq
    obtain ⟨hend, hcur⟩ := matchToken_true tks heq
    have hlt := lt_length_of_not_atEnd tks hend
    refine StOut.bind_st tks
      ((onOff_st tks (by omega : s2.current ≤ tks.length)).weaken tks
        (Nat.le_refl _) (by omega)) ?_
    intro oo s3 _ hlo2 hhi2
    exact ⟨by omega, hhi2⟩
  · rename_i s2 heq
    obtain ⟨hs2, -⟩ := matchToken_false tks heq
    have hc2 : s2.current = s1.current := by rw [hs2]
    refine StOut.bind_st tks
      ((terminal_st tks (by omega : s2.current ≤ tks.length)).weaken tks
        (Nat.le_refl _) (by omega)) ?_
    intro t s3 _ hlo2 hhi2
    exact ⟨by omega, hhi2⟩

theorem stepIdentifierLedInstructionErr {n : Nat} (ih : FuelOK tks n) :
    ∀ s, s.current ≤ tks.length → needs tks s 13 (n + 1) →
      ∀ e s1, identifierLedInstruction tks (n + 1) s = .err e s1 →
        s1.current = s.current →
        atomStart (peekD tks s).type = false := by
  intro s h hf e s1 heq hc
  simp only [identifierLedInstruction] at heq
  have hscSt := ih.suffixCatchSt s "Expr" h
    (needs_step_same tks hf (by omega))
  cases hsc : suffixCatch tks n "Expr" s with
  | ok sfx s2 =>
    rw [hsc] at heq hscSt
    simp only [POut.bind] at heq
    split at heq
    · rename_i s3 heq3
      obtain ⟨hend3, hcur3⟩ := matchToken_true tks heq3
      have hooSt := @onOff_st tks sfx.value s3
        (show s3.current ≤ tks.length by
          have := lt_length_of_not_atEnd tks hend3
          omega)
      cases hoo : onOff tks sfx.value s3 with
      | ok oo s4 =>
        rw [hoo] at heq
        simp [POut.bind] at heq
      | err e2 s4 =>
        rw [hoo] at heq hooSt
        simp only [POut.bind] at heq
        cases heq
        have h1 := hscSt.1
        have h2 := hooSt.1
        omega
      | crash s4 =>
        rw [hoo] at heq
        simp [POut.bind] at heq
      | fuelOut =>
        rw [hoo] at hooSt
        exact hooSt.elim
    · rename_i s3 heq3
      obtain ⟨hs3, -⟩ := matchToken_false tks heq3
      have hc3 : s3.current = s2.current := by rw [hs3]
      have htSt := @terminal_st tks (some (.instCtor "Expr")) s3
        (by
          have h1 := hscSt.2
          omega)
      cases hter : terminal tks (some (.instCtor "Expr")) s3 with
      | ok t s4 =>
        rw [hter] at heq
        simp [POut.bind] at heq
      | err e2 s4 =>
        rw [hter] at heq htSt
        simp only [POut.bind] at heq
        cases heq
        have h1 := hscSt.1
        have h2 := htSt.1
        omega
      | crash s4 =>
        rw [hter] at heq
        simp [POut.bind] at heq
      | fuelOut =>
        rw [hter] at htSt
        exact htSt.elim
  | err e2 s2 =>
    rw [hsc] at heq
    simp only [POut.bind] at heq
    cases heq
    exact ih.suffixCatchErr s "Expr" h (needs_step_same tks hf (by omega))
      _ _ hsc hc
  | crash s2 =>
    rw [hsc] at heq
    simp [POut.bind] at heq
  | fuelOut =>
    rw [hsc] at hscSt
    exact hscSt.elim

theorem stepInstruction {n : Nat} (ih : FuelOK tks n) :
    ∀ s, s.current ≤ tks.length → needs tks s 14 (n + 1) →
      StOut tks (instruction tks (n + 1) s)
        (s.current + 1) s.current := by
  intro s h hf
  simp only [instruction]
  split <;>
    first
      | exact ih.identifierLedInstructionSt s h
          (needs_step_same tks hf (by omega))
      | exact ⟨Nat.le_refl _, h⟩
      | (rename_i hpk
         have hend : isAtEnd tks s = false := by simp [isAtEnd, hpk]
         have hadv := advance_strict tks hend
         have hlt := lt_length_of_not_atEnd tks hend
         first
           | exact ⟨by omega, by omega⟩
           | exact (@command_st tks (advance tks s)
               (by omega)).weaken tks (by omega) (by omega)
           | exact (@unset_st tks (advance tks s)
               (by omega)).weaken tks (by omega) (by omega)
           | exact (@unlock_st tks (advance tks s)
               (by omega)).weaken tks (by omega) (by omega)
           | exact (@lazyGlobal_st tks (advance tks s)
               (by omega)).weaken tks (by omega) (by omega)
           | exact (@breakInst_st tks (advance tks s)
               (by omega)).weaken tks (by omega) (by omega)
           | exact (@list_st tks (advance tks s)
               (by omega)).weaken tks (by omega) (by omega)
           | exact (ih.instructionBlockSt (advance tks s) (by omega)
               (needs_step_adv tks hf (by omega) (by omega)
                 (by omega))).weaken tks (by omega) (by omega)
           | exact (ih.commandExpressionSt (advance tks s) (by omega)
               (needs_step_adv tks hf (by omega) (by omega)
                 (by omega))).weaken tks (by omega) (by omega)
           | exact (ih.setSt (advance tks s) (by omega)
               (needs_step_adv tks hf (by omega) (by omega)
                 (by omega))).weaken tks (by omega) (by omega)
           | exact (ih.ifInstSt (advance tks s) (by omega)
               (needs_step_adv tks hf (by omega) (by omega)
                 (by omega))).weaken tks (by omega) (by omega)
           | exact (ih.untilInstSt (advance tks s) (by omega)
               (needs_step_adv tks hf (by omega) (by omega)
                 (by omega))).weaken tks (by omega) (by omega)
           | exact (ih.fromInstSt (advance tks s) (by omega)
               (needs_step_adv tks hf (by omega) (by omega)
                 (by omega))).weaken tks (by omega) (by omega)
           | exact (ih.whenInstSt (advance tks s) (by omega)
               (needs_step_adv tks hf (by omega) (by omega)
                 (by omega))).weaken tks (by omega) (by omega)
           | exact (ih.returnInstSt (advance tks s) (by omega)
               (needs_step_adv tks hf (by omega) (by omega)
                 (by omega))).weaken tks (by omega) (by omega)
           | exact (ih.switchInstSt (advance tks s) (by omega)
               (needs_step_adv tks hf (by omega) (by omega)
                 (by omega))).weaken tks (by omega) (by omega)
           | exact (ih.forInstSt (advance tks s) (by omega)
               (needs_step_adv tks hf (by omega) (by omega)
                 (by omega))).weaken tks (by omega) (by omega)
           | exact (ih.onInstSt (advance tks s) (by omega)
               (needs_step_adv tks hf (by omega) (by omega)
                 (by omega))).weaken tks (by omega) (by omega)
           | exact (ih.toggleSt (advance tks s) (by omega)
               (needs_step_adv tks hf (by omega) (by omega)
                 (by omega))).weaken tks (by omega) (by omega)
           | exact (ih.waitSt (advance tks s) (by omega)
               (needs_step_adv tks hf (by omega) (by omega)
                 (by omega))).weaken tks (by omega) (by omega)
           | exact (ih.logSt (advance tks s) (by omega)
               (needs_step_adv tks hf (by omega) (by omega)
                 (by omega))).weaken tks (by omega) (by omega)
           | exact (ih.copySt (advance tks s) (by omega)
               (needs_step_adv tks hf (by omega) (by omega)
                 (by omega))).weaken tks (by omega) (by omega)
           | exact (ih.renameSt (advance tks s) (by omega)
               (needs_step_adv tks hf (by omega) (by omega)
                 (by omega))).weaken tks (by omega) (by omega)
           | exact (ih.deleteSt (advance tks s) (by omega)
               (needs_step_adv tks hf (by omega) (by omega)
                 (by omega))).weaken tks (by omega) (by omega)
           | exact (ih.runSt (advance tks s) (by omega)
               (needs_step_adv tks hf (by omega) (by omega)
                 (by omega))).weaken tks (by omega) (by omega)
           | exact (ih.runPathSt (advance tks s) (by omega)
               (needs_step_adv tks hf (by omega) (by omega)
                 (by omega))).weaken tks (by omega) (by omega)
           | exact (ih.runPathOnceSt (advance tks s) (by omega)
               (needs_step_adv tks hf (by omega) (by omega)
                 (by omega))).weaken tks (by omega) (by omega)
           | exact (ih.compileSt (advance tks s) (by omega)
               (needs_step_adv tks hf (by omega) (by omega)
                 (by omega))).weaken tks (by omega) (by omega)
           | exact (ih.printSt (advance tks s) (by omega)
               (needs_step_adv tks hf (by omega) (by omega)
                 (by omega))).weaken tks (by omega) (by omega))

theorem stepInstructionErr {n : Nat} (ih : FuelOK tks n) :
    ∀ s, s.current ≤ tks.length → needs tks s 14 (n + 1) →
      ∀ e s1, instruction tks (n + 1) s = .err e s1 →
        s1.current = s.current →
        (ParseErrorV.failed e).inst = none := by
  intro s h hf e s1 heq hc
  simp only [instruction] at heq
  split at heq <;>
    first
      | (cases heq; rfl)
      | (cases heq)
      | (rename_i hpk
         have hx := ih.identifierLedInstructionErr s h
           (needs_step_same tks hf (by omega)) e s1 heq hc
         rw [hpk] at hx
         simp [atomStart] at hx)
      | (rename_i hpk
         have hend : isAtEnd tks s = false := by simp [isAtEnd, hpk]
         have hadv := advance_strict tks hend
         have hlt := lt_length_of_not_atEnd tks hend
         first
           | (have hst := @command_st tks (advance tks s) (by omega)
              rw [heq] at hst
              have h1 := hst.1
              omega)
           | (have hst := @unset_st tks (advance tks s) (by omega)
              rw [heq] at hst
              have h1 := hst.1
              omega)
           | (have hst := @unlock_st tks (advance tks s) (by omega)
              rw [heq] at hst
              have h1 := hst.1
              omega)
           | (have hst := @lazyGlobal_st tks (advance tks s) (by omega)
              rw [heq] at hst
              have h1 := hst.1
              omega)
           | (have hst := @breakInst_st tks (advance tks s) (by omega)
              rw [heq] at hst
              have h1 := hst.1
              omega)
           | (have hst := @list_st tks (advance tks s) (by omega)
              rw [heq] at hst
              have h1 := hst.1
              omega)
           | (have hst := ih.instructionBlockSt (advance tks s)
                (by omega) (needs_step_adv tks hf (by omega) (by omega)
                  (by omega))
              rw [heq] at hst
              have h1 := hst.1
              omega)
           | (have hst := ih.commandExpressionSt (advance tks s)
                (by omega) (needs_step_adv tks hf (by omega) (by omega)
                  (by omega))
              rw [heq] at hst
              have h1 := hst.1
              omega)
           | (have hst := ih.setSt (advance tks s) (by omega)
                (needs_step_adv tks hf (by omega) (by omega) (by omega))
              rw [heq] at hst
              have h1 := hst.1
              omega)
           | (have hst := ih.ifInstSt (advance tks s) (by omega)
                (needs_step_adv tks hf (by omega) (by omega) (by omega))
              rw [heq] at hst
              have h1 := hst.1
              omega)
           | (have hst := ih.untilInstSt (advance tks s) (by omega)
                (needs_step_adv tks hf (by omega) (by omega) (by omega))
              rw [heq] at hst
              have h1 := hst.1
              omega)
           | (have hst := ih.fromInstSt (advance tks s) (by omega)
                (needs_step_adv tks hf (by omega) (by omega) (by omega))
              rw [heq] at hst
              have h1 := hst.1
              omega)
           | (have hst := ih.whenInstSt (advance tks s) (by omega)
                (needs_step_adv tks hf (by omega) (by omega) (by omega))
              rw [heq] at hst
              have h1 := hst.1
              omega)
           | (have hst := ih.returnInstSt (advance tks s) (by omega)
                (needs_step_adv tks hf (by omega) (by omega) (by omega))
              rw [heq] at hst
              have h1 := hst.1
              omega)
           | (have hst := ih.switchInstSt (advance tks s) (by omega)
                (needs_step_adv tks hf (by omega) (by omega) (by omega))
              rw [heq] at hst
              have h1 := hst.1
              omega)
           | (have hst := ih.forInstSt (advance tks s) (by omega)
                (needs_step_adv tks hf (by omega) (by omega) (by omega))
              rw [heq] at hst
              have h1 := hst.1
              omega)
           | (have hst := ih.onInstSt (advance tks s) (by omega)
                (needs_step_adv tks hf (by omega) (by omega) (by omega))
              rw [heq] at hst
              have h1 := hst.1
              omega)
           | (have hst := ih.toggleSt (advance tks s) (by omega)
                (needs_step_adv tks hf (by omega) (by omega) (by omega))
              rw [heq] at hst
              have h1 := hst.1
              omega)
           | (have hst := ih.waitSt (advance tks s) (by omega)
                (needs_step_adv tks hf (by omega) (by omega) (by omega))
              rw [heq] at hst
              have h1 := hst.1
              omega)
           | (have hst := ih.logSt (advance tks s) (by omega)
                (needs_step_adv tks hf (by omega) (by omega) (by omega))
              rw [heq] at hst
              have h1 := hst.1
              omega)
           | (have hst := ih.copySt (advance tks s) (by omega)
                (needs_step_adv tks hf (by omega) (by omega) (by omega))
              rw [heq] at hst
              have h1 := hst.1
              omega)
           | (have hst := ih.renameSt (advance tks s) (by omega)
                (needs_step_adv tks hf (by omega) (by omega) (by omega))
              rw [heq] at hst
              have h1 := hst.1
              omega)
           | (have hst := ih.deleteSt (advance tks s) (by omega)
                (needs_step_adv tks hf (by omega) (by omega) (by omega))
              rw [heq] at hst
              have h1 := hst.1
              omega)
           | (have hst := ih.runSt (advance tks s) (by omega)
                (needs_step_adv tks hf (by omega) (by omega) (by omega))
              rw [heq] at hst
              have h1 := hst.1
              omega)
           | (have hst := ih.runPathSt (advance tks s) (by omega)
                (needs_step_adv tks hf (by omega) (by omega) (by omega))
              rw [heq] at hst
              have h1 := hst.1
              omega)
           | (have hst := ih.runPathOnceSt (advance tks s) (by omega)
                (needs_step_adv tks hf (by omega) (by omega) (by omega))
              rw [heq] at hst
              have h1 := hst.1
              omega)
           | (have hst := ih.compileSt (advance tks s) (by omega)
                (needs_step_adv tks hf (by omega) (by omega) (by omega))
              rw [heq] at hst
              have h1 := hst.1
              omega)
           | (have hst := ih.printSt (advance tks s) (by omega)
                (needs_step_adv tks hf (by omega) (by omega) (by omega))
              rw [heq] at hst
              have h1 := hst.1
              omega))

theorem stepDefine {n : Nat} (ih : FuelOK tks n) :
    ∀ s, s.current ≤ tks.length → needs tks s 15 (n + 1) →
      StOut tks (define tks (n + 1) s) (s.current + 1) s.current := by
  intro s h hf
  simp only [define]
  rcases hm1 : matchToken tks s [.declare] with ⟨bdecl, s1⟩
  have hb1 := @matchToken_snd_bounds tks s [.declare] h
  rw [hm1] at hb1
  dsimp only at hb1
  obtain ⟨h11, h12⟩ := hb1
  dsimp only
  rcases hm2 : matchToken tks s1 [.local, .global] with ⟨bscope, s2⟩
  have hb2 := @matchToken_snd_bounds tks s1 [.local, .global] h12
  rw [hm2] at hb2
  dsimp only at hb2
  obtain ⟨h21, h22⟩ := hb2
  dsimp only
  split
  · rename_i s3 heq3
    obtain ⟨hend3, hcur3⟩ := matchToken_true tks heq3
    have hlt3 := lt_length_of_not_atEnd tks hend3
    exact (ih.declareFunctionSt s3 _ (by omega)
      (needs_step_adv tks hf (by omega) (by omega)
        (by omega))).weaken tks (by omega) (by omega)
  · rename_i s3 heq3
    obtain ⟨hs3, -⟩ := matchToken_false tks heq3
    have hc3 : s3.current = s2.current := by rw [hs3]
    split
    · rename_i s4 heq4
      obtain ⟨hend4, hcur4⟩ := matchToken_true tks heq4
      have hlt4 := lt_length_of_not_atEnd tks hend4
      exact (ih.declareParameterSt s4 _ (by omega)
        (needs_step_adv tks hf (by omega) (by omega)
          (by omega))).weaken tks (by omega) (by omega)
    · rename_i s4 heq4
      obtain ⟨hs4, -⟩ := matchToken_false tks heq4
      have hc4 : s4.current = s3.current := by rw [hs4]
      split
      · rename_i s5 heq5
        obtain ⟨hend5, hcur5⟩ := matchToken_true tks heq5
        have hlt5 := lt_length_of_not_atEnd tks hend5
        exact (ih.declareLockSt s5 _ (by omega)
          (needs_step_adv tks hf (by omega) (by omega)
            (by omega))).weaken tks (by omega) (by omega)
      · rename_i s5 heq5
        obtain ⟨hs5, -⟩ := matchToken_false tks heq5
        have hc5 : s5.current = s4.current := by rw [hs5]
        cases hbb : (bdecl || bscope) with
        | false =>
          rw [if_neg (by simp [hbb])]
          dsimp only
          exact ⟨by omega, by omega⟩
        | true =>
          rw [if_pos (by simp [hbb])]
          dsimp only
          have hstrict : s.current + 1 ≤ s2.current := by
            rcases (by simpa using hbb : bdecl = true ∨ bscope = true) with hb | hb
            · rw [hb] at hm1
              obtain ⟨hend1, hcur1⟩ := matchToken_true tks hm1
              omega
            · rw [hb] at hm2
              obtain ⟨hend2, hcur2⟩ := matchToken_true tks hm2
              omega
          exact (ih.declareVariableSt s5 _ (by omega)
            (needs_step_adv tks hf (by omega) (by omega)
              (by omega))).weaken tks (by omega) (by omega)

theorem stepDefineErr {n : Nat} (ih : FuelOK tks n) :
    ∀ s, s.current ≤ tks.length → needs tks s 15 (n + 1) →
      ∀ e s1, define tks (n + 1) s = .err e s1 →
        s1.current = s.current →
        (ParseErrorV.failed e).inst = none := by
  intro s h hf e es1 heq hc
  simp only [define] at heq
  rcases hm1 : matchToken tks s [.declare] with ⟨bdecl, st1⟩
  rw [hm1] at heq
  have hb1 := @matchToken_snd_bounds tks s [.declare] h
  rw [hm1] at hb1
  dsimp only at hb1
  obtain ⟨h11, h12⟩ := hb1
  dsimp only at heq
  rcases hm2 : matchToken tks st1 [.local, .global] with ⟨bscope, st2⟩
  rw [hm2] at heq
  have hb2 := @matchToken_snd_bounds tks st1 [.local, .global] h12
  rw [hm2] at hb2
  dsimp only at hb2
  obtain ⟨h21, h22⟩ := hb2
  dsimp only at heq
  split at heq
  · rename_i st3 heq3
    obtain ⟨hend3, hcur3⟩ := matchToken_true tks heq3
    have hlt3 := lt_length_of_not_atEnd tks hend3
    have h1 := StOut.err_lower tks
      (ih.declareFunctionSt st3 _ (by omega)
        (needs_step_adv tks hf (by omega) (by omega) (by omega))) heq
    omega
  · rename_i st3 heq3
    obtain ⟨hs3, -⟩ := matchToken_false tks heq3
    have hc3 : st3.current = st2.current := by rw [hs3]
    split at heq
    · rename_i st4 heq4
      obtain ⟨hend4, hcur4⟩ := matchToken_true tks heq4
      have hlt4 := lt_length_of_not_atEnd tks hend4
      have h1 := StOut.err_lower tks
        (ih.declareParameterSt st4 _ (by omega)
          (needs_step_adv tks hf (by omega) (by omega) (by omega))) heq
      omega
    · rename_i st4 heq4
      obtain ⟨hs4, -⟩ := matchToken_false tks heq4
      have hc4 : st4.current = st3.current := by rw [hs4]
      split at heq
      · rename_i st5 heq5
        obtain ⟨hend5, hcur5⟩ := matchToken_true tks heq5
        have hlt5 := lt_length_of_not_atEnd tks hend5
        have h1 := StOut.err_lower tks
          (ih.declareLockSt st5 _ (by omega)
            (needs_step_adv tks hf (by omega) (by omega) (by omega))) heq
        omega
      · rename_i st5 heq5
        obtain ⟨hs5, -⟩ := matchToken_false tks heq5
        have hc5 : st5.current = st4.current := by rw [hs5]
        cases hbb : (bdecl || bscope) with
        | false =>
          rw [if_neg (by simp [hbb])] at heq
          dsimp only at heq
          cases heq
          rfl
        | true =>
          rw [if_pos (by simp [hbb])] at heq
          dsimp only at heq
          have hstrict : s.current + 1 ≤ st2.current := by
            rcases (by simpa using hbb : bdecl = true ∨ bscope = true) with hb | hb
            · rw [hb] at hm1
              obtain ⟨hend1, hcur1⟩ := matchToken_true tks hm1
              omega
            · rw [hb] at hm2
              obtain ⟨hend2, hcur2⟩ := matchToken_true tks hm2
              omega
          have h1 := StOut.err_lower tks
            (ih.declareVariableSt st5 _ (by omega)
              (needs_step_adv tks hf (by omega) (by omega) (by omega)))
            heq
          omega

theorem stepDeclaration {n : Nat} (ih : FuelOK tks n) :
    ∀ s, s.current ≤ tks.length → needs tks s 16 (n + 1) →
      StOut tks (declaration tks (n + 1) s) s.current s.current := by
  intro s h hf
  have hf' := hf
  simp only [needs] at hf'
  simp only [declaration]
  cases hg : [TokenType.declare, .local, .global, .parameter, .function,
      .lock].any (fun t => check tks s t) with
  | true =>
    rw [if_pos rfl]
    have hdSt := ih.defineSt s h (needs_step_same tks hf (by omega))
    cases hd : define tks n s with
    | ok r s1 =>
      rw [hd] at hdSt
      have h1 := hdSt.1
      exact ⟨by omega, hdSt.2⟩
    | err e1 s1 =>
      rw [hd] at hdSt
      dsimp only
      have h1 := hdSt.1
      have h2 := hdSt.2
      have hsy := @synchronize_st tks n e1.failed s1 h2 (by omega)
      cases hs2 : synchronize tks n e1.failed s1 with
      | ok u s2 =>
        rw [hs2] at hsy
        have hs1 := hsy.1
        exact ⟨by omega, hsy.2⟩
      | err e2 s2 =>
        rw [hs2] at hsy
        have hs1 := hsy.1
        exact ⟨by omega, hsy.2⟩
      | crash s2 =>
        rw [hs2] at hsy
        have hs1 := hsy.1
        exact ⟨by omega, hsy.2⟩
      | fuelOut =>
        rw [hs2] at hsy
        exact hsy.elim
    | crash s1 =>
      rw [hd] at hdSt
      exact ⟨hdSt.1, hdSt.2⟩
    | fuelOut =>
      rw [hd] at hdSt
      exact hdSt.elim
  | false =>
    rw [if_neg (by simp)]
    have hdSt := ih.instructionSt s h (needs_step_same tks hf (by omega))
    cases hd : instruction tks n s with
    | ok r s1 =>
      rw [hd] at hdSt
      have h1 := hdSt.1
      exact ⟨by omega, hdSt.2⟩
    | err e1 s1 =>
      rw [hd] at hdSt
      dsimp only
      have h1 := hdSt.1
      have h2 := hdSt.2
      have hsy := @synchronize_st tks n e1.failed s1 h2 (by omega)
      cases hs2 : synchronize tks n e1.failed s1 with
      | ok u s2 =>
        rw [hs2] at hsy
        have hs1 := hsy.1
        exact ⟨by omega, hsy.2⟩
      | err e2 s2 =>
        rw [hs2] at hsy
        have hs1 := hsy.1
        exact ⟨by omega, hsy.2⟩
      | crash s2 =>
        rw [hs2] at hsy
        have hs1 := hsy.1
        exact ⟨by omega, hsy.2⟩
      | fuelOut =>
        rw [hs2] at hsy
        exact hsy.elim
    | crash s1 =>
      rw [hd] at hdSt
      exact ⟨hdSt.1, hdSt.2⟩
    | fuelOut =>
      rw [hd] at hdSt
      exact hdSt.elim

theorem stepDeclarationOk {n : Nat} (ih : FuelOK tks n) :
    ∀ s, s.current ≤ tks.length → needs tks s 16 (n + 1) →
      isAtEnd tks s = false →
      ∀ a s1, declaration tks (n + 1) s = .ok a s1 →
        s.current + 1 ≤ s1.current := by
  intro s h hf hend a sf heq
  have hf' := hf
  simp only [needs] at hf'
  simp only [declaration] at heq
  cases hg : [TokenType.declare, .local, .global, .parameter, .function,
      .lock].any (fun t => check tks s t) with
  | true =>
    rw [if_pos hg] at heq
    have hdSt := ih.defineSt s h (needs_step_same tks hf (by omega))
    cases hd : define tks n s with
    | ok r s1 =>
      rw [hd] at heq hdSt
      dsimp only at heq
      cases heq
      exact hdSt.1
    | err e1 s1 =>
      rw [hd] at heq hdSt
      dsimp only at heq
      have h1 := hdSt.1
      have h2 := hdSt.2
      by_cases hx : s1.current = s.current
      · have hnone := ih.defineErr s h
          (needs_step_same tks hf (by omega)) e1 s1 hd hx
        have hend1 : isAtEnd tks s1 = false := by
          rw [isAtEnd_congr tks hx]
          exact hend
        have hsy := @synchronize_none_st tks n e1.failed s1 h2 hnone
          hend1 (by omega)
        cases hs2 : synchronize tks n e1.failed s1 with
        | ok u s2 =>
          rw [hs2] at heq hsy
          dsimp only at heq
          cases heq
          have hs1 := hsy.1
          omega
        | err e2 s2 =>
          rw [hs2] at heq
          dsimp only at heq
          cases heq
        | crash s2 =>
          rw [hs2] at heq
          dsimp only at heq
          cases heq
        | fuelOut =>
          rw [hs2] at hsy
          exact hsy.elim
      · have hsy := @synchronize_st tks n e1.failed s1 h2 (by omega)
        cases hs2 : synchronize tks n e1.failed s1 with
        | ok u s2 =>
          rw [hs2] at heq hsy
          dsimp only at heq
          cases heq
          have hs1 := hsy.1
          omega
        | err e2 s2 =>
          rw [hs2] at heq
          dsimp only at heq
          cases heq
        | crash s2 =>
          rw [hs2] at heq
          dsimp only at heq
          cases heq
        | fuelOut =>
          rw [hs2] at hsy
          exact hsy.elim
    | crash s1 =>
      rw [hd] at heq
      dsimp only at heq
      cases heq
    | fuelOut =>
      rw [hd] at hdSt
      exact hdSt.elim
  | false =>
    rw [if_neg (by simp [hg])] at heq
    have hdSt := ih.instructionSt s h (needs_step_same tks hf (by omega))
    cases hd : instruction tks n s with
    | ok r s1 =>
      rw [hd] at heq hdSt
      dsimp only at heq
      cases heq
      exact hdSt.1
    | err e1 s1 =>
      rw [hd] at heq hdSt
      dsimp only at heq
      have h1 := hdSt.1
      have h2 := hdSt.2
      by_cases hx : s1.current = s.current
      · have hnone := ih.instructionErr s h
          (needs_step_same tks hf (by omega)) e1 s1 hd hx
        have hend1 : isAtEnd tks s1 = false := by
          rw [isAtEnd_congr tks hx]
          exact hend
        have hsy := @synchronize_none_st tks n e1.failed s1 h2 hnone
          hend1 (by omega)
        cases hs2 : synchronize tks n e1.failed s1 with
        | ok u s2 =>
          rw [hs2] at heq hsy
          dsimp only at heq
          cases heq
          have hs1 := hsy.1
          omega
        | err e2 s2 =>
          rw [hs2] at heq
          dsimp only at heq
          cases heq
        | crash s2 =>
          rw [hs2] at heq
          dsimp only at heq
          cases heq
        | fuelOut =>
          rw [hs2] at hsy
          exact hsy.elim
      · have hsy := @synchronize_st tks n e1.failed s1 h2 (by omega)
        cases hs2 : synchronize tks n e1.failed s1 with
        | ok u s2 =>
          rw [hs2] at heq hsy
          dsimp only at heq
          cases heq
          have hs1 := hsy.1
          omega
        | err e2 s2 =>
          rw [hs2] at heq
          dsimp only at heq
          cases heq
        | crash s2 =>
          rw [hs2] at heq
          dsimp only at heq
          cases heq
        | fuelOut =>
          rw [hs2] at hsy
          exact hsy.elim
    | crash s1 =>
      rw [hd] at heq
      dsimp only at heq
      cases heq
    | fuelOut =>
      rw [hd] at hdSt
      exact hdSt.elim

theorem stepBlockDeclarations {n : Nat} (ih : FuelOK tks n) :
    ∀ s ds es, s.current ≤ tks.length → needs tks s 17 (n + 1) →
      StOut tks (blockDeclarations tks (n + 1) ds es s)
        s.current s.current := by
  intro s ds es h hf
  simp only [blockDeclarations]
  split
  · rename_i hgd
    have hend : isAtEnd tks s = false := by
      simp only [Bool.and_eq_true, Bool.not_eq_true'] at hgd
      exact hgd.2
    have hdOk := ih.declarationOk s h
      (needs_step_same tks hf (by omega)) hend
    refine StOut.bind_st tks
      (ih.declarationSt s h (needs_step_same tks hf (by omega))) ?_
    intro r s1 hok hlo hhi
    have hstrict := hdOk r s1 hok
    exact (ih.blockDeclarationsSt s1 _ _ hhi
      (needs_step_adv tks hf hstrict hhi (by omega))).weaken tks
        (by omega) (by omega)
  · exact ⟨Nat.le_refl _, h⟩

theorem stepParseLoop {n : Nat} (ih : FuelOK tks n) :
    ∀ s insts errs, s.current ≤ tks.length → needs tks s 17 (n + 1) →
      StOut tks (parseLoop tks (n + 1) s insts errs)
        s.current s.current := by
  intro s insts errs h hf
  simp only [parseLoop]
  split
  · exact ⟨Nat.le_refl _, h⟩
  · rename_i hgd
    simp only [Bool.not_eq_true] at hgd
    have hdOk := ih.declarationOk s h
      (needs_step_same tks hf (by omega)) hgd
    refine StOut.bind_st tks
      (ih.declarationSt s h (needs_step_same tks hf (by omega))) ?_
    intro r s1 hok hlo hhi
    have hstrict := hdOk r s1 hok
    exact (ih.parseLoopSt s1 _ _ hhi
      (needs_step_adv tks hf hstrict hhi (by omega))).weaken tks
        (by omega) (by omega)

theorem stepInstructionBlock {n : Nat} (ih : FuelOK tks n) :
    ∀ s, s.current ≤ tks.length → needs tks s 18 (n + 1) →
      StOut tks (instructionBlock tks (n + 1) s)
        s.current s.current := by
  intro s h hf
  simp only [instructionBlock]
  refine StOut.bind_st tks
    (ih.blockDeclarationsSt s [] [] h
      (needs_step_same tks hf (by omega))) ?_
  intro de s1 _ hlo hhi
  split
  · rename_i close s2 heq
    have hb := @consumeTokenReturn_st tks
      "Expected \"\x7d\" to finish instruction block"
      (some (.instCtor "Block")) [.curlyClose] s1 hhi
    rw [heq] at hb
    dsimp only at hb
    obtain ⟨hb1, hb2⟩ := hb
    exact ⟨by omega, hb2⟩
  · rename_i e2 s2 heq
    have hb := @consumeTokenReturn_st tks
      "Expected \"\x7d\" to finish instruction block"
      (some (.instCtor "Block")) [.curlyClose] s1 hhi
    rw [heq] at hb
    dsimp only at hb
    obtain ⟨hb1, hb2⟩ := hb
    exact ⟨by omega, hb2⟩

theorem stepAnonymousFunction {n : Nat} (ih : FuelOK tks n) :
    ∀ s, s.current ≤ tks.length → needs tks s 18 (n + 1) →
      StOut tks (anonymousFunction tks (n + 1) s)
        s.current s.current := by
  intro s h hf
  simp only [anonymousFunction]
  refine StOut.bind_st tks
    (ih.blockDeclarationsSt s [] [] h
      (needs_step_same tks hf (by omega))) ?_
  intro de s1 _ hlo hhi
  refine StOut.bind_st tks
    ((consumeTokenThrow_st tks hhi).weaken tks (Nat.le_refl _)
      (by omega)) ?_
  intro close s2 _ hlo2 hhi2
  split
  · exact ⟨by omega, hhi2⟩
  · exact ⟨by omega, hhi2⟩

end ParserThms

/-- Fuel sufficiency: every parser routine meets its `StOut` contract at
every fuel, by induction on the fuel (vacuous below its `needs`). -/
theorem fuelOK_all (tks : List Token) : ∀ fuel, FuelOK tks fuel := by
  intro fuel
  induction fuel with
  | zero =>
    constructor <;> (intros; exact (needs_none tks (by assumption)).elim)
  | succ n ihn =>
    exact {
      atomSt := stepAtom tks ihn
      atomErr := stepAtomErr tks ihn
      arrayIndexSt := stepArrayIndex tks ihn
      suffixTermSt := stepSuffixTerm tks ihn
      suffixTermErr := stepSuffixTermErr tks ihn
      suffixTermLoopSt := stepSuffixTermLoop tks ihn
      suffixLoopSt := stepSuffixLoop tks ihn
      orLoopSt := stepOrLoop tks ihn
      andLoopSt := stepAndLoop tks ihn
      equalityLoopSt := stepEqualityLoop tks ihn
      comparisonLoopSt := stepComparisonLoop tks ihn
      additionLoopSt := stepAdditionLoop tks ihn
      multiplicationLoopSt := stepMultiplicationLoop tks ihn
      factorLoopSt := stepFactorLoop tks ihn
      declareNormalParametersSt := stepDeclareNormalParameters tks ihn
      declaredDefaultedParametersSt :=
        stepDeclaredDefaultedParameters tks ihn
      declareFunctionSt := stepDeclareFunction tks ihn
      declareLockSt := stepDeclareLock tks ihn
      declareVariableSt := stepDeclareVariable tks ihn
      suffixSt := stepSuffix tks ihn
      suffixErr := stepSuffixErr tks ihn
      suffixTrailerSt := stepSuffixTrailer tks ihn
      declareParameterSt := stepDeclareParameter tks ihn
      suffixCatchSt := stepSuffixCatch tks ihn
      suffixCatchErr := stepSuffixCatchErr tks ihn
      factorSt := stepFactor tks ihn
      unarySt := stepUnary tks ihn
      multiplicationSt := stepMultiplication tks ihn
      additionSt := stepAddition tks ihn
      comparisonSt := stepComparison tks ihn
      equalitySt := stepEquality tks ihn
      andExprSt := stepAndExpr tks ihn
      orExprSt := stepOrExpr tks ihn
      expressionSt := stepExpression tks ihn
      argumentsLoopSt := stepArgumentsLoop tks ihn
      arrayBracketSt := stepArrayBracket tks ihn
      commandExpressionSt := stepCommandExpression tks ihn
      setSt := stepSet tks ihn
      ifInstSt := stepIfInst tks ihn
      untilInstSt := stepUntilInst tks ihn
      fromInstSt := stepFromInst tks ihn
      whenInstSt := stepWhenInst tks ihn
      returnInstSt := stepReturnInst tks ihn
      switchInstSt := stepSwitchInst tks ihn
      forInstSt := stepForInst tks ihn
      onInstSt := stepOnInst tks ihn
      toggleSt := stepToggle tks ihn
      waitSt := stepWait tks ihn
      logSt := stepLog tks ihn
      copySt := stepCopy tks ihn
      renameSt := stepRename tks ihn
      deleteSt := stepDelete tks ihn
      runSt := stepRun tks ihn
      runPathSt := stepRunPath tks ihn
      runPathOnceSt := stepRunPathOnce tks ihn
      compileSt := stepCompile tks ihn
      printSt := stepPrint tks ihn
      argumentsSt := stepArguments tks ihn
      identifierLedInstructionSt :=
        stepIdentifierLedInstruction tks ihn
      identifierLedInstructionErr :=
        stepIdentifierLedInstructionErr tks ihn
      functionTrailerSt := stepFunctionTrailer tks ihn
      instructionSt := stepInstruction tks ihn
      instructionErr := stepInstructionErr tks ihn
      defineSt := stepDefine tks ihn
      defineErr := stepDefineErr tks ihn
      declarationSt := stepDeclaration tks ihn
      declarationOk := stepDeclarationOk tks ihn
      blockDeclarationsSt := stepBlockDeclarations tks ihn
      parseLoopSt := stepParseLoop tks ihn
      instructionBlockSt := stepInstructionBlock tks ihn
      anonymousFunctionSt := stepAnonymousFunction tks ihn }

/-- C1: on every finite token stream the parser terminates — with the
computed sufficient fuel `parseFuel input` it returns a normal result —
and `parse` never lets a failure escape its boundary: for every fuel it
never returns a thrown `ParseError` or a crash, and whenever the parse
loop escapes with a throw or a crash, the boundary logs it and returns
the empty tree. -/
theorem parse_total_and_caught (input : List Token) :
    (∃ r sEnd,
      Parser.parseFromTokens (parseFuel input) input = POut.ok r sEnd) ∧
    (∀ fuel e s, Parser.parseFromTokens fuel input ≠ POut.err e s) ∧
    (∀ fuel s, Parser.parseFromTokens fuel input ≠ POut.crash s) ∧
    (∀ fuel e s,
      Parser.parseLoop (initTokens input) fuel initState [] [] =
          POut.err e s →
        Parser.parseFromTokens fuel input = POut.ok ⟨[], [], []⟩ s) ∧
    (∀ fuel s,
      Parser.parseLoop (initTokens input) fuel initState [] [] =
          POut.crash s →
        Parser.parseFromTokens fuel input = POut.ok ⟨[], [], []⟩ s) := by
  refine ⟨?_, ?_, ?_, ?_, ?_⟩
  · have hok := (fuelOK_all (initTokens input)
      (parseFuel input)).parseLoopSt initState [] []
      (Nat.zero_le _)
      (by
        simp only [needs, initTokens, parseFuel, initState,
          List.length_append, List.length_cons, List.length_nil]
        omega)
    unfold parseFromTokens parse
    cases hp : parseLoop (initTokens input) (parseFuel input)
        initState [] [] with
    | ok r s1 => exact ⟨_, _, rfl⟩
    | err e s1 => exact ⟨_, _, rfl⟩
    | crash s1 => exact ⟨_, _, rfl⟩
    | fuelOut =>
      rw [hp] at hok
      exact hok.elim
  · intro fuel e s hcontra
    unfold parseFromTokens parse at hcontra
    cases hp : parseLoop (initTokens input) fuel initState [] [] <;>
      rw [hp] at hcontra <;> simp at hcontra
  · intro fuel s hcontra
    unfold parseFromTokens parse at hcontra
    cases hp : parseLoop (initTokens input) fuel initState [] [] <;>
      rw [hp] at hcontra <;> simp at hcontra
  · intro fuel e s hp
    unfold parseFromTokens parse
    rw [hp]
  · intro fuel s hp
    unfold parseFromTokens parse
    rw [hp]

/-- Witness for C1 at the empty token stream: with its computed fuel the
parser returns the empty normal result, and no fuel makes it throw or
crash past the boundary. -/
theorem parse_total_and_caught_witness :
    Parser.parseFromTokens (parseFuel []) [] =
      POut.ok ⟨[], [], []⟩ ⟨0, []⟩ ∧
    (∀ fuel e s, Parser.parseFromTokens fuel [] ≠ POut.err e s) ∧
    (∀ fuel s, Parser.parseFromTokens fuel [] ≠ POut.crash s) :=
  ⟨rfl, (parse_total_and_caught []).2.1, (parse_total_and_caught []).2.2.1⟩

end Parser

end KosCheck
